import Mathlib

/-!
# Bug Notes Assistant — document engine, shallow embedding

This file embeds the document model and transformation engine of the
Bug Notes Assistant (src/testv021.py, the current build of the program;
src/test.py is the prior build of the same engine with the same section,
issue and promotion logic minus the Found/Invalid section) and proves the
specification claims about it.

Modelling conventions:
* Python `str` is modelled as `Str := List Char`.  Whitespace sets
  (`str.strip`, regex `\s`) are modelled over the ASCII whitespace
  characters, and `str.splitlines` over its documented line-break
  characters (including `\r\n` as a single break).
* `datetime.now()` is passed in explicitly as a `now : Str` parameter to
  the one helper that consults the wall clock (`normalize_time_12h`).
* Python list slice assignment `lines[i:i] = block` is `spliceAt`,
  `del lines[i]` is `List.eraseIdx`.
* All functions are total, mirroring the source, which raises no
  exceptions on any input in the fragments modelled here.
-/

set_option maxRecDepth 10000

abbrev Str : Type := List Char

def str (s : String) : Str := s.data

/-- ASCII whitespace, the characters stripped by `str.strip()` and matched
by `\s` for the ASCII inputs this document format uses. -/
def isPySpace (c : Char) : Bool :=
  c = ' ' || c = '\t' || c = '\n' || c = '\r' || c = '\x0b' || c = '\x0c'

/-- The line-break characters of `str.splitlines`. -/
def isBreakCh (c : Char) : Bool :=
  c = '\n' || c = '\r' || c = '\x0b' || c = '\x0c' ||
  c.toNat = 0x1c || c.toNat = 0x1d || c.toNat = 0x1e || c.toNat = 0x85 ||
  c.toNat = 0x2028 || c.toNat = 0x2029

/-- A string with no line-break character: it renders as a single line. -/
def breakfree (s : Str) : Bool := s.all (fun c => !(isBreakCh c))

/-- `str.lstrip()`. -/
def pstripLeft (s : Str) : Str := s.dropWhile isPySpace

/-- `str.rstrip()`, by structural recursion from the right. -/
def pstripRight : Str → Str
  | [] => []
  | c :: cs =>
    match pstripRight cs with
    | [] => if isPySpace c then [] else [c]
    | r => c :: r

/-- `str.strip()`. -/
def pstrip (s : Str) : Str := pstripRight (pstripLeft s)

/-- Attach a character to the front of the first line. -/
def consHead (c : Char) : List Str → List Str
  | [] => [[c]]
  | l :: ls => (c :: l) :: ls

/-- `str.splitlines()`: split at the break characters, treating `\r\n` as a
single break; a trailing break yields no extra empty line. -/
def splitlinesCs : Str → List Str
  | [] => []
  | [c] => if isBreakCh c then [[]] else [[c]]
  | c :: d :: cs =>
    if isBreakCh c then
      if c = '\r' && d = '\n' then [] :: splitlinesCs cs
      else [] :: splitlinesCs (d :: cs)
    else consHead c (splitlinesCs (d :: cs))

/-- `"\n".join(lines)`. -/
def joinNl : List Str → Str
  | [] => []
  | [l] => l
  | l :: ls => l ++ '\n' :: joinNl ls

/-- `s.endswith("\n")`. -/
def endsNl (s : Str) : Bool := s.getLast? = some '\n'

/-- `out + ("\n" if not out.endswith("\n") else "")`, the newline guard the
engine applies to every rebuilt document. -/
def ensureNl (s : Str) : Str := if endsNl s then s else s ++ ['\n']

/-- Boolean prefix test (`s.startswith(pat)` is `isPrefB pat s`). -/
def isPrefB : Str → Str → Bool
  | [], _ => true
  | _ :: _, [] => false
  | p :: ps, c :: cs => p == c && isPrefB ps cs

/-- Python `pat in s` (substring occurrence). -/
def containsSub (s pat : Str) : Bool :=
  isPrefB pat s ||
  match s with
  | [] => false
  | _ :: cs => containsSub cs pat

/-- Number of positions of `s` at which `pat` occurs. -/
def countOcc (s pat : Str) : Nat :=
  (if isPrefB pat s then 1 else 0) +
  match s with
  | [] => 0
  | _ :: cs => countOcc cs pat

/-- Worker for `replaceAllE`, structurally recursive on a fuel bound that
dominates the input length (each step consumes at least one character). -/
def replaceAllGo (pat : Str) : Nat → Str → Str
  | 0, s => s
  | _ + 1, [] => []
  | n + 1, c :: cs =>
    if isPrefB pat (c :: cs) then replaceAllGo pat n (cs.drop (pat.length - 1))
    else c :: replaceAllGo pat n cs

/-- `s.replace(pat, "")` for a non-empty pattern: remove every
(left-to-right, non-overlapping) occurrence. -/
def replaceAllE (pat : Str) (s : Str) : Str := replaceAllGo pat s.length s

/-- Python slice assignment `lines[n:n] = blk`. -/
def spliceAt (L : List Str) (n : Nat) (blk : List Str) : List Str :=
  L.take n ++ blk ++ L.drop n

/-- First index whose line satisfies `p`. -/
def findIdxA (p : Str → Bool) : List Str → Option Nat
  | [] => none
  | l :: ls => if p l then some 0 else (findIdxA p ls).map (· + 1)

/-- `lines[n]` as an option. -/
def nthLine (L : List Str) (n : Nat) : Option Str := (L.drop n).head?

-- ## Basic lemmas about the string model

theorem isPrefB_iff (p s : Str) : isPrefB p s = true ↔ p <+: s := by
  induction p generalizing s with
  | nil => simp [isPrefB]
  | cons a ps ih =>
    cases s with
    | nil => simp [isPrefB]
    | cons c cs =>
      simp [isPrefB, List.cons_prefix_cons, ih]

theorem containsSub_iff (s pat : Str) : containsSub s pat = true ↔ pat <:+: s := by
  induction s with
  | nil => simp [containsSub, isPrefB_iff, List.prefix_nil, List.infix_nil]
  | cons c cs ih =>
    rw [containsSub]
    simp only [Bool.or_eq_true, isPrefB_iff, ih]
    constructor
    · rintro (h | h)
      · exact h.isInfix
      · exact h.trans (List.suffix_cons c cs).isInfix
    · intro h
      rcases h with ⟨u, v, huv⟩
      cases u with
      | nil => exact Or.inl ⟨v, by simpa using huv⟩
      | cons a u' =>
        have h2 : u' ++ pat ++ v = cs := by
          have ht := congrArg List.tail huv
          simpa using ht
        exact Or.inr ⟨u', v, h2⟩

theorem countOcc_eq_zero (s pat : Str) :
    countOcc s pat = 0 ↔ containsSub s pat = false := by
  induction s with
  | nil =>
    rw [countOcc, containsSub]
    cases h : isPrefB pat [] <;> simp [h]
  | cons c cs ih =>
    rw [countOcc, containsSub]
    cases h : isPrefB pat (c :: cs) <;> simp [h, ih]

-- ## splitlines / join lemmas

theorem splitlines_nil : splitlinesCs [] = [] := rfl

theorem splitlines_one (c : Char) :
    splitlinesCs [c] = if isBreakCh c then [[]] else [[c]] := rfl

theorem splitlines_two (c d : Char) (cs : Str) :
    splitlinesCs (c :: d :: cs) =
      if isBreakCh c then
        if c = '\r' && d = '\n' then [] :: splitlinesCs cs
        else [] :: splitlinesCs (d :: cs)
      else consHead c (splitlinesCs (d :: cs)) := rfl

theorem splitlines_rn (cs : Str) :
    splitlinesCs ('\r' :: '\n' :: cs) = [] :: splitlinesCs cs := by
  rw [splitlines_two]
  rw [if_pos (by decide : isBreakCh '\r' = true), if_pos (by decide)]

theorem splitlines_cons_break {c : Char} (cs : Str)
    (hb : isBreakCh c = true) (hr : ¬(c = '\r' ∧ cs.head? = some '\n')) :
    splitlinesCs (c :: cs) = [] :: splitlinesCs cs := by
  cases cs with
  | nil =>
    rw [splitlines_one, if_pos hb, splitlines_nil]
  | cons d ds =>
    rw [splitlines_two, if_pos hb, if_neg ?_]
    intro hcd
    simp only [Bool.and_eq_true, decide_eq_true_eq] at hcd
    exact hr ⟨hcd.1, by rw [hcd.2]; rfl⟩

theorem splitlines_cons_ok {c : Char} (cs : Str) (hb : isBreakCh c = false) :
    splitlinesCs (c :: cs) = consHead c (splitlinesCs cs) := by
  cases cs with
  | nil =>
    rw [splitlines_one, if_neg (by simp [hb]), splitlines_nil]
    rfl
  | cons d ds =>
    rw [splitlines_two, if_neg (by simp [hb])]

theorem consHead_append (c : Char) (A B : List Str) (hA : A ≠ []) :
    consHead c (A ++ B) = consHead c A ++ B := by
  cases A with
  | nil => exact absurd rfl hA
  | cons l ls => simp [consHead]

theorem splitlines_ne_nil (s : Str) (h : s ≠ []) : splitlinesCs s ≠ [] := by
  cases s with
  | nil => exact absurd rfl h
  | cons c cs =>
    cases cs with
    | nil =>
      rw [splitlines_one]
      split <;> simp
    | cons d ds =>
      rw [splitlines_two]
      split
      · split <;> simp
      · cases splitlinesCs (d :: ds) <;> simp [consHead]

theorem splitlines_cut : ∀ (y rest : Str),
    splitlinesCs (y ++ '\n' :: rest) = splitlinesCs (y ++ ['\n']) ++ splitlinesCs rest
  | [], rest => by
    simp only [List.nil_append]
    rw [splitlines_cons_break rest (by simp [isBreakCh]) (by simp),
        splitlines_cons_break ([] : Str) (by simp [isBreakCh]) (by simp), splitlines_nil]
    simp
  | c :: y', rest => by
    by_cases hb : isBreakCh c = true
    · by_cases hrc : c = '\r'
      · subst hrc
        cases y' with
        | nil =>
          simp only [List.cons_append, List.nil_append]
          rw [splitlines_rn, splitlines_rn, splitlines_nil]
          simp
        | cons d y'' =>
          by_cases hdn : d = '\n'
          · subst hdn
            simp only [List.cons_append]
            rw [splitlines_rn, splitlines_rn, splitlines_cut y'' rest]
            simp
          · simp only [List.cons_append]
            have hcut := splitlines_cut (d :: y'') rest
            simp only [List.cons_append] at hcut
            rw [splitlines_cons_break _ hb (by simp [hdn]),
                splitlines_cons_break _ hb (by simp [hdn]), hcut]
            simp
      · simp only [List.cons_append]
        have hcut := splitlines_cut y' rest
        rw [splitlines_cons_break _ hb (by simp [hrc]),
            splitlines_cons_break _ hb (by simp [hrc]), hcut]
        simp
    · simp only [List.cons_append]
      have hcut := splitlines_cut y' rest
      rw [splitlines_cons_ok _ (by simpa using hb),
          splitlines_cons_ok _ (by simpa using hb), hcut,
          consHead_append _ _ _ (splitlines_ne_nil _ (by simp))]

theorem breakfree_single (y : Str) (h : breakfree y = true) :
    splitlinesCs (y ++ ['\n']) = [y] := by
  induction y with
  | nil =>
    rw [List.nil_append, splitlines_cons_break ([] : Str) (by simp [isBreakCh]) (by simp),
        splitlines_nil]
  | cons c y' ih =>
    simp only [breakfree, List.all_cons, Bool.and_eq_true, Bool.not_eq_eq_eq_not,
      Bool.not_true] at h
    have h1 : isBreakCh c = false := by simpa using h.1
    have h2 : breakfree y' = true := by
      simp only [breakfree]
      exact h.2
    rw [List.cons_append, splitlines_cons_ok _ h1, ih h2]
    simp [consHead]

theorem splitlines_flat : ∀ (L : List Str), L ≠ [] →
    splitlinesCs (joinNl L ++ ['\n']) = L.flatMap (fun e => splitlinesCs (e ++ ['\n']))
  | [], h => absurd rfl h
  | [e], _ => by simp [joinNl]
  | e :: e' :: L', _ => by
    have : joinNl (e :: e' :: L') ++ ['\n'] = e ++ '\n' :: (joinNl (e' :: L') ++ ['\n']) := by
      rw [joinNl]
      · simp
      · simp
    rw [this, splitlines_cut, splitlines_flat (e' :: L') (by simp)]
    simp

theorem splitlines_join_breakfree (L : List Str) (h : L ≠ [])
    (hb : ∀ e ∈ L, breakfree e = true) :
    splitlinesCs (joinNl L ++ ['\n']) = L := by
  rw [splitlines_flat L h]
  induction L with
  | nil => rfl
  | cons e L' ih =>
    rw [List.flatMap_cons, breakfree_single e (hb e (List.mem_cons_self e L'))]
    by_cases hL' : L' = []
    · subst hL'; simp
    · rw [ih hL' (fun x hx => hb x (List.mem_cons_of_mem _ hx))]
      rfl

theorem joinNl_append (A B : List Str) (hA : A ≠ []) (hB : B ≠ []) :
    joinNl (A ++ B) = joinNl A ++ '\n' :: joinNl B := by
  induction A with
  | nil => exact absurd rfl hA
  | cons a A' ih =>
    cases A' with
    | nil =>
      cases B with
      | nil => exact absurd rfl hB
      | cons b B' => simp [joinNl]
    | cons a' A'' =>
      rw [List.cons_append, joinNl, joinNl, ih (by simp)]
      · simp
      · simp
      · simp

theorem joinNl_concat (A : List Str) (x : Str) (h : A ≠ []) :
    joinNl (A ++ [x]) = joinNl A ++ '\n' :: x := by
  rw [joinNl_append A [x] h (by simp), joinNl]

theorem mem_joinNl_sub (L : List Str) (e : Str) (he : e ∈ L) : e <:+: joinNl L := by
  induction L with
  | nil => simp at he
  | cons a L' ih =>
    rcases List.mem_cons.mp he with h | h
    · subst h
      cases L' with
      | nil => exact List.infix_refl _
      | cons b B => exact ⟨[], '\n' :: joinNl (b :: B), by simp [joinNl]⟩
    · cases L' with
      | nil => simp at h
      | cons b B =>
        rcases ih h with ⟨u, v, huv⟩
        have hj : joinNl (a :: b :: B) = a ++ '\n' :: joinNl (b :: B) := by
          rw [joinNl]
          simp
        exact ⟨a ++ '\n' :: u, v, by rw [hj, ← huv]; simp⟩

theorem endsNl_append_nl (s : Str) : endsNl (s ++ ['\n']) = true := by
  simp [endsNl]

theorem endsNl_cons (c : Char) (s : Str) (h : s ≠ []) : endsNl (c :: s) = endsNl s := by
  cases s with
  | nil => exact absurd rfl h
  | cons y ys => simp [endsNl, List.getLast?_cons_cons]

theorem endsNl_append (a b : Str) (h : b ≠ []) : endsNl (a ++ b) = endsNl b := by
  simp [endsNl, List.getLast?_append_of_ne_nil a h]

theorem breakfree_not_endsNl (e : Str) (he : e ≠ []) (hb : breakfree e = true) :
    endsNl e = false := by
  induction e using List.reverseRecOn with
  | nil => exact absurd rfl he
  | append_singleton xs c _ =>
    simp only [breakfree, List.all_append, List.all_cons, Bool.and_eq_true] at hb
    have hc : isBreakCh c = false := by
      have := hb.2.1
      simp only [List.all_nil, Bool.and_true] at this
      simpa using this
    have : c ≠ '\n' := by
      intro hcn; subst hcn; simp [isBreakCh] at hc
    simp [endsNl, this]

theorem joinNl_ne_nil (L : List Str) (hL : L ≠ []) (hlast : L.getLast? ≠ some []) :
    joinNl L ≠ [] := by
  cases L with
  | nil => exact absurd rfl hL
  | cons x L' =>
    cases L' with
    | nil =>
      rw [joinNl]
      intro h
      exact hlast (by simp [h])
    | cons y B => rw [joinNl] <;> simp

theorem endsNl_joinNl (L : List Str) (hL : L ≠ [])
    (hlast : ∀ e, L.getLast? = some e → e ≠ [] ∧ endsNl e = false) :
    endsNl (joinNl L) = false := by
  induction L with
  | nil => exact absurd rfl hL
  | cons x L' ih =>
    cases L' with
    | nil =>
      rw [joinNl]
      exact (hlast x (by simp)).2
    | cons y B =>
      rw [joinNl]
      · have hlast' : ∀ e, (y :: B).getLast? = some e → e ≠ [] ∧ endsNl e = false := by
          intro e hhe
          exact hlast e (by rwa [List.getLast?_cons_cons])
        have hj : joinNl (y :: B) ≠ [] := by
          apply joinNl_ne_nil _ (by simp)
          intro hcontra
          exact (hlast' [] hcontra).1 rfl
        rw [endsNl_append _ _ (by simp), endsNl_cons _ _ hj]
        exact ih (by simp) hlast'
      · simp

theorem ensureNl_of_ends (s : Str) (h : endsNl s = true) : ensureNl s = s := by
  simp [ensureNl, h]

theorem ensureNl_of_not_ends (s : Str) (h : endsNl s = false) :
    ensureNl s = s ++ ['\n'] := by
  simp [ensureNl, h]

theorem mem_splitlines_breakfree : ∀ (s l : Str), l ∈ splitlinesCs s → breakfree l = true
  | [], l, h => by rw [splitlines_nil] at h; simp at h
  | c :: cs, l, h => by
    by_cases hb : isBreakCh c = true
    · by_cases hrn : c = '\r' ∧ cs.head? = some '\n'
      · obtain ⟨h1, h2⟩ := hrn
        subst h1
        cases cs with
        | nil => simp at h2
        | cons d cs' =>
          have hd : d = '\n' := by simpa using h2
          subst hd
          rw [splitlines_rn] at h
          rcases List.mem_cons.mp h with h | h
          · subst h; rfl
          · exact mem_splitlines_breakfree cs' l h
      · rw [splitlines_cons_break _ hb hrn] at h
        rcases List.mem_cons.mp h with h | h
        · subst h; rfl
        · exact mem_splitlines_breakfree cs l h
    · rw [splitlines_cons_ok _ (by simpa using hb)] at h
      cases hs : splitlinesCs cs with
      | nil =>
        rw [hs] at h
        simp only [consHead, List.mem_singleton] at h
        subst h
        simp [breakfree, hb]
      | cons l0 ls =>
        rw [hs] at h
        simp only [consHead] at h
        rcases List.mem_cons.mp h with h | h
        · subst h
          have h0 : breakfree l0 = true :=
            mem_splitlines_breakfree cs l0 (by rw [hs]; exact List.mem_cons_self _ _)
          simp only [breakfree, List.all_cons, Bool.and_eq_true]
          exact ⟨by simpa using hb, h0⟩
        · exact mem_splitlines_breakfree cs l (by rw [hs]; exact List.mem_cons_of_mem _ h)
termination_by s => s.length

theorem splitlines_head_pref : ∀ (s l : Str) (ls : List Str),
    splitlinesCs s = l :: ls → l <+: s
  | [], l, ls, h => by rw [splitlines_nil] at h; simp at h
  | c :: cs, l, ls, h => by
    by_cases hb : isBreakCh c = true
    · by_cases hrn : c = '\r' ∧ cs.head? = some '\n'
      · obtain ⟨h1, h2⟩ := hrn
        subst h1
        cases cs with
        | nil => simp at h2
        | cons d cs' =>
          have hd : d = '\n' := by simpa using h2
          subst hd
          rw [splitlines_rn] at h
          injection h with h1 _
          subst h1
          exact List.nil_prefix
      · rw [splitlines_cons_break _ hb hrn] at h
        injection h with h1 _
        subst h1
        exact List.nil_prefix
    · rw [splitlines_cons_ok _ (by simpa using hb)] at h
      cases hs : splitlinesCs cs with
      | nil =>
        rw [hs] at h
        simp only [consHead] at h
        injection h with h1 _
        subst h1
        simp
      | cons l0 ls0 =>
        rw [hs] at h
        simp only [consHead] at h
        injection h with h1 _
        subst h1
        have := splitlines_head_pref cs l0 ls0 hs
        exact (List.prefix_cons_inj c).mpr this
termination_by s => s.length

theorem mem_splitlines_sub : ∀ (s l : Str), l ∈ splitlinesCs s → l <:+: s
  | [], l, h => by rw [splitlines_nil] at h; simp at h
  | c :: cs, l, h => by
    by_cases hb : isBreakCh c = true
    · by_cases hrn : c = '\r' ∧ cs.head? = some '\n'
      · obtain ⟨h1, h2⟩ := hrn
        subst h1
        cases cs with
        | nil => simp at h2
        | cons d cs' =>
          have hd : d = '\n' := by simpa using h2
          subst hd
          rw [splitlines_rn] at h
          rcases List.mem_cons.mp h with h | h
          · subst h; exact List.nil_infix
          · exact List.infix_cons (List.infix_cons (mem_splitlines_sub cs' l h))
      · rw [splitlines_cons_break _ hb hrn] at h
        rcases List.mem_cons.mp h with h | h
        · subst h; exact List.nil_infix
        · exact List.infix_cons (mem_splitlines_sub cs l h)
    · rw [splitlines_cons_ok _ (by simpa using hb)] at h
      cases hs : splitlinesCs cs with
      | nil =>
        rw [hs] at h
        simp only [consHead, List.mem_singleton] at h
        subst h
        exact ⟨[], cs, rfl⟩
      | cons l0 ls =>
        rw [hs] at h
        simp only [consHead] at h
        rcases List.mem_cons.mp h with h | h
        · subst h
          have h0 : l0 <+: cs := splitlines_head_pref cs l0 ls hs
          exact ((List.prefix_cons_inj c).mpr h0).isInfix
        · exact List.infix_cons (mem_splitlines_sub cs l (by rw [hs]; exact List.mem_cons_of_mem _ h))
termination_by s => s.length

-- ## countOcc toolkit

theorem isPrefB_append_self (p s : Str) : isPrefB p (p ++ s) = true := by
  induction p with
  | nil => rfl
  | cons c cs ih => simp [isPrefB, ih]

theorem isPrefB_head_ne (p c : Char) (ps cs : Str) (h : p ≠ c) :
    isPrefB (p :: ps) (c :: cs) = false := by
  simp [isPrefB, h]

/-- A pattern that avoids `c` matches at a position of `x ++ c :: y` iff it
matches there in `x` alone. -/
theorem isPrefB_through (pat x y : Str) (c : Char) (hc : c ∉ pat) :
    isPrefB pat (x ++ c :: y) = isPrefB pat x := by
  induction pat generalizing x with
  | nil => rfl
  | cons p ps ih =>
    cases x with
    | nil =>
      have : p ≠ c := fun h => hc (h ▸ List.mem_cons_self p ps)
      simp [isPrefB, this]
    | cons a x' =>
      simp only [List.cons_append, isPrefB, List.append_eq]
      rw [ih x' (fun h => hc (List.mem_cons_of_mem p h))]

/-- Splitting an occurrence count at a separator character the pattern avoids. -/
theorem countOcc_append_sep (x y pat : Str) (c : Char) (hpat : pat ≠ []) (hc : c ∉ pat) :
    countOcc (x ++ c :: y) pat = countOcc x pat + countOcc y pat := by
  induction x with
  | nil =>
    cases pat with
    | nil => exact absurd rfl hpat
    | cons p ps =>
      have hpc : p ≠ c := by
        intro h
        exact hc (by rw [h]; exact List.mem_cons_self _ _)
      simp [countOcc, isPrefB, hpc]
  | cons a x' ih =>
    have hthrough := isPrefB_through pat (a :: x') y c hc
    rw [List.cons_append, countOcc, ih, countOcc]
    rw [show a :: (x' ++ c :: y) = (a :: x') ++ c :: y by simp] at *
    rw [hthrough]
    omega

/-- If the first character of the pattern does not occur in `x`, the pattern
never occurs in `x`. -/
theorem countOcc_char_free (x pat : Str) (hc : Char) (hh : pat.head? = some hc)
    (hx : hc ∉ x) : countOcc x pat = 0 := by
  induction x with
  | nil =>
    rw [countOcc]
    cases pat with
    | nil => simp at hh
    | cons p ps => simp [isPrefB]
  | cons a x' ih =>
    rw [countOcc]
    cases pat with
    | nil => simp at hh
    | cons p ps =>
      have hp : p = hc := by simpa using hh
      subst hp
      have hpa : p ≠ a := by
        intro h
        exact hx (by rw [h]; exact List.mem_cons_self _ _)
      rw [isPrefB_head_ne p a ps x' hpa]
      simpa using ih (fun h => hx (List.mem_cons_of_mem a h))

theorem countOcc_cons_ne (a : Str) (pat : Str) (c : Char) (hpat : pat ≠ [])
    (hc : pat.head? ≠ some c) :
    countOcc (c :: a) pat = countOcc a pat := by
  rw [countOcc]
  cases pat with
  | nil => exact absurd rfl hpat
  | cons p ps =>
    have hpc : p ≠ c := fun h => hc (by simp [h])
    rw [isPrefB_head_ne p c ps a hpc]
    simp

theorem not_containsSub_of_countOcc (s pat : Str) (h : countOcc s pat = 0) :
    ¬ pat <:+: s := by
  intro hin
  have := (countOcc_eq_zero s pat).mp h
  rw [← containsSub_iff s pat] at hin
  rw [this] at hin
  simp at hin

theorem countOcc_zero_of_not_infix (s pat : Str) (h : ¬ pat <:+: s) :
    countOcc s pat = 0 := by
  rw [countOcc_eq_zero]
  cases hcs : containsSub s pat
  · rfl
  · exact absurd ((containsSub_iff s pat).mp hcs) h

theorem countOcc_joinNl (L : List Str) (pat : Str) (hpat : pat ≠ [])
    (hnl : ('\n' : Char) ∉ pat) :
    countOcc (joinNl L) pat = (L.map (fun e => countOcc e pat)).sum := by
  induction L with
  | nil =>
    rw [joinNl, countOcc]
    cases pat with
    | nil => exact absurd rfl hpat
    | cons p ps => simp [isPrefB]
  | cons e L' ih =>
    cases L' with
    | nil => simp [joinNl]
    | cons f M =>
      have hj : joinNl (e :: f :: M) = e ++ '\n' :: joinNl (f :: M) := by
        rw [joinNl]
        simp
      rw [hj, countOcc_append_sep _ _ _ _ hpat hnl, ih]
      simp

/-- Occurrence inside a string extended by one final character the pattern
avoids as its last character. -/
theorem infix_drop_last (s pat : Str) (c : Char) (hc : c ∉ pat)
    (h : pat <:+: s ++ [c]) : pat <:+: s := by
  rcases h with ⟨u, v, huv⟩
  cases v using List.reverseRecOn with
  | nil =>
    rcases pat.eq_nil_or_concat with hp | ⟨p', d, hd⟩
    · subst hp; exact List.nil_infix
    · subst hd
      simp only [List.append_nil] at huv
      have hdc : d = c := by
        have h1 := congrArg List.getLast? huv
        rw [show u ++ p'.concat d = (u ++ p') ++ [d] by simp] at h1
        rw [List.getLast?_append_of_ne_nil _ (by simp : ([d] : Str) ≠ []),
          List.getLast?_append_of_ne_nil _ (by simp : ([c] : Str) ≠ [])] at h1
        simpa using h1
      exact absurd (by simp [hdc] : c ∈ p'.concat d) hc
  | append_singleton v' d =>
    rw [show u ++ pat ++ (v' ++ [d]) = (u ++ pat ++ v') ++ [d] by simp] at huv
    have h3 : u ++ pat ++ v' = s := by
      have h4 := congrArg List.dropLast huv
      rw [List.dropLast_concat, List.dropLast_concat] at h4
      exact h4
    exact ⟨u, v', h3⟩

-- ## Platform configuration (testv021.py, Config section)

def GEN4_PLATFORMS : List Str := [str "nx1", str "ps4", str "xb1"]

def GEN5_PLATFORMS : List Str :=
  [str "nx2", str "pc", str "xbx", str "ps5", str "steamdeck", str "laptop"]

/-- `sorted(GEN4_PLATFORMS | GEN5_PLATFORMS)`, written out in its sorted order. -/
def ALL_PLATFORMS : List Str :=
  [str "laptop", str "nx1", str "nx2", str "pc", str "ps4", str "ps5",
   str "steamdeck", str "xb1", str "xbx"]

def lowerStr (s : Str) : Str := s.map Char.toLower

/-- `classify_platform`: gen4 / gen5 / None. -/
def classify_platform (p : Str) : Option Str :=
  let p := lowerStr p
  if p ∈ GEN4_PLATFORMS then some (str "gen4")
  else if p ∈ GEN5_PLATFORMS then some (str "gen5")
  else none

-- ## Header-line matchers (the regex families BUGS/REPORTS/ISSUES/FOUND_HEADERS,
-- matched with `re.match(pat, line.strip(), re.IGNORECASE)`)

/-- Case-insensitive literal match, returning the rest of the input. -/
def eatCI : Str → Str → Option Str
  | [], s => some s
  | _ :: _, [] => none
  | p :: ps, c :: cs => if c.toLower = p.toLower then eatCI ps cs else none

def dropWS (s : Str) : Str := s.dropWhile isPySpace

/-- At least one whitespace character (`\s+`), then any further whitespace. -/
def eatWS1 : Str → Option Str
  | [] => none
  | c :: cs => if isPySpace c then some (dropWS cs) else none

/-- `\s* emoji? \s* $`: the common tail of every header pattern family. -/
def headerTail (emoji : Str) (s : Str) : Bool :=
  let s := dropWS s
  s.isEmpty ||
    match eatCI emoji s with
    | some r => (dropWS r).isEmpty
    | none => false

/-- `ISSUES_HEADERS`: `#\s*issues\s+found\s*(🕵️‍♂️)?\s*$` on the stripped line. -/
def matchIssues (line : Str) : Bool :=
  match eatCI (str "#") (pstrip line) with
  | none => false
  | some s =>
    match eatCI (str "issues") (dropWS s) with
    | none => false
    | some s =>
      match eatWS1 s with
      | none => false
      | some s =>
        match eatCI (str "found") s with
        | none => false
        | some s => headerTail (str "🕵️‍♂️") s

/-- `FOUND_HEADERS`: `#\s*found(\s*/\s*invalid)?\s*(🗂️)?\s*$` on the stripped line. -/
def matchFound (line : Str) : Bool :=
  match eatCI (str "#") (pstrip line) with
  | none => false
  | some s =>
    match eatCI (str "found") (dropWS s) with
    | none => false
    | some s =>
      match eatCI (str "/") (dropWS s) with
      | some r =>
        match eatCI (str "invalid") (dropWS r) with
        | some s2 => headerTail (str "🗂️") s2
        | none => headerTail (str "🗂️") s
      | none => headerTail (str "🗂️") s

/-- `REPORTS_HEADERS`: `#\s*reports\s+written\s*(📝)?\s*$` on the stripped line. -/
def matchReports (line : Str) : Bool :=
  match eatCI (str "#") (pstrip line) with
  | none => false
  | some s =>
    match eatCI (str "reports") (dropWS s) with
    | none => false
    | some s =>
      match eatWS1 s with
      | none => false
      | some s =>
        match eatCI (str "written") s with
        | none => false
        | some s => headerTail (str "📝") s

/-- `BUGS_HEADERS`: `#\s*bugs\s*(🐛)?\s*$` on the stripped line. -/
def matchBugs (line : Str) : Bool :=
  match eatCI (str "#") (pstrip line) with
  | none => false
  | some s =>
    match eatCI (str "bugs") (dropWS s) with
    | none => false
    | some s => headerTail (str "🐛") s

/-- The generic section-terminating pattern `^#\s+` (applied to the raw line). -/
def genericHeader (line : Str) : Bool :=
  match line with
  | c :: d :: _ => c == '#' && isPySpace d
  | _ => false

-- ## Section index (`_find_section_start`, `_section_bounds`)

def find_section_start (lines : List Str) (isHdr : Str → Bool) : Option Nat :=
  findIdxA isHdr lines

/-- `_section_bounds`: content start (skipping one `---` divider) and the
exclusive end at the next `^#\s+` line or end of document. -/
def section_bounds (lines : List Str) (isHdr : Str → Bool) : Option (Nat × Nat) :=
  match find_section_start lines isHdr with
  | none => none
  | some idx =>
    let start := idx + 1
    let start :=
      match nthLine lines start with
      | some l => if pstrip l = str "---" then start + 1 else start
      | none => start
    let stop :=
      match findIdxA genericHeader (lines.drop start) with
      | some j => start + j
      | none => lines.length
    some (start, stop)

-- ## Canonical section titles, as the scaffolder writes them

def issuesTitle : Str := str "# issues found 🕵️‍♂️"
def foundTitle : Str := str "# Found / Invalid 🗂️"
def reportsTitle : Str := str "# reports written 📝"
def bugsTitle : Str := str "# bugs 🐛"
def dashes : Str := str "---"

theorem matchIssues_issuesTitle : matchIssues issuesTitle = true := by decide
theorem matchFound_foundTitle : matchFound foundTitle = true := by decide
theorem matchReports_reportsTitle : matchReports reportsTitle = true := by decide
theorem matchBugs_bugsTitle : matchBugs bugsTitle = true := by decide

theorem titles_cross : (matchIssues foundTitle || matchIssues reportsTitle ||
    matchIssues bugsTitle || matchIssues dashes || matchIssues [] ||
    matchFound issuesTitle || matchFound reportsTitle || matchFound bugsTitle ||
    matchFound dashes || matchFound [] ||
    matchReports issuesTitle || matchReports foundTitle || matchReports bugsTitle ||
    matchReports dashes || matchReports [] ||
    matchBugs issuesTitle || matchBugs foundTitle || matchBugs reportsTitle ||
    matchBugs dashes || matchBugs []) = false := by decide

theorem titles_generic : (genericHeader issuesTitle && genericHeader foundTitle &&
    genericHeader reportsTitle && genericHeader bugsTitle) = true := by decide

theorem generic_dashes : genericHeader dashes = false := by decide

-- ## Document scaffolder (`find_or_create_sections`)

def issuesBlock : List Str := [issuesTitle, dashes, []]
def foundBlock : List Str := [foundTitle, dashes, []]
def reportsBlock : List Str := [reportsTitle, dashes, []]
def bugsBlock : List Str := [bugsTitle, dashes, []]

/-- The header-end walk shared by the scaffolder and
`parse_date_and_header_end`: skip line 0, an optional `---`, then all
non-blank lines, then one blank line. -/
def headerEndIdx (lines : List Str) : Nat :=
  let idx := 1
  let idx :=
    match nthLine lines idx with
    | some l => if pstrip l = dashes then idx + 1 else idx
    | none => idx
  match findIdxA (fun l => (pstrip l).isEmpty) (lines.drop idx) with
  | some j => idx + j + 1
  | none => lines.length

/-- One conditional creation step of `find_or_create_sections`: if no line of
the family exists, splice the three-line empty section block in at the
computed position and mark the document changed. -/
def scaffoldPhase (fam : Str → Bool) (posOf : List Str → Nat) (blk : List Str)
    (st : List Str × Bool) : List Str × Bool :=
  if (section_bounds st.1 fam).isSome then st
  else (spliceAt st.1 (posOf st.1) blk, true)

/-- Insert position for a missing Issues Found section: after the header
block when line 0 is a `# ` heading, else at end of document. -/
def issuesInsertAt (lines : List Str) : Nat :=
  match lines with
  | l0 :: _ => if isPrefB (str "# ") l0 then headerEndIdx lines else lines.length
  | [] => 0

/-- Insert position for the later sections: after the section that
canonically precedes, else at end of document. -/
def afterBounds (fam : Str → Bool) (lines : List Str) : Nat :=
  match section_bounds lines fam with
  | some b => b.2
  | none => lines.length

def find_or_create_sections (text : Str) : Str :=
  let lines0 := splitlinesCs text
  let st := scaffoldPhase matchIssues issuesInsertAt issuesBlock (lines0, false)
  let st := scaffoldPhase matchFound (afterBounds matchIssues) foundBlock st
  let st := scaffoldPhase matchReports (afterBounds matchFound) reportsBlock st
  let st := scaffoldPhase matchBugs (afterBounds matchReports) bugsBlock st
  let out := joinNl st.1
  let out := if st.2 && !(endsNl out) then out ++ ['\n'] else out
  if st.2 then out else text

-- ## Header codec

def isDigitsB (s : Str) : Bool := !s.isEmpty && s.all Char.isDigit

def isAlnumB (c : Char) : Bool := c.isAlphanum

/-- One line of `parse_usernames`:
`^- \[([a-z0-9]+)\]\[([^\]]+)\]\s*$` (IGNORECASE), giving the lowered key
and the stripped value. -/
def parseUserLine (line : Str) : Option (Str × Str) :=
  if isPrefB (str "- [") line then
    let s := line.drop 3
    let key := s.takeWhile isAlnumB
    if key.isEmpty then none
    else
      match s.drop key.length with
      | ']' :: '[' :: s3 =>
        let v := s3.takeWhile (fun c => !(c == ']'))
        if v.isEmpty then none
        else
          match s3.drop v.length with
          | ']' :: s5 =>
            if (dropWS s5).isEmpty then some (lowerStr key, pstrip v) else none
          | _ => none
      | _ => none
  else none

/-- `parse_usernames`: every matching line in scan order, with the
gen4/gen5 build-number exclusion and the recognized-platform filter. -/
def parse_usernames (text : Str) : List (Str × Str) :=
  ((splitlinesCs text).filterMap parseUserLine).filter (fun kv =>
    !((kv.1 == str "gen4" || kv.1 == str "gen5") && isDigitsB kv.2) &&
    decide (kv.1 ∈ ALL_PLATFORMS))

/-- Python dict lookup with default `""`: the last binding of a key wins. -/
def dictGet (m : List (Str × Str)) (k : Str) : Str :=
  match m.reverse.find? (fun kv => kv.1 == k) with
  | some kv => kv.2
  | none => []

/-- One line of `parse_builds`:
`^- \[(gen4|gen5)\]\[(\d+)\]\s*-->\s*build number\s*$` (IGNORECASE). -/
def parseBuildLine (line : Str) : Option (Bool × Str) :=
  if isPrefB (str "- [") line then
    let s := line.drop 3
    let tagged :=
      match eatCI (str "gen4") s with
      | some s2 => some (true, s2)
      | none =>
        match eatCI (str "gen5") s with
        | some s2 => some (false, s2)
        | none => none
    match tagged with
    | none => none
    | some (g4, s2) =>
      match s2 with
      | ']' :: '[' :: s3 =>
        let d := s3.takeWhile Char.isDigit
        if d.isEmpty then none
        else
          match s3.drop d.length with
          | ']' :: s5 =>
            match eatCI (str "-->") (dropWS s5) with
            | none => none
            | some s6 =>
              match eatCI (str "build number") (dropWS s6) with
              | none => none
              | some s7 => if (dropWS s7).isEmpty then some (g4, d) else none
          | _ => none
      | _ => none
  else none

def parse_builds (text : Str) : Str × Str :=
  (splitlinesCs text).foldl (fun acc line =>
    match parseBuildLine line with
    | some (true, d) => (d, acc.2)
    | some (false, d) => (acc.1, d)
    | none => acc) ([], [])

/-- `header_only_block`: date line, divider, one username line per non-empty
binding in platform order, the all-digit build lines, and a blank line. -/
def header_only_block (date_str : Str) (usernames : Str → Str) (g4 g5 : Str) : Str :=
  let ulines := ALL_PLATFORMS.filterMap (fun p =>
    if (usernames p).isEmpty then none
    else some (str "- [" ++ p ++ str "][" ++ usernames p ++ str "]"))
  let b4 :=
    if isDigitsB (pstrip g4) then [str "- [gen4][" ++ pstrip g4 ++ str "] --> build number"]
    else []
  let b5 :=
    if isDigitsB (pstrip g5) then [str "- [gen5][" ++ pstrip g5 ++ str "] --> build number"]
    else []
  let lines := (str "# " ++ date_str ++ str " notes") :: dashes :: (ulines ++ b4 ++ b5 ++ [[]])
  ensureNl (joinNl lines)

/-- `parse_date_and_header_end`: date token from line 0 (strip then drop all
`" notes"` occurrences) and the header-end line index. -/
def parse_date_and_header_end (text : Str) : Str × Nat :=
  let lines := splitlinesCs text
  let date_str :=
    match lines with
    | l0 :: _ => if isPrefB (str "# ") l0 then replaceAllE (str " notes") (pstrip (l0.drop 2)) else []
    | [] => []
  (date_str, headerEndIdx lines)

-- ## Time normalization

def digitVal (c : Char) : Nat := c.toNat - 48

def natStr (n : Nat) : Str := Nat.toDigits 10 n

/-- `f"{n:02d}"` for the `int(hh)` of one or two digit characters. -/
def twoDigit (n : Nat) : Str :=
  if n < 10 then '0' :: [Nat.digitChar n]
  else natStr n

/-- Tail of the time regex after the minutes: `\s*([AaPp][Mm])?\s*$`. -/
def parseAmPm (rest : Str) : Option (Option (Char × Char)) :=
  match dropWS rest with
  | [] => some none
  | a :: m :: r2 =>
    if (a.toLower = 'a' || a.toLower = 'p') && m.toLower = 'm' && (dropWS r2).isEmpty
    then some (some (a, m)) else none
  | _ => none

/-- `re.fullmatch(r"\s*(\d{1,2}):(\d{2})\s*([AaPp][Mm])?\s*", t)`. -/
def parseTimeMatch (t : Str) : Option (Nat × Str × Option (Char × Char)) :=
  let finish := fun (hh : Nat) (r : Str) =>
    match r with
    | m1 :: m2 :: r2 =>
      if m1.isDigit && m2.isDigit then
        match parseAmPm r2 with
        | some amp => some (hh, ([m1, m2] : Str), amp)
        | none => none
      else none
    | _ => none
  match dropWS t with
  | d1 :: ':' :: r => if d1.isDigit then finish (digitVal d1) r else none
  | d1 :: d2 :: ':' :: r =>
    if d1.isDigit && d2.isDigit then finish (digitVal d1 * 10 + digitVal d2) r else none
  | _ => none

/-- `normalize_time_12h`, with the wall clock passed in as `now`. -/
def normalize_time_12h (now : Str) (t : Str) : Str :=
  let t := pstrip t
  if t.isEmpty then now
  else
    match parseTimeMatch t with
    | some (hh, mm, amp) =>
      match amp with
      | some (a, m) => twoDigit hh ++ ':' :: mm ++ ' ' :: [a.toUpper, m.toUpper]
      | none => twoDigit hh ++ ':' :: mm
    | none => now

-- ## Issue ledger

structure IssueEv where
  time : Str
  platform : Str
  desc : Str
deriving DecidableEq

/-- `f"- [{ev['time']}][{ev['platform']}] {ev['desc']}"`. -/
def issueLineOf (ev : IssueEv) : Str :=
  str "- [" ++ ev.time ++ str "][" ++ ev.platform ++ str "] " ++ ev.desc

/-- The fallback matcher `^- \[{re.escape(time)}\]\[{re.escape(platform)}\]\s+`. -/
def prefMatchesEv (ev : IssueEv) (l : Str) : Bool :=
  let pre := str "- [" ++ ev.time ++ str "][" ++ ev.platform ++ str "]"
  isPrefB pre l &&
    match l.drop pre.length with
    | c :: _ => isPySpace c
    | [] => false

/-- First index in `[a, b)` whose line satisfies `p`. -/
def findMatchIdx (lines : List Str) (a b : Nat) (p : Str → Bool) : Option Nat :=
  match findIdxA p ((lines.drop a).take (b - a)) with
  | some j => some (a + j)
  | none => none

/-- The shared removal loop: delete the first exact (stripped) match in the
range, else the first time+platform prefix match, else nothing. -/
def removeIssueIn (lines : List Str) (a b : Nat) (ev : IssueEv) : List Str :=
  match findMatchIdx lines a b (fun l => pstrip l == issueLineOf ev) with
  | some i => lines.eraseIdx i
  | none =>
    match findMatchIdx lines a b (prefMatchesEv ev) with
    | some i => lines.eraseIdx i
    | none => lines

def add_issue_line (now text time_str platform desc : Str) : Str :=
  let text1 := find_or_create_sections text
  let lines1 := splitlinesCs text1
  let st :=
    match section_bounds lines1 matchIssues with
    | some b => (lines1, some b)
    | none =>
      let text2 := find_or_create_sections text1
      let lines2 := splitlinesCs text2
      (lines2, section_bounds lines2 matchIssues)
  -- the `none` fallback is unreachable: the scaffolder creates the section
  let e := match st.2 with
    | some b => b.2
    | none => st.1.length
  let newline := str "- [" ++ normalize_time_12h now time_str ++ str "][" ++
    lowerStr platform ++ str "] " ++ pstrip desc
  ensureNl (joinNl (spliceAt st.1 e [newline]))

def delete_issue_line (text : Str) (ev : IssueEv) : Str :=
  let lines := splitlinesCs text
  match section_bounds lines matchIssues with
  | none => text
  | some (s, e) => ensureNl (joinNl (removeIssueIn lines s e ev))

-- ## Found/Invalid tagger

def ensure_section (lines : List Str) (isHdr : Str → Bool)
    (insAfter : Option (Str → Bool)) (title : Str) : List Str × Option (Nat × Nat) :=
  match section_bounds lines isHdr with
  | some b => (lines, some b)
  | none =>
    let insert_at :=
      match insAfter with
      | some after =>
        match section_bounds lines after with
        | some ab => ab.2
        | none => lines.length
      | none => lines.length
    let lines2 := spliceAt lines insert_at [title, dashes, []]
    (lines2, section_bounds lines2 isHdr)

def move_issue_to_found (text : Str) (ev : IssueEv) (bugnum : Str) : Str :=
  let text := find_or_create_sections text
  let lines0 := splitlinesCs text
  let ib := section_bounds lines0 matchIssues
  let st := ensure_section lines0 matchFound (some matchIssues) foundTitle
  match ib, st.2 with
  | some (istart, iend), some _ =>
    let lines1 := removeIssueIn st.1 istart iend ev
    let fend :=
      match section_bounds lines1 matchFound with
      | some b => b.2
      | none => lines1.length
    let new_line :=
      if !(pstrip bugnum).isEmpty then
        str "- [" ++ pstrip bugnum ++ str "] [" ++ ev.time ++ str "][" ++
          ev.platform ++ str "] " ++ ev.desc
      else issueLineOf ev
    ensureNl (joinNl (spliceAt lines1 fend [new_line]))
  | _, _ => joinNl st.1 ++ (if !(endsNl text) then ['\n'] else [])

-- ## Bug codec

def default_plain_steps_lines (platform : Str) : List Str :=
  let key := (classify_platform platform).getD (str "gen5")
  [str "Launch the title > create or select build / save.",
   if key = str "gen5" then str "Enter the City." else str "Enter the Neighborhood."]

/-- The numbering loop of `build_steps_block_numbered`: append each stripped
non-empty line with its number, starting the counter at `n0`. -/
def numberLoop (n0 : Nat) (plain_lines : List Str) : List Str × Nat :=
  plain_lines.foldl (fun acc ln =>
    let t := pstrip ln
    if t.isEmpty then acc
    else (acc.1 ++ [natStr acc.2 ++ str ". " ++ t], acc.2 + 1)) ([], n0)

def build_steps_block_numbered (template_key mode : Str) (plain_lines : List Str) : Str :=
  if mode = str "default" then
    let base2 :=
      if template_key = str "gen5" then str "Enter the City."
      else str "Enter the Neighborhood."
    let start := [str "Steps to Reproduce:",
      str "1. Launch the title > create or select build / save.",
      str "2. " ++ base2]
    let nl := numberLoop 3 plain_lines
    joinNl (start ++ nl.1 ++ (if nl.2 = 3 then [str "3. "] else []))
  else
    let nl := numberLoop 1 plain_lines
    joinNl (str "Steps to Reproduce:" :: nl.1 ++ (if nl.2 = 1 then [str "1. "] else []))

/-- `make_bug_block`, following the template string literally (the `##`
header always starts as `[null]`). -/
def make_bug_block (summary platform username steps_block observed expected
    build_num : Str) : Str :=
  let build_line := if build_num.isEmpty then [] else str "Build: " ++ build_num
  str "## [null]\n---\n**summary:** " ++ summary ++
  str "\n\n**Platform:** " ++ platform ++
  str "\n**Username:** " ++ username ++
  str "\n\n" ++ steps_block ++
  str "\n\nObserved Results:\n" ++ observed ++
  str "\n\nExpected Results:\n" ++ expected ++
  '\n' :: build_line ++ ['\n']

-- ## Event identity (`generate_event_id`): sha1 of "time|platform|desc", first
-- 12 hex digits

def utf8Bytes : Str → List Nat
  | [] => []
  | c :: cs =>
    let u := c.toNat
    (if u < 128 then [u]
     else if u < 2048 then [192 + u / 64, 128 + u % 64]
     else if u < 65536 then [224 + u / 4096, 128 + (u / 64) % 64, 128 + u % 64]
     else [240 + u / 262144, 128 + (u / 4096) % 64, 128 + (u / 64) % 64, 128 + u % 64])
    ++ utf8Bytes cs

def w32 : Nat := 4294967296

def rotl (k x : Nat) : Nat := ((x <<< k) % w32) ||| (x >>> (32 - k))

def sha1pad (msg : List Nat) : List Nat :=
  let len := msg.length
  let z := (56 + 64 - (len + 1) % 64) % 64
  let bitlen := len * 8
  msg ++ 128 :: List.replicate z 0 ++
    [(bitlen >>> 56) % 256, (bitlen >>> 48) % 256, (bitlen >>> 40) % 256,
     (bitlen >>> 32) % 256, (bitlen >>> 24) % 256, (bitlen >>> 16) % 256,
     (bitlen >>> 8) % 256, bitlen % 256]

def toWords : List Nat → List Nat
  | b0 :: b1 :: b2 :: b3 :: rest =>
    (b0 * 16777216 + b1 * 65536 + b2 * 256 + b3) :: toWords rest
  | _ => []

/-- Split into 16-word blocks, structurally recursive on a fuel bound that
dominates the input length. -/
def chunk16Go : Nat → List Nat → List (List Nat)
  | 0, _ => []
  | _ + 1, [] => []
  | n + 1, b :: w => ((b :: w).take 16) :: chunk16Go n ((b :: w).drop 16)

def chunk16 (w : List Nat) : List (List Nat) := chunk16Go w.length w

def extendTo80 (blk : List Nat) : List Nat :=
  (List.range 64).foldl (fun acc _ =>
    let n := acc.length
    acc ++ [rotl 1 (acc.getD (n - 3) 0 ^^^ acc.getD (n - 8) 0 ^^^
                    acc.getD (n - 14) 0 ^^^ acc.getD (n - 16) 0)]) blk

def sha1Round (st : Nat × Nat × Nat × Nat × Nat) (i wi : Nat) :
    Nat × Nat × Nat × Nat × Nat :=
  let a := st.1
  let b := st.2.1
  let c := st.2.2.1
  let d := st.2.2.2.1
  let e := st.2.2.2.2
  let f :=
    if i < 20 then (b &&& c) ||| ((b ^^^ (w32 - 1)) &&& d)
    else if i < 40 then b ^^^ c ^^^ d
    else if i < 60 then (b &&& c) ||| (b &&& d) ||| (c &&& d)
    else b ^^^ c ^^^ d
  let k :=
    if i < 20 then 1518500249
    else if i < 40 then 1859775393
    else if i < 60 then 2400959708
    else 3395469782
  let temp := (rotl 5 a + f + e + k + wi) % w32
  (temp, a, rotl 30 b, c, d)

def sha1Block (h : Nat × Nat × Nat × Nat × Nat) (blk : List Nat) :
    Nat × Nat × Nat × Nat × Nat :=
  let w80 := extendTo80 blk
  let st := (List.range 80).foldl (fun st i => sha1Round st i (w80.getD i 0)) h
  ((h.1 + st.1) % w32, (h.2.1 + st.2.1) % w32, (h.2.2.1 + st.2.2.1) % w32,
   (h.2.2.2.1 + st.2.2.2.1) % w32, (h.2.2.2.2 + st.2.2.2.2) % w32)

def hex8 (x : Nat) : Str :=
  (List.range 8).map (fun i => Nat.digitChar ((x >>> ((7 - i) * 4)) % 16))

def sha1hex (msg : List Nat) : Str :=
  let h := (chunk16 (toWords (sha1pad msg))).foldl sha1Block
    (1732584193, 4023233417, 2562383102, 271733878, 3285377520)
  hex8 h.1 ++ hex8 h.2.1 ++ hex8 h.2.2.1 ++ hex8 h.2.2.2.1 ++ hex8 h.2.2.2.2

def generate_event_id (ev : IssueEv) : Str :=
  (sha1hex (utf8Bytes (ev.time ++ '|' :: ev.platform ++ '|' :: ev.desc))).take 12

-- ## Promotion pipeline (`append_bug_and_move_issue`)

/-- `f"<!-- bug-id:{ev_id}"`: the idempotency-key substring the pipeline
checks before promoting. -/
def bugMarker (id : Str) : Str := str "<!-- bug-id:" ++ id

/-- The metadata comment written next to a promoted Bug Record. -/
def metaCommentOf (id : Str) (ev : IssueEv) (tk : Str) : Str :=
  bugMarker id ++ str " time=" ++ ev.time ++ str " platform=" ++ ev.platform ++
  str " template=" ++ tk ++ str " -->"

/-- `classify_platform(...) or "gen5"`: the template key of a promotion. -/
def bugTemplateKey (ev : IssueEv) : Str := (classify_platform ev.platform).getD (str "gen5")

/-- The bug block rendered during a promotion, from the (scaffolded) document
text and the caller's parameters. -/
def promotedBugBlock (text : Str) (ev : IssueEv) (summary_pre steps_mode : Str)
    (plain_lines : List Str) (observed expected : Str) : Str :=
  let template_key := bugTemplateKey ev
  let username := dictGet (parse_usernames text) ev.platform
  let builds := parse_builds text
  let build_found := if template_key = str "gen4" then builds.1 else builds.2
  let summary :=
    if summary_pre.isEmpty then ev.desc
    else summary_pre ++ str ": " ++ ev.desc
  let base_lines :=
    if steps_mode = str "default" then default_plain_steps_lines ev.platform else []
  let merged_plain := base_lines ++ plain_lines.filter (fun ln => decide (ln ∉ base_lines))
  let steps_block := build_steps_block_numbered template_key
    (if steps_mode = str "default" then str "default" else str "custom") merged_plain
  make_bug_block summary ev.platform username steps_block observed expected build_found

def append_bug_and_move_issue (text : Str) (ev : IssueEv)
    (summary_pre steps_mode : Str) (plain_lines : List Str)
    (observed expected : Str) : Str :=
  let text := find_or_create_sections text
  let lines0 := splitlinesCs text
  let ib0 := section_bounds lines0 matchIssues
  let rb0 := section_bounds lines0 matchReports
  let bb0 := section_bounds lines0 matchBugs
  let st :=
    if ib0.isSome && rb0.isSome && bb0.isSome then (text, lines0, ib0, rb0, bb0)
    else
      let t2 := find_or_create_sections text
      let l2 := splitlinesCs t2
      (t2, l2, section_bounds l2 matchIssues, section_bounds l2 matchReports,
        section_bounds l2 matchBugs)
  let text := st.1
  let lines := st.2.1
  let ib := st.2.2.1
  let bb := st.2.2.2.2
  let ev_id := generate_event_id ev
  if containsSub text (bugMarker ev_id) then text
  else
    let bug_block := promotedBugBlock text ev summary_pre steps_mode plain_lines
      observed expected
    let meta := metaCommentOf ev_id ev (bugTemplateKey ev)
    let bend := match bb with | some b => b.2 | none => lines.length
    let lines := spliceAt lines bend [[], meta, pstrip bug_block, []]
    -- the `none` fallback below is unreachable after scaffolding
    let isb := match ib with | some b => b | none => (0, 0)
    let lines := removeIssueIn lines isb.1 isb.2 ev
    let rend :=
      match section_bounds lines matchReports with
      | some b => b.2
      | none => lines.length
    let lines := spliceAt lines rend [issueLineOf ev]
    ensureNl (joinNl lines)

-- ## findIdxA and section_bounds lemmas

theorem findIdxA_cons_true {p : Str → Bool} {x : Str} (ls : List Str) (h : p x = true) :
    findIdxA p (x :: ls) = some 0 := by
  simp [findIdxA, h]

theorem findIdxA_cons_false {p : Str → Bool} {x : Str} (ls : List Str) (h : p x = false) :
    findIdxA p (x :: ls) = (findIdxA p ls).map (· + 1) := by
  simp [findIdxA, h]

theorem findIdxA_append_none {p : Str → Bool} (A B : List Str)
    (hA : ∀ l ∈ A, p l = false) :
    findIdxA p (A ++ B) = (findIdxA p B).map (· + A.length) := by
  induction A with
  | nil => simp
  | cons a A' ih =>
    rw [List.cons_append, findIdxA_cons_false _ (hA a (List.mem_cons_self a A')),
        ih (fun l hl => hA l (List.mem_cons_of_mem a hl))]
    cases findIdxA p B
    · simp
    · simp
      omega

theorem findIdxA_isSome_iff (p : Str → Bool) (L : List Str) :
    (findIdxA p L).isSome = true ↔ ∃ l ∈ L, p l = true := by
  induction L with
  | nil => simp [findIdxA]
  | cons x ls ih =>
    rw [findIdxA]
    by_cases hx : p x = true
    · rw [if_pos hx]
      simp only [Option.isSome_some, true_iff]
      exact ⟨x, List.mem_cons_self x ls, hx⟩
    · rw [if_neg hx]
      cases hfi : findIdxA p ls with
      | none =>
        rw [hfi] at ih
        simp only [Option.isSome_none, Bool.false_eq_true, false_iff] at ih
        simp only [Option.map_none', Option.isSome_none, Bool.false_eq_true, false_iff]
        rintro ⟨l, hl, hpl⟩
        rcases List.mem_cons.mp hl with h | h
        · subst h; exact hx hpl
        · exact ih ⟨l, h, hpl⟩
      | some j =>
        rw [hfi] at ih
        simp only [Option.isSome_some, true_iff] at ih
        simp only [Option.map_some', Option.isSome_some, true_iff]
        rcases ih with ⟨l, hl, hpl⟩
        exact ⟨l, List.mem_cons_of_mem x hl, hpl⟩

theorem findIdxA_none (p : Str → Bool) (L : List Str) (h : ∀ l ∈ L, p l = false) :
    findIdxA p L = none := by
  cases hfi : findIdxA p L with
  | none => rfl
  | some j =>
    have : (findIdxA p L).isSome = true := by simp [hfi]
    rcases (findIdxA_isSome_iff p L).mp this with ⟨l, hl, hpl⟩
    rw [h l hl] at hpl
    simp at hpl

theorem section_bounds_isSome_iff (L : List Str) (fam : Str → Bool) :
    (section_bounds L fam).isSome = true ↔ ∃ l ∈ L, fam l = true := by
  rw [section_bounds, find_section_start]
  cases hfi : findIdxA fam L with
  | none =>
    simp only [Option.isSome_none, Bool.false_eq_true, false_iff]
    rintro ⟨l, hl, hpl⟩
    have := (findIdxA_isSome_iff fam L).mpr ⟨l, hl, hpl⟩
    rw [hfi] at this
    simp at this
  | some idx =>
    simp only [Option.isSome_some, true_iff]
    have : (findIdxA fam L).isSome = true := by simp [hfi]
    exact (findIdxA_isSome_iff fam L).mp this

theorem nthLine_append (A B : List Str) (i : Nat) :
    nthLine (A ++ B) (A.length + i) = nthLine B i := by
  simp [nthLine, List.drop_append]

theorem mem_spliceAt (L blk : List Str) (n : Nat) (l : Str) (h : l ∈ L) :
    l ∈ spliceAt L n blk := by
  rw [spliceAt]
  rw [← List.take_append_drop n L] at h
  rcases List.mem_append.mp h with h | h
  · exact List.mem_append_left _ (List.mem_append_left _ h)
  · exact List.mem_append_right _ h

theorem mem_spliceAt_blk (L blk : List Str) (n : Nat) (l : Str) (h : l ∈ blk) :
    l ∈ spliceAt L n blk := by
  rw [spliceAt]
  exact List.mem_append_left _ (List.mem_append_right _ h)


-- ## Structured documents with the four canonical sections in canonical order

def sectionedLines (pre xs ys zs ws : List Str) : List Str :=
  pre ++ issuesTitle :: dashes ::
    (xs ++ foundTitle :: dashes ::
      (ys ++ reportsTitle :: dashes ::
        (zs ++ bugsTitle :: dashes :: ws)))

def sectionedDoc (pre xs ys zs ws : List Str) : Str :=
  joinNl (sectionedLines pre xs ys zs ws) ++ ['\n']

/-- A line allowed in the body of a section: a single line that is not a
section header of any family and does not terminate a section. -/
def contentLine (l : Str) : Bool :=
  breakfree l && !(matchIssues l || matchFound l || matchReports l || matchBugs l) &&
    !genericHeader l

/-- A line allowed before the Issues Found header (the free-form header
block): a single line matching no family header. -/
def preLine (l : Str) : Bool :=
  breakfree l && !(matchIssues l || matchFound l || matchReports l || matchBugs l)

def lastOk (ws : List Str) : Bool :=
  match ws.getLast? with
  | some [] => false
  | _ => true

/-- Well-formed structured document. -/
def wfDoc (pre xs ys zs ws : List Str) : Bool :=
  pre.all preLine && (xs ++ ys ++ zs ++ ws).all contentLine && lastOk ws

theorem contentLine_preLine {l : Str} (h : contentLine l = true) : preLine l = true := by
  simp only [contentLine, Bool.and_eq_true] at h
  simp only [preLine, Bool.and_eq_true]
  exact ⟨h.1.1, h.1.2⟩

theorem contentLine_breakfree {l : Str} (h : contentLine l = true) : breakfree l = true := by
  simp only [contentLine, Bool.and_eq_true] at h
  exact h.1.1

theorem contentLine_noFam {l : Str} (h : contentLine l = true) :
    matchIssues l = false ∧ matchFound l = false ∧ matchReports l = false ∧
      matchBugs l = false := by
  simp only [contentLine, Bool.and_eq_true, Bool.not_eq_eq_eq_not, Bool.not_true,
    Bool.or_eq_false_iff] at h
  tauto

theorem contentLine_noGeneric {l : Str} (h : contentLine l = true) :
    genericHeader l = false := by
  simp only [contentLine, Bool.and_eq_true, Bool.not_eq_eq_eq_not, Bool.not_true] at h
  exact h.2

theorem preLine_noFam {l : Str} (h : preLine l = true) :
    matchIssues l = false ∧ matchFound l = false ∧ matchReports l = false ∧
      matchBugs l = false := by
  simp only [preLine, Bool.and_eq_true, Bool.not_eq_eq_eq_not, Bool.not_true,
    Bool.or_eq_false_iff] at h
  tauto

theorem preLine_breakfree {l : Str} (h : preLine l = true) : breakfree l = true := by
  simp only [preLine, Bool.and_eq_true] at h
  exact h.1

theorem sectionedLines_breakfree (pre xs ys zs ws : List Str)
    (hw : wfDoc pre xs ys zs ws = true) :
    ∀ e ∈ sectionedLines pre xs ys zs ws, breakfree e = true := by
  simp only [wfDoc, Bool.and_eq_true, List.all_eq_true, List.append_assoc] at hw
  intro e he
  simp only [sectionedLines, List.mem_append, List.mem_cons] at he
  rcases he with h | h
  · exact preLine_breakfree (hw.1.1 e h)
  rcases h with h | h
  · subst h; decide
  rcases h with h | h
  · subst h; decide
  rcases h with h | h
  · exact contentLine_breakfree (hw.1.2 e (by simp [h]))
  rcases h with h | h
  · subst h; decide
  rcases h with h | h
  · subst h; decide
  rcases h with h | h
  · exact contentLine_breakfree (hw.1.2 e (by simp [h]))
  rcases h with h | h
  · subst h; decide
  rcases h with h | h
  · subst h; decide
  rcases h with h | h
  · exact contentLine_breakfree (hw.1.2 e (by simp [h]))
  rcases h with h | h
  · subst h; decide
  rcases h with h | h
  · subst h; decide
  · exact contentLine_breakfree (hw.1.2 e (by simp [h]))

theorem splitlines_sectionedDoc (pre xs ys zs ws : List Str)
    (hw : wfDoc pre xs ys zs ws = true) :
    splitlinesCs (sectionedDoc pre xs ys zs ws) = sectionedLines pre xs ys zs ws := by
  rw [sectionedDoc]
  exact splitlines_join_breakfree _ (by simp [sectionedLines])
    (sectionedLines_breakfree pre xs ys zs ws hw)

theorem wf_parts {pre xs ys zs ws : List Str} (hw : wfDoc pre xs ys zs ws = true) :
    (∀ l ∈ pre, preLine l = true) ∧ (∀ l ∈ xs, contentLine l = true) ∧
    (∀ l ∈ ys, contentLine l = true) ∧ (∀ l ∈ zs, contentLine l = true) ∧
    (∀ l ∈ ws, contentLine l = true) ∧ lastOk ws = true := by
  simp only [wfDoc, Bool.and_eq_true, List.all_eq_true, List.mem_append] at hw
  refine ⟨hw.1.1, ?_, ?_, ?_, ?_, hw.2⟩ <;> intro l hl
  · exact hw.1.2 l (by tauto)
  · exact hw.1.2 l (by tauto)
  · exact hw.1.2 l (by tauto)
  · exact hw.1.2 l (by tauto)

/-- Bounds of a section whose header sits after a prefix `A` that contains no
line of its family, with the canonical `---` divider following the header. -/
theorem section_bounds_shape (A B : List Str) (hdr : Str) (fam : Str → Bool)
    (hA : ∀ l ∈ A, fam l = false) (hhdr : fam hdr = true) :
    section_bounds (A ++ hdr :: dashes :: B) fam =
      some (A.length + 2,
        match findIdxA genericHeader B with
        | some j => A.length + 2 + j
        | none => (A ++ hdr :: dashes :: B).length) := by
  have hfind : find_section_start (A ++ hdr :: dashes :: B) fam = some A.length := by
    rw [find_section_start, findIdxA_append_none A _ hA, findIdxA_cons_true _ hhdr]
    simp
  have hnth : nthLine (A ++ hdr :: dashes :: B) (A.length + 1) = some dashes := by
    rw [nthLine_append A (hdr :: dashes :: B) 1]
    rfl
  have hdrop : (A ++ hdr :: dashes :: B).drop (A.length + 2) = B := by
    rw [List.drop_append 2]
    rfl
  rw [section_bounds, hfind]
  simp only [hnth]
  rw [if_pos (by decide : pstrip dashes = str "---")]
  rw [hdrop]

theorem length_sectionedLines (pre xs ys zs ws : List Str) :
    (sectionedLines pre xs ys zs ws).length =
      pre.length + xs.length + ys.length + zs.length + ws.length + 8 := by
  simp [sectionedLines]
  omega

-- The four bounds on a well-formed structured document.

theorem bounds_issues (pre xs ys zs ws : List Str) (hw : wfDoc pre xs ys zs ws = true) :
    section_bounds (sectionedLines pre xs ys zs ws) matchIssues =
      some (pre.length + 2, pre.length + 2 + xs.length) := by
  obtain ⟨hpre, hxs, hys, hzs, hws, _⟩ := wf_parts hw
  have hshape : sectionedLines pre xs ys zs ws =
      pre ++ issuesTitle :: dashes ::
        (xs ++ foundTitle :: dashes ::
          (ys ++ reportsTitle :: dashes :: (zs ++ bugsTitle :: dashes :: ws))) := rfl
  rw [hshape, section_bounds_shape pre _ issuesTitle matchIssues
    (fun l hl => (preLine_noFam (hpre l hl)).1) matchIssues_issuesTitle]
  rw [findIdxA_append_none xs _ (fun l hl => contentLine_noGeneric (hxs l hl)),
      findIdxA_cons_true _ (by decide : genericHeader foundTitle = true)]
  simp only [Option.map_some', Nat.add_zero, Option.some.injEq, Prod.mk.injEq,
    List.length_append, List.length_cons]
  refine ⟨trivial, by ring⟩

theorem bounds_found (pre xs ys zs ws : List Str) (hw : wfDoc pre xs ys zs ws = true) :
    section_bounds (sectionedLines pre xs ys zs ws) matchFound =
      some (pre.length + xs.length + 4, pre.length + xs.length + 4 + ys.length) := by
  obtain ⟨hpre, hxs, hys, hzs, hws, _⟩ := wf_parts hw
  have hshape : sectionedLines pre xs ys zs ws =
      (pre ++ issuesTitle :: dashes :: xs) ++ foundTitle :: dashes ::
        (ys ++ reportsTitle :: dashes :: (zs ++ bugsTitle :: dashes :: ws)) := by
    simp [sectionedLines]
  have hA : ∀ l ∈ pre ++ issuesTitle :: dashes :: xs, matchFound l = false := by
    intro l hl
    simp only [List.mem_append, List.mem_cons] at hl
    rcases hl with h | h | h | h
    · exact (preLine_noFam (hpre l h)).2.1
    · subst h; decide
    · subst h; decide
    · exact (contentLine_noFam (hxs l h)).2.1
  rw [hshape, section_bounds_shape _ _ foundTitle matchFound hA matchFound_foundTitle]
  rw [findIdxA_append_none ys _ (fun l hl => contentLine_noGeneric (hys l hl)),
      findIdxA_cons_true _ (by decide : genericHeader reportsTitle = true)]
  simp only [Option.map_some', Nat.add_zero, Option.some.injEq, Prod.mk.injEq,
    List.length_append, List.length_cons]
  refine ⟨by ring, by ring⟩

theorem bounds_reports (pre xs ys zs ws : List Str) (hw : wfDoc pre xs ys zs ws = true) :
    section_bounds (sectionedLines pre xs ys zs ws) matchReports =
      some (pre.length + xs.length + ys.length + 6,
            pre.length + xs.length + ys.length + 6 + zs.length) := by
  obtain ⟨hpre, hxs, hys, hzs, hws, _⟩ := wf_parts hw
  have hshape : sectionedLines pre xs ys zs ws =
      (pre ++ issuesTitle :: dashes :: (xs ++ foundTitle :: dashes :: ys)) ++
        reportsTitle :: dashes :: (zs ++ bugsTitle :: dashes :: ws) := by
    simp [sectionedLines]
  have hA : ∀ l ∈ pre ++ issuesTitle :: dashes :: (xs ++ foundTitle :: dashes :: ys),
      matchReports l = false := by
    intro l hl
    simp only [List.mem_append, List.mem_cons] at hl
    rcases hl with h | h | h | h | h | h | h
    · exact (preLine_noFam (hpre l h)).2.2.1
    · subst h; decide
    · subst h; decide
    · exact (contentLine_noFam (hxs l h)).2.2.1
    · subst h; decide
    · subst h; decide
    · exact (contentLine_noFam (hys l h)).2.2.1
  rw [hshape, section_bounds_shape _ _ reportsTitle matchReports hA matchReports_reportsTitle]
  rw [findIdxA_append_none zs _ (fun l hl => contentLine_noGeneric (hzs l hl)),
      findIdxA_cons_true _ (by decide : genericHeader bugsTitle = true)]
  simp only [Option.map_some', Nat.add_zero, Option.some.injEq, Prod.mk.injEq,
    List.length_append, List.length_cons]
  refine ⟨by ring, by ring⟩

theorem bounds_bugs (pre xs ys zs ws : List Str) (hw : wfDoc pre xs ys zs ws = true) :
    section_bounds (sectionedLines pre xs ys zs ws) matchBugs =
      some (pre.length + xs.length + ys.length + zs.length + 8,
            pre.length + xs.length + ys.length + zs.length + ws.length + 8) := by
  obtain ⟨hpre, hxs, hys, hzs, hws, _⟩ := wf_parts hw
  have hshape : sectionedLines pre xs ys zs ws =
      (pre ++ issuesTitle :: dashes ::
        (xs ++ foundTitle :: dashes :: (ys ++ reportsTitle :: dashes :: zs))) ++
        bugsTitle :: dashes :: ws := by
    simp [sectionedLines]
  have hA : ∀ l ∈ pre ++ issuesTitle :: dashes ::
      (xs ++ foundTitle :: dashes :: (ys ++ reportsTitle :: dashes :: zs)),
      matchBugs l = false := by
    intro l hl
    simp only [List.mem_append, List.mem_cons] at hl
    rcases hl with h | h | h | h | h | h | h | h | h | h
    · exact (preLine_noFam (hpre l h)).2.2.2
    · subst h; decide
    · subst h; decide
    · exact (contentLine_noFam (hxs l h)).2.2.2
    · subst h; decide
    · subst h; decide
    · exact (contentLine_noFam (hys l h)).2.2.2
    · subst h; decide
    · subst h; decide
    · exact (contentLine_noFam (hzs l h)).2.2.2
  rw [hshape, section_bounds_shape _ _ bugsTitle matchBugs hA matchBugs_bugsTitle]
  rw [findIdxA_none _ _ (fun l hl => contentLine_noGeneric (hws l hl))]
  simp only [Option.some.injEq, Prod.mk.injEq, List.length_append, List.length_cons]
  refine ⟨by ring, by ring⟩

-- ## Scaffolder lemmas

theorem mem_of_spliceAt {L blk : List Str} {n : Nat} {l : Str}
    (h : l ∈ spliceAt L n blk) : l ∈ L ∨ l ∈ blk := by
  rw [spliceAt] at h
  rcases List.mem_append.mp h with h | h
  · rcases List.mem_append.mp h with h | h
    · exact Or.inl (List.mem_of_mem_take h)
    · exact Or.inr h
  · exact Or.inl (List.mem_of_mem_drop h)

theorem spliceAt_ne_nil (L blk : List Str) (n : Nat) (hblk : blk ≠ []) :
    spliceAt L n blk ≠ [] := by
  rw [spliceAt]
  intro h
  rcases List.append_eq_nil.mp h with ⟨h1, h2⟩
  rcases List.append_eq_nil.mp h1 with ⟨_, h3⟩
  exact hblk h3

theorem scaffoldPhase_spec (fam : Str → Bool) (posOf : List Str → Nat)
    (blk : List Str) (st : List Str × Bool) (hblk : ∃ b ∈ blk, fam b = true)
    (hne : blk ≠ []) :
    (∀ l ∈ st.1, l ∈ (scaffoldPhase fam posOf blk st).1) ∧
    (∃ l ∈ (scaffoldPhase fam posOf blk st).1, fam l = true) ∧
    (∀ l ∈ (scaffoldPhase fam posOf blk st).1, l ∈ st.1 ∨ l ∈ blk) ∧
    (st.2 = true → (scaffoldPhase fam posOf blk st).2 = true) ∧
    ((scaffoldPhase fam posOf blk st).2 = true → (scaffoldPhase fam posOf blk st).1 ≠ [] ∨
      (st.2 = true ∧ (scaffoldPhase fam posOf blk st).1 = st.1)) := by
  rw [scaffoldPhase]
  by_cases hc : (section_bounds st.1 fam).isSome = true
  · rw [if_pos hc]
    refine ⟨fun l hl => hl, ?_, fun l hl => Or.inl hl, fun h => h, fun h => Or.inr ⟨h, rfl⟩⟩
    exact (section_bounds_isSome_iff _ _).mp hc
  · rw [if_neg hc]
    rcases hblk with ⟨b, hb, hfb⟩
    refine ⟨fun l hl => mem_spliceAt _ _ _ _ hl, ⟨b, mem_spliceAt_blk _ _ _ _ hb, hfb⟩,
      fun l hl => mem_of_spliceAt hl, fun _ => rfl, fun _ => Or.inl (spliceAt_ne_nil _ _ _ hne)⟩

theorem scaffoldPhase_noop (fam : Str → Bool) (posOf : List Str → Nat)
    (blk : List Str) (st : List Str × Bool) (h : ∃ l ∈ st.1, fam l = true) :
    scaffoldPhase fam posOf blk st = st := by
  rw [scaffoldPhase, if_pos ((section_bounds_isSome_iff _ _).mpr h)]

theorem mem_dropLast_of_ne_last {L : List Str} {x last : Str}
    (hx : x ∈ L) (hL : L.getLast? = some last) (hne : x ≠ last) : x ∈ L.dropLast := by
  have h2 := List.dropLast_append_getLast? last hL
  rw [← h2] at hx
  rcases List.mem_append.mp hx with h | h
  · exact h
  · simp only [List.mem_singleton] at h
    exact absurd h hne

/-- Re-splitting the changed scaffolder output: the line list, possibly with
one trailing empty line dropped. -/
theorem splitlines_ensureNl_joinNl (L : List Str) (hL : L ≠ [])
    (hb : ∀ e ∈ L, breakfree e = true) :
    splitlinesCs (ensureNl (joinNl L)) = L ∨
    (L.getLast? = some [] ∧ splitlinesCs (ensureNl (joinNl L)) = L.dropLast) := by
  cases hlast : L.getLast? with
  | none => simp [List.getLast?_eq_none_iff.mp hlast] at hL
  | some e =>
    by_cases he : e = []
    · subst he
      by_cases hdl : L.dropLast = []
      · left
        have hLe : L = [[]] := by
          have := List.dropLast_append_getLast? _ hlast
          rw [hdl] at this
          simpa using this.symm
        subst hLe
        rfl
      · right
        refine ⟨rfl, ?_⟩
        have hconc := List.dropLast_append_getLast? _ hlast
        have hj : joinNl L = joinNl L.dropLast ++ ['\n'] := by
          conv_lhs => rw [← hconc]
          rw [joinNl_concat _ _ hdl]
        have hends : endsNl (joinNl L) = true := by
          rw [hj]
          exact endsNl_append_nl _
        rw [ensureNl_of_ends _ hends, hj]
        exact splitlines_join_breakfree _ hdl (fun x hx => hb x
          (by rw [← hconc]; exact List.mem_append_left _ hx))
    · left
      have hememL : e ∈ L := by
        have h2 := List.dropLast_append_getLast? _ hlast
        rw [← h2]
        exact List.mem_append_right _ (by simp)
      have hends : endsNl (joinNl L) = false := by
        apply endsNl_joinNl L hL
        intro f hf
        rw [hlast] at hf
        have hfe : e = f := by injection hf
        subst hfe
        exact ⟨he, breakfree_not_endsNl e he (hb e hememL)⟩
      rw [ensureNl_of_not_ends _ hends]
      exact splitlines_join_breakfree _ hL hb

-- ## Scaffolder correctness

/-- If all four canonical sections are present, the scaffolder returns its
input unchanged (the `changed` flag stays false). -/
theorem scaffold_noop (text : Str)
    (h1 : ∃ l ∈ splitlinesCs text, matchIssues l = true)
    (h2 : ∃ l ∈ splitlinesCs text, matchFound l = true)
    (h3 : ∃ l ∈ splitlinesCs text, matchReports l = true)
    (h4 : ∃ l ∈ splitlinesCs text, matchBugs l = true) :
    find_or_create_sections text = text := by
  rw [find_or_create_sections]
  rw [scaffoldPhase_noop matchIssues issuesInsertAt issuesBlock _ h1]
  rw [scaffoldPhase_noop matchFound (afterBounds matchIssues) foundBlock _ h2]
  rw [scaffoldPhase_noop matchReports (afterBounds matchFound) reportsBlock _ h3]
  rw [scaffoldPhase_noop matchBugs (afterBounds matchReports) bugsBlock _ h4]
  rfl

theorem issuesTitle_mem_issuesBlock : ∃ b ∈ issuesBlock, matchIssues b = true :=
  ⟨issuesTitle, by simp [issuesBlock], matchIssues_issuesTitle⟩

theorem foundTitle_mem_foundBlock : ∃ b ∈ foundBlock, matchFound b = true :=
  ⟨foundTitle, by simp [foundBlock], matchFound_foundTitle⟩

theorem reportsTitle_mem_reportsBlock : ∃ b ∈ reportsBlock, matchReports b = true :=
  ⟨reportsTitle, by simp [reportsBlock], matchReports_reportsTitle⟩

theorem bugsTitle_mem_bugsBlock : ∃ b ∈ bugsBlock, matchBugs b = true :=
  ⟨bugsTitle, by simp [bugsBlock], matchBugs_bugsTitle⟩

/-- The line-list/changed-flag state after the four scaffolder phases. -/
def scaffoldSt (text : Str) : List Str × Bool :=
  scaffoldPhase matchBugs (afterBounds matchReports) bugsBlock
    (scaffoldPhase matchReports (afterBounds matchFound) reportsBlock
      (scaffoldPhase matchFound (afterBounds matchIssues) foundBlock
        (scaffoldPhase matchIssues issuesInsertAt issuesBlock (splitlinesCs text, false))))

theorem find_or_create_sections_eq (text : Str) :
    find_or_create_sections text =
      if (scaffoldSt text).2 = true then ensureNl (joinNl (scaffoldSt text).1) else text := by
  have h0 : find_or_create_sections text =
      (if (scaffoldSt text).2 = true then
        (if ((scaffoldSt text).2 && !endsNl (joinNl (scaffoldSt text).1)) = true then
          joinNl (scaffoldSt text).1 ++ ['\n'] else joinNl (scaffoldSt text).1)
       else text) := rfl
  rw [h0, ensureNl]
  cases hst : (scaffoldSt text).2 <;>
    by_cases he : endsNl (joinNl (scaffoldSt text).1) = true <;> simp [he]

/-- The line list after the four scaffolding phases: all four section headers
are present, every line comes from the input or from a created block, and if
anything changed the list is non-empty. -/
theorem scaffold_lines_spec (text : Str) :
    (∃ l ∈ (scaffoldSt text).1, matchIssues l = true) ∧
    (∃ l ∈ (scaffoldSt text).1, matchFound l = true) ∧
    (∃ l ∈ (scaffoldSt text).1, matchReports l = true) ∧
    (∃ l ∈ (scaffoldSt text).1, matchBugs l = true) ∧
    (∀ l ∈ (scaffoldSt text).1, l ∈ splitlinesCs text ∨ l ∈ issuesBlock ∨
      l ∈ foundBlock ∨ l ∈ reportsBlock ∨ l ∈ bugsBlock) ∧
    ((scaffoldSt text).2 = true → (scaffoldSt text).1 ≠ []) := by
  obtain ⟨k1a, k1b, k1c, _, k1e⟩ :=
    scaffoldPhase_spec matchIssues issuesInsertAt issuesBlock (splitlinesCs text, false)
      issuesTitle_mem_issuesBlock (by simp [issuesBlock])
  obtain ⟨k2a, k2b, k2c, k2d, k2e⟩ :=
    scaffoldPhase_spec matchFound (afterBounds matchIssues) foundBlock
      (scaffoldPhase matchIssues issuesInsertAt issuesBlock (splitlinesCs text, false))
      foundTitle_mem_foundBlock (by simp [foundBlock])
  obtain ⟨k3a, k3b, k3c, k3d, k3e⟩ :=
    scaffoldPhase_spec matchReports (afterBounds matchFound) reportsBlock
      (scaffoldPhase matchFound (afterBounds matchIssues) foundBlock
        (scaffoldPhase matchIssues issuesInsertAt issuesBlock (splitlinesCs text, false)))
      reportsTitle_mem_reportsBlock (by simp [reportsBlock])
  obtain ⟨k4a, k4b, k4c, k4d, k4e⟩ :=
    scaffoldPhase_spec matchBugs (afterBounds matchReports) bugsBlock
      (scaffoldPhase matchReports (afterBounds matchFound) reportsBlock
        (scaffoldPhase matchFound (afterBounds matchIssues) foundBlock
          (scaffoldPhase matchIssues issuesInsertAt issuesBlock (splitlinesCs text, false))))
      bugsTitle_mem_bugsBlock (by simp [bugsBlock])
  rw [scaffoldSt]
  refine ⟨?_, ?_, ?_, k4b, ?_, ?_⟩
  · rcases k1b with ⟨l, hl, hm⟩
    exact ⟨l, k4a _ (k3a _ (k2a _ hl)), hm⟩
  · rcases k2b with ⟨l, hl, hm⟩
    exact ⟨l, k4a _ (k3a _ hl), hm⟩
  · rcases k3b with ⟨l, hl, hm⟩
    exact ⟨l, k4a _ hl, hm⟩
  · intro l hl
    rcases k4c l hl with h | h
    · rcases k3c l h with h | h
      · rcases k2c l h with h | h
        · rcases k1c l h with h | h
          · exact Or.inl h
          · exact Or.inr (Or.inl h)
        · exact Or.inr (Or.inr (Or.inl h))
      · right; right; right; exact Or.inl h
    · right; right; right; exact Or.inr h
  · intro hch
    rcases k4e hch with h | ⟨hch3, heq⟩
    · exact h
    · rw [heq]
      rcases k3e hch3 with h | ⟨hch2, heq2⟩
      · exact h
      · rw [heq2]
        rcases k2e hch2 with h | ⟨hch1, heq1⟩
        · exact h
        · rw [heq1]
          rcases k1e hch1 with h | ⟨hfalse, _⟩
          · exact h
          · simp at hfalse

theorem scaffoldPhase_changed_false (fam : Str → Bool) (posOf : List Str → Nat)
    (blk : List Str) (st : List Str × Bool)
    (h : (scaffoldPhase fam posOf blk st).2 = false) :
    scaffoldPhase fam posOf blk st = st := by
  rw [scaffoldPhase] at h ⊢
  by_cases hc : (section_bounds st.1 fam).isSome = true
  · rw [if_pos hc]
  · rw [if_neg hc] at h
    simp at h

theorem scaffoldSt_changed_false (text : Str) (h : (scaffoldSt text).2 = false) :
    (scaffoldSt text).1 = splitlinesCs text := by
  rw [scaffoldSt] at h ⊢
  have h4 := scaffoldPhase_changed_false _ _ _ _ h
  rw [h4] at h ⊢
  have h3 := scaffoldPhase_changed_false _ _ _ _ h
  rw [h3] at h ⊢
  have h2 := scaffoldPhase_changed_false _ _ _ _ h
  rw [h2] at h ⊢
  have h1 := scaffoldPhase_changed_false _ _ _ _ h
  rw [h1]

theorem scaffold_breakfree (text : Str) : ∀ l ∈ (scaffoldSt text).1, breakfree l = true := by
  intro l hl
  rcases (scaffold_lines_spec text).2.2.2.2.1 l hl with h | h | h | h | h
  · exact mem_splitlines_breakfree text l h
  · simp [issuesBlock] at h
    rcases h with rfl | rfl | rfl <;> decide
  · simp [foundBlock] at h
    rcases h with rfl | rfl | rfl <;> decide
  · simp [reportsBlock] at h
    rcases h with rfl | rfl | rfl <;> decide
  · simp [bugsBlock] at h
    rcases h with rfl | rfl | rfl <;> decide

/-- Every scaffolder output, split back into lines, contains a line of each of
the four canonical header families. -/
theorem scaffold_output_has (text : Str) :
    (∃ l ∈ splitlinesCs (find_or_create_sections text), matchIssues l = true) ∧
    (∃ l ∈ splitlinesCs (find_or_create_sections text), matchFound l = true) ∧
    (∃ l ∈ splitlinesCs (find_or_create_sections text), matchReports l = true) ∧
    (∃ l ∈ splitlinesCs (find_or_create_sections text), matchBugs l = true) := by
  obtain ⟨e1, e2, e3, e4, hmem, hne⟩ := scaffold_lines_spec text
  rw [find_or_create_sections_eq]
  cases hst : (scaffoldSt text).2 with
  | false =>
    simp only [Bool.false_eq_true, if_false]
    rw [← scaffoldSt_changed_false text hst]
    exact ⟨e1, e2, e3, e4⟩
  | true =>
    simp only [if_true]
    rcases splitlines_ensureNl_joinNl (scaffoldSt text).1 (hne hst) (scaffold_breakfree text)
      with h | ⟨hlast, h⟩
    · rw [h]
      exact ⟨e1, e2, e3, e4⟩
    · rw [h]
      refine ⟨?_, ?_, ?_, ?_⟩
      · rcases e1 with ⟨l, hl, hm⟩
        refine ⟨l, mem_dropLast_of_ne_last hl hlast ?_, hm⟩
        rintro rfl
        exact absurd hm (by decide)
      · rcases e2 with ⟨l, hl, hm⟩
        refine ⟨l, mem_dropLast_of_ne_last hl hlast ?_, hm⟩
        rintro rfl
        exact absurd hm (by decide)
      · rcases e3 with ⟨l, hl, hm⟩
        refine ⟨l, mem_dropLast_of_ne_last hl hlast ?_, hm⟩
        rintro rfl
        exact absurd hm (by decide)
      · rcases e4 with ⟨l, hl, hm⟩
        refine ⟨l, mem_dropLast_of_ne_last hl hlast ?_, hm⟩
        rintro rfl
        exact absurd hm (by decide)

-- ## Claim C4

/-- C4: for every input text, including the empty document, the scaffolder
`find_or_create_sections` returns a document in which all four canonical
sections — issues found, Found / Invalid, reports written, bugs — are
present (their `section_bounds` resolve); on the empty document it produces
exactly the four canonical empty sections, in canonical order, each a header
line plus `---` divider plus blank line. -/
theorem C4_scaffolder_creates_all_sections :
    (∀ text : Str,
      (section_bounds (splitlinesCs (find_or_create_sections text)) matchIssues).isSome = true ∧
      (section_bounds (splitlinesCs (find_or_create_sections text)) matchFound).isSome = true ∧
      (section_bounds (splitlinesCs (find_or_create_sections text)) matchReports).isSome = true ∧
      (section_bounds (splitlinesCs (find_or_create_sections text)) matchBugs).isSome = true) ∧
    find_or_create_sections (str "") =
      str "# issues found 🕵️‍♂️\n---\n\n# Found / Invalid 🗂️\n---\n\n# reports written 📝\n---\n\n# bugs 🐛\n---\n" := by
  refine ⟨fun text => ?_, by decide⟩
  obtain ⟨e1, e2, e3, e4⟩ := scaffold_output_has text
  exact ⟨(section_bounds_isSome_iff _ _).mpr e1, (section_bounds_isSome_iff _ _).mpr e2,
    (section_bounds_isSome_iff _ _).mpr e3, (section_bounds_isSome_iff _ _).mpr e4⟩

-- ## Claim C5

/-- C5: the scaffolder is idempotent — applying `find_or_create_sections`
twice equals applying it once, for every document; and when all four
canonical sections are already present, it returns the original text itself,
unchanged. -/
theorem C5_scaffolder_idempotent :
    (∀ d : Str,
      find_or_create_sections (find_or_create_sections d) = find_or_create_sections d) ∧
    (∀ d : Str,
      (∃ l ∈ splitlinesCs d, matchIssues l = true) →
      (∃ l ∈ splitlinesCs d, matchFound l = true) →
      (∃ l ∈ splitlinesCs d, matchReports l = true) →
      (∃ l ∈ splitlinesCs d, matchBugs l = true) →
      find_or_create_sections d = d) := by
  refine ⟨fun d => ?_, fun d h1 h2 h3 h4 => scaffold_noop d h1 h2 h3 h4⟩
  obtain ⟨e1, e2, e3, e4⟩ := scaffold_output_has d
  exact scaffold_noop _ e1 e2 e3 e4

def canonicalEmptyDoc : Str :=
  str "# issues found 🕵️‍♂️\n---\n\n# Found / Invalid 🗂️\n---\n\n# reports written 📝\n---\n\n# bugs 🐛\n---\n"

/-- Witness for C5 at concrete inputs: idempotence evaluated on a one-line
document, and the no-op clause evaluated on the canonical four-section
document. -/
theorem C5_scaffolder_idempotent_witness :
    find_or_create_sections (find_or_create_sections (str "hello")) =
      find_or_create_sections (str "hello") ∧
    find_or_create_sections canonicalEmptyDoc = canonicalEmptyDoc :=
  ⟨C5_scaffolder_idempotent.1 (str "hello"),
   C5_scaffolder_idempotent.2 canonicalEmptyDoc (by decide) (by decide) (by decide) (by decide)⟩

-- ## Structured-document support for the ledger operations

theorem spliceAt_append (A B blk : List Str) (n : Nat) (hn : n = A.length) :
    spliceAt (A ++ B) n blk = A ++ blk ++ B := by
  subst hn
  rw [spliceAt, List.take_left, List.drop_left, List.append_assoc]

theorem wfDoc_intro (pre xs ys zs ws : List Str)
    (hpre : ∀ l ∈ pre, preLine l = true) (hxs : ∀ l ∈ xs, contentLine l = true)
    (hys : ∀ l ∈ ys, contentLine l = true) (hzs : ∀ l ∈ zs, contentLine l = true)
    (hws : ∀ l ∈ ws, contentLine l = true) (hlast : lastOk ws = true) :
    wfDoc pre xs ys zs ws = true := by
  simp only [wfDoc, Bool.and_eq_true, List.all_eq_true]
  refine ⟨⟨hpre, ?_⟩, hlast⟩
  intro l hl
  simp only [List.mem_append] at hl
  rcases hl with ((h | h) | h) | h
  · exact hxs l h
  · exact hys l h
  · exact hzs l h
  · exact hws l h

theorem lastLine_sectioned (pre xs ys zs ws : List Str) :
    (sectionedLines pre xs ys zs ws).getLast? = (bugsTitle :: dashes :: ws).getLast? := by
  have hshape : sectionedLines pre xs ys zs ws =
      (pre ++ issuesTitle :: dashes ::
        (xs ++ foundTitle :: dashes :: (ys ++ reportsTitle :: dashes :: zs))) ++
        bugsTitle :: dashes :: ws := by
    simp [sectionedLines]
  rw [hshape, List.getLast?_append_of_ne_nil _ (by simp)]

theorem endsNl_joinNl_sectioned (pre xs ys zs ws : List Str)
    (hw : wfDoc pre xs ys zs ws = true) :
    endsNl (joinNl (sectionedLines pre xs ys zs ws)) = false := by
  obtain ⟨hpre, hxs, hys, hzs, hws, hlast⟩ := wf_parts hw
  apply endsNl_joinNl _ (by simp [sectionedLines])
  intro e he
  rw [lastLine_sectioned] at he
  by_cases hwe : ws = []
  · subst hwe
    have h2 : (bugsTitle :: dashes :: ([] : List Str)).getLast? = some dashes := by simp
    rw [h2] at he
    injection he with h3
    rw [← h3]
    exact ⟨by decide, by decide⟩
  · have hwne : ws ≠ [] := hwe
    have hge : ws.getLast? = some e := by
      rw [show bugsTitle :: dashes :: ws = [bugsTitle, dashes] ++ ws from rfl,
        List.getLast?_append_of_ne_nil _ hwne] at he
      exact he
    have hmem : e ∈ ws := by
      have h2 := List.dropLast_append_getLast? _ hge
      rw [← h2]
      exact List.mem_append_right _ (by simp)
    have hne : e ≠ [] := by
      intro h
      subst h
      rw [lastOk, hge] at hlast
      simp at hlast
    exact ⟨hne, breakfree_not_endsNl e hne (contentLine_breakfree (hws e hmem))⟩

theorem ensureNl_joinNl_sectioned (pre xs ys zs ws : List Str)
    (hw : wfDoc pre xs ys zs ws = true) :
    ensureNl (joinNl (sectionedLines pre xs ys zs ws)) = sectionedDoc pre xs ys zs ws := by
  rw [ensureNl_of_not_ends _ (endsNl_joinNl_sectioned pre xs ys zs ws hw), sectionedDoc]

theorem scaffold_noop_sectioned (pre xs ys zs ws : List Str)
    (hw : wfDoc pre xs ys zs ws = true) :
    find_or_create_sections (sectionedDoc pre xs ys zs ws) =
      sectionedDoc pre xs ys zs ws := by
  refine scaffold_noop _ ?_ ?_ ?_ ?_ <;> rw [splitlines_sectionedDoc _ _ _ _ _ hw]
  · exact ⟨issuesTitle, by simp [sectionedLines], matchIssues_issuesTitle⟩
  · exact ⟨foundTitle, by simp [sectionedLines], matchFound_foundTitle⟩
  · exact ⟨reportsTitle, by simp [sectionedLines], matchReports_reportsTitle⟩
  · exact ⟨bugsTitle, by simp [sectionedLines], matchBugs_bugsTitle⟩

-- ## Lines that are not headers of any family

theorem pstrip_cons_of_not_space (c : Char) (s : Str) (hc : isPySpace c = false) :
    pstrip (c :: s) = c :: pstripRight s := by
  have h1 : pstripLeft (c :: s) = c :: s := by
    rw [pstripLeft, List.dropWhile_cons, if_neg (by simp [hc])]
  rw [pstrip, h1]
  cases h : pstripRight s with
  | nil => simp [pstripRight, h, hc]
  | cons a t => simp [pstripRight, h]

theorem eatHash_none (c : Char) (s : Str) (hc : isPySpace c = false)
    (hne : c.toLower ≠ '#') : eatCI (str "#") (pstrip (c :: s)) = none := by
  rw [pstrip_cons_of_not_space c s hc]
  have h0 : eatCI (str "#") (c :: pstripRight s) =
      if c.toLower = Char.toLower '#' then some (pstripRight s) else none := rfl
  rw [h0, if_neg (fun h => hne (h.trans (by decide)))]

theorem matchIssues_false_of_head (c : Char) (s : Str) (hc : isPySpace c = false)
    (hne : c.toLower ≠ '#') : matchIssues (c :: s) = false := by
  rw [matchIssues, eatHash_none c s hc hne]

theorem matchFound_false_of_head (c : Char) (s : Str) (hc : isPySpace c = false)
    (hne : c.toLower ≠ '#') : matchFound (c :: s) = false := by
  rw [matchFound, eatHash_none c s hc hne]

theorem matchReports_false_of_head (c : Char) (s : Str) (hc : isPySpace c = false)
    (hne : c.toLower ≠ '#') : matchReports (c :: s) = false := by
  rw [matchReports, eatHash_none c s hc hne]

theorem matchBugs_false_of_head (c : Char) (s : Str) (hc : isPySpace c = false)
    (hne : c.toLower ≠ '#') : matchBugs (c :: s) = false := by
  rw [matchBugs, eatHash_none c s hc hne]

theorem genericHeader_false_of_head (c : Char) (s : Str) (hne : c ≠ '#') :
    genericHeader (c :: s) = false := by
  cases s with
  | nil => rfl
  | cons d t =>
    show ((c == '#') && isPySpace d) = false
    simp [hne]

theorem contentLine_dash (s : Str) (hb : breakfree ('-' :: s) = true) :
    contentLine ('-' :: s) = true := by
  rw [contentLine, hb, matchIssues_false_of_head '-' s (by decide) (by decide),
    matchFound_false_of_head '-' s (by decide) (by decide),
    matchReports_false_of_head '-' s (by decide) (by decide),
    matchBugs_false_of_head '-' s (by decide) (by decide),
    genericHeader_false_of_head '-' s (by decide)]
  rfl

-- ## Claim C7

/-- The entry line `add_issue_line` constructs. -/
def issueEntry (now time_str platform desc : Str) : Str :=
  str "- [" ++ normalize_time_12h now time_str ++ str "][" ++ lowerStr platform ++
    str "] " ++ pstrip desc

/-- C7: on a document with the four canonical sections, `add_issue_line`
appends the new issue line at the end boundary of Issues Found, preserving
the order of the existing Issues Found lines (`xs` is unchanged as a prefix)
and the byte content of the header block and of the other three sections. -/
theorem C7_add_issue_line_appends_at_issues_end
    (now time_str platform desc : Str) (pre xs ys zs ws : List Str)
    (hw : wfDoc pre xs ys zs ws = true)
    (hb : breakfree (issueEntry now time_str platform desc) = true) :
    add_issue_line now (sectionedDoc pre xs ys zs ws) time_str platform desc =
      sectionedDoc pre (xs ++ [issueEntry now time_str platform desc]) ys zs ws := by
  have hce : contentLine (issueEntry now time_str platform desc) = true := by
    rw [show issueEntry now time_str platform desc =
      '-' :: (str " [" ++ normalize_time_12h now time_str ++ str "][" ++
        lowerStr platform ++ str "] " ++ pstrip desc) from rfl] at hb ⊢
    exact contentLine_dash _ hb
  obtain ⟨hpre, hxs, hys, hzs, hws, hlast⟩ := wf_parts hw
  have hw2 : wfDoc pre (xs ++ [issueEntry now time_str platform desc]) ys zs ws = true := by
    refine wfDoc_intro _ _ _ _ _ hpre ?_ hys hzs hws hlast
    intro l hl
    rcases List.mem_append.mp hl with h | h
    · exact hxs l h
    · simp only [List.mem_singleton] at h
      subst h
      exact hce
  simp only [add_issue_line, scaffold_noop_sectioned pre xs ys zs ws hw,
    splitlines_sectionedDoc pre xs ys zs ws hw, bounds_issues pre xs ys zs ws hw]
  rw [show (str "- [" ++ normalize_time_12h now time_str ++ str "][" ++
    lowerStr platform ++ str "] " ++ pstrip desc) =
    issueEntry now time_str platform desc from rfl]
  have hsplit : sectionedLines pre xs ys zs ws =
      (pre ++ issuesTitle :: dashes :: xs) ++
        (foundTitle :: dashes ::
          (ys ++ reportsTitle :: dashes :: (zs ++ bugsTitle :: dashes :: ws))) := by
    simp [sectionedLines]
  rw [hsplit, spliceAt_append _ _ _ _ (by simp [List.length_append, List.length_cons]; ring)]
  have hre : (pre ++ issuesTitle :: dashes :: xs) ++
      [issueEntry now time_str platform desc] ++
      (foundTitle :: dashes ::
        (ys ++ reportsTitle :: dashes :: (zs ++ bugsTitle :: dashes :: ws))) =
      sectionedLines pre (xs ++ [issueEntry now time_str platform desc]) ys zs ws := by
    simp [sectionedLines]
  rw [hre, ensureNl_joinNl_sectioned _ _ _ _ _ hw2]

/-- Witness for C7 on a concrete document: the empty four-section document
gains exactly the rendered issue line inside Issues Found. -/
theorem C7_add_issue_line_appends_witness :
    wfDoc [] [] [] [] [] = true ∧
    breakfree (issueEntry (str "x") (str "01:00 PM") (str "PS5") (str "Crash")) = true ∧
    add_issue_line (str "x") (sectionedDoc [] [] [] [] []) (str "01:00 PM") (str "PS5")
        (str "Crash") =
      sectionedDoc [] [issueEntry (str "x") (str "01:00 PM") (str "PS5") (str "Crash")]
        [] [] [] :=
  ⟨by decide, by decide,
   C7_add_issue_line_appends_at_issues_end (str "x") (str "01:00 PM") (str "PS5")
     (str "Crash") [] [] [] [] [] (by decide) (by decide)⟩

-- ## Claim C9

theorem drop_take_section (A B C : List Str) (a b : Nat) (ha : a = A.length)
    (hb : b - a = B.length) :
    ((A ++ (B ++ C)).drop a).take (b - a) = B := by
  rw [hb, ha, List.drop_left, List.take_left]

theorem removeIssueIn_nomatch (lines : List Str) (a b : Nat) (ev : IssueEv)
    (h : ∀ l ∈ (lines.drop a).take (b - a),
      (pstrip l == issueLineOf ev) = false ∧ prefMatchesEv ev l = false) :
    removeIssueIn lines a b ev = lines := by
  rw [removeIssueIn, findMatchIdx, findIdxA_none _ _ (fun l hl => (h l hl).1),
      findMatchIdx, findIdxA_none _ _ (fun l hl => (h l hl).2)]

/-- The Found/Invalid entry `move_issue_to_found` constructs. -/
def foundEntry (ev : IssueEv) (bugnum : Str) : Str :=
  if !(pstrip bugnum).isEmpty then
    str "- [" ++ pstrip bugnum ++ str "] [" ++ ev.time ++ str "][" ++
      ev.platform ++ str "] " ++ ev.desc
  else issueLineOf ev

theorem contentLine_foundEntry (ev : IssueEv) (bugnum : Str)
    (hb : breakfree (foundEntry ev bugnum) = true) :
    contentLine (foundEntry ev bugnum) = true := by
  by_cases hc : (!(pstrip bugnum).isEmpty) = true
  · rw [foundEntry, if_pos hc] at hb ⊢
    rw [show (str "- [" ++ pstrip bugnum ++ str "] [" ++ ev.time ++ str "][" ++
      ev.platform ++ str "] " ++ ev.desc) =
      '-' :: (str " [" ++ pstrip bugnum ++ str "] [" ++ ev.time ++ str "][" ++
        ev.platform ++ str "] " ++ ev.desc) from rfl] at hb ⊢
    exact contentLine_dash _ hb
  · rw [foundEntry, if_neg hc] at hb ⊢
    rw [show issueLineOf ev =
      '-' :: (str " [" ++ ev.time ++ str "][" ++ ev.platform ++ str "] " ++ ev.desc)
      from rfl] at hb ⊢
    exact contentLine_dash _ hb

/-- C9: on a document with the four canonical sections whose Issues Found
body contains no line matching the triple — neither by exact stripped text
nor by time+platform prefix — `move_issue_to_found` still appends the derived
entry (bug-number tag prefixed when the stripped tag is non-empty) at the end
of the Found/Invalid section, with every other section unchanged. -/
theorem C9_move_without_match_still_appends
    (pre xs ys zs ws : List Str) (ev : IssueEv) (bugnum : Str)
    (hw : wfDoc pre xs ys zs ws = true)
    (hnm : ∀ l ∈ xs, (pstrip l == issueLineOf ev) = false ∧ prefMatchesEv ev l = false)
    (hb : breakfree (foundEntry ev bugnum) = true) :
    move_issue_to_found (sectionedDoc pre xs ys zs ws) ev bugnum =
      sectionedDoc pre xs (ys ++ [foundEntry ev bugnum]) zs ws := by
  have hce : contentLine (foundEntry ev bugnum) = true := contentLine_foundEntry ev bugnum hb
  obtain ⟨hpre, hxs, hys, hzs, hws, hlast⟩ := wf_parts hw
  have hw2 : wfDoc pre xs (ys ++ [foundEntry ev bugnum]) zs ws = true := by
    refine wfDoc_intro _ _ _ _ _ hpre hxs ?_ hzs hws hlast
    intro l hl
    rcases List.mem_append.mp hl with h | h
    · exact hys l h
    · simp only [List.mem_singleton] at h
      subst h
      exact hce
  have hsh : sectionedLines pre xs ys zs ws =
      (pre ++ [issuesTitle, dashes]) ++
        (xs ++ (foundTitle :: dashes ::
          (ys ++ reportsTitle :: dashes :: (zs ++ bugsTitle :: dashes :: ws)))) := by
    simp [sectionedLines]
  have hrange : ((sectionedLines pre xs ys zs ws).drop (pre.length + 2)).take
      (pre.length + 2 + xs.length - (pre.length + 2)) = xs := by
    rw [hsh]
    exact drop_take_section _ _ _ _ _
      (by simp only [List.length_append, List.length_cons, List.length_nil])
      (Nat.add_sub_cancel_left _ _)
  have hrem : removeIssueIn (sectionedLines pre xs ys zs ws) (pre.length + 2)
      (pre.length + 2 + xs.length) ev = sectionedLines pre xs ys zs ws :=
    removeIssueIn_nomatch _ _ _ _ (fun l hl => hnm l (by rwa [hrange] at hl))
  simp only [move_issue_to_found, scaffold_noop_sectioned pre xs ys zs ws hw,
    splitlines_sectionedDoc pre xs ys zs ws hw, ensure_section,
    bounds_issues pre xs ys zs ws hw, bounds_found pre xs ys zs ws hw, hrem]
  rw [show (if !(pstrip bugnum).isEmpty then
      str "- [" ++ pstrip bugnum ++ str "] [" ++ ev.time ++ str "][" ++
        ev.platform ++ str "] " ++ ev.desc
    else issueLineOf ev) = foundEntry ev bugnum from rfl]
  have hsplit2 : sectionedLines pre xs ys zs ws =
      (pre ++ issuesTitle :: dashes :: (xs ++ foundTitle :: dashes :: ys)) ++
        (reportsTitle :: dashes :: (zs ++ bugsTitle :: dashes :: ws)) := by
    simp [sectionedLines]
  rw [hsplit2, spliceAt_append _ _ _ _
    (by simp only [List.length_append, List.length_cons, List.length_nil]; ring)]
  have hre2 : (pre ++ issuesTitle :: dashes :: (xs ++ foundTitle :: dashes :: ys)) ++
      [foundEntry ev bugnum] ++
      (reportsTitle :: dashes :: (zs ++ bugsTitle :: dashes :: ws)) =
      sectionedLines pre xs (ys ++ [foundEntry ev bugnum]) zs ws := by
    simp [sectionedLines]
  rw [hre2, ensureNl_joinNl_sectioned _ _ _ _ _ hw2]

/-- Witness for C9 on a concrete document with an empty Issues Found body:
the Found/Invalid section gains the tagged entry. -/
theorem C9_move_without_match_witness :
    move_issue_to_found (sectionedDoc [] [] [] [] [])
        ⟨str "01:00 PM", str "ps5", str "Crash"⟩ (str "7") =
      sectionedDoc [] []
        [foundEntry ⟨str "01:00 PM", str "ps5", str "Crash"⟩ (str "7")] [] [] :=
  C9_move_without_match_still_appends [] [] [] [] []
    ⟨str "01:00 PM", str "ps5", str "Crash"⟩ (str "7")
    (by decide) (by decide) (by decide)

-- ## Claim C8

theorem removeIssueIn_sectioned_nomatch (pre xs ys zs ws : List Str) (ev : IssueEv)
    (hnm : ∀ l ∈ xs, (pstrip l == issueLineOf ev) = false ∧ prefMatchesEv ev l = false) :
    removeIssueIn (sectionedLines pre xs ys zs ws) (pre.length + 2)
      (pre.length + 2 + xs.length) ev = sectionedLines pre xs ys zs ws := by
  have hsh : sectionedLines pre xs ys zs ws =
      (pre ++ [issuesTitle, dashes]) ++
        (xs ++ (foundTitle :: dashes ::
          (ys ++ reportsTitle :: dashes :: (zs ++ bugsTitle :: dashes :: ws)))) := by
    simp [sectionedLines]
  have hrange : ((sectionedLines pre xs ys zs ws).drop (pre.length + 2)).take
      (pre.length + 2 + xs.length - (pre.length + 2)) = xs := by
    rw [hsh]
    exact drop_take_section _ _ _ _ _
      (by simp only [List.length_append, List.length_cons, List.length_nil])
      (Nat.add_sub_cancel_left _ _)
  exact removeIssueIn_nomatch _ _ _ _ (fun l hl => hnm l (by rwa [hrange] at hl))

/-- C8 (amended): deletion with no matching issue line raises no error and is
a no-op up to the engine's newline renormalisation: on a document with no
Issues Found section it returns the text unchanged, and on a well-formed
sectioned document it returns the document unchanged. (The original claim
fails on documents that are not in the engine's output normal form: the
rebuilt text gains a trailing newline.) -/
theorem C8_delete_no_match_noop :
    (∀ (text : Str) (ev : IssueEv),
      section_bounds (splitlinesCs text) matchIssues = none →
      delete_issue_line text ev = text) ∧
    (∀ (pre xs ys zs ws : List Str) (ev : IssueEv),
      wfDoc pre xs ys zs ws = true →
      (∀ l ∈ xs, (pstrip l == issueLineOf ev) = false ∧ prefMatchesEv ev l = false) →
      delete_issue_line (sectionedDoc pre xs ys zs ws) ev =
        sectionedDoc pre xs ys zs ws) := by
  constructor
  · intro text ev h
    rw [delete_issue_line, h]
  · intro pre xs ys zs ws ev hw hnm
    simp only [delete_issue_line, splitlines_sectionedDoc pre xs ys zs ws hw,
      bounds_issues pre xs ys zs ws hw,
      removeIssueIn_sectioned_nomatch pre xs ys zs ws ev hnm]
    exact ensureNl_joinNl_sectioned _ _ _ _ _ hw

/-- Counterexample to C8 as stated: a document that lacks the trailing
newline is returned with one appended, so the text is not unchanged even
though no issue line matches. -/
theorem C8_delete_no_match_counterexample :
    delete_issue_line (str "# issues found 🕵️‍♂️\n---\nend")
        ⟨str "01:00 PM", str "ps5", str "Crash"⟩ ≠
      str "# issues found 🕵️‍♂️\n---\nend" := by decide

/-- Witness for C8 (amended) at concrete inputs: a document with no Issues
Found section, and a well-formed sectioned document with one non-matching
issue line. -/
theorem C8_delete_no_match_witness :
    delete_issue_line (str "no sections here") ⟨str "t", str "p", str "d"⟩ =
      str "no sections here" ∧
    delete_issue_line (sectionedDoc [] [str "- note"] [] [] [])
        ⟨str "01:00 PM", str "ps5", str "Crash"⟩ =
      sectionedDoc [] [str "- note"] [] [] [] :=
  ⟨C8_delete_no_match_noop.1 (str "no sections here") ⟨str "t", str "p", str "d"⟩
     (by decide),
   C8_delete_no_match_noop.2 [] [str "- note"] [] [] []
     ⟨str "01:00 PM", str "ps5", str "Crash"⟩ (by decide) (by decide)⟩

-- ## Claim C3

/-- C3: the promotion flow feeds the issue's default step texts
(`default_plain_steps_lines`) to `build_steps_block_numbered` in "default"
mode; the renderer prepends the two fixed steps again and numbers the same
texts from 3, so the default steps appear twice (1–4) instead of the claimed
two fixed steps plus placeholder `3. `. -/
theorem C3_default_steps_rendered_twice :
    build_steps_block_numbered (str "gen5") (str "default")
        (default_plain_steps_lines (str "ps5")) =
      str "Steps to Reproduce:\n1. Launch the title > create or select build / save.\n2. Enter the City.\n3. Launch the title > create or select build / save.\n4. Enter the City." ∧
    build_steps_block_numbered (str "gen5") (str "default")
        (default_plain_steps_lines (str "ps5")) ≠
      str "Steps to Reproduce:\n1. Launch the title > create or select build / save.\n2. Enter the City.\n3. " :=
  ⟨by decide, by decide⟩

-- ## Claim C10

theorem endsNl_ensureNl (s : Str) : endsNl (ensureNl s) = true := by
  rw [ensureNl]
  by_cases h : endsNl s = true
  · rw [if_pos h]
    exact h
  · rw [if_neg h]
    exact endsNl_append_nl s

theorem scaffold_idem (d : Str) :
    find_or_create_sections (find_or_create_sections d) = find_or_create_sections d := by
  obtain ⟨e1, e2, e3, e4⟩ := scaffold_output_has d
  exact scaffold_noop _ e1 e2 e3 e4

theorem endsNl_scaffold_of_ne (text : Str) (h : find_or_create_sections text ≠ text) :
    endsNl (find_or_create_sections text) = true := by
  rw [find_or_create_sections_eq] at h ⊢
  by_cases hst : (scaffoldSt text).2 = true
  · rw [if_pos hst]
    exact endsNl_ensureNl _
  · rw [if_neg hst] at h
    exact absurd rfl h

theorem add_issue_line_shape (now text time_str platform desc : Str) :
    ∃ L, add_issue_line now text time_str platform desc = ensureNl L := by
  simp only [add_issue_line]
  exact ⟨_, rfl⟩

theorem delete_issue_line_shape (text : Str) (ev : IssueEv) :
    delete_issue_line text ev = text ∨ ∃ L, delete_issue_line text ev = ensureNl L := by
  rw [delete_issue_line]
  cases h : section_bounds (splitlinesCs text) matchIssues with
  | none => exact Or.inl rfl
  | some b =>
    obtain ⟨s0, e0⟩ := b
    exact Or.inr ⟨_, rfl⟩

theorem move_issue_to_found_shape (text : Str) (ev : IssueEv) (bugnum : Str) :
    ∃ L, move_issue_to_found text ev bugnum = ensureNl L := by
  obtain ⟨e1, e2, e3, e4⟩ := scaffold_output_has text
  have hib : (section_bounds (splitlinesCs (find_or_create_sections text))
      matchIssues).isSome = true := (section_bounds_isSome_iff _ _).mpr e1
  obtain ⟨bi, hbi⟩ := Option.isSome_iff_exists.mp hib
  obtain ⟨i1, i2⟩ := bi
  have hfd : (section_bounds (splitlinesCs (find_or_create_sections text))
      matchFound).isSome = true := (section_bounds_isSome_iff _ _).mpr e2
  obtain ⟨bf, hbf⟩ := Option.isSome_iff_exists.mp hfd
  simp only [move_issue_to_found, ensure_section, hbi, hbf]
  exact ⟨_, rfl⟩

set_option maxHeartbeats 2000000 in
theorem append_bug_shape (text : Str) (ev : IssueEv) (sp sm : Str)
    (pl : List Str) (o e : Str) :
    append_bug_and_move_issue text ev sp sm pl o e = find_or_create_sections text ∨
    ∃ L, append_bug_and_move_issue text ev sp sm pl o e = ensureNl L := by
  simp only [append_bug_and_move_issue, scaffold_idem text, ite_self]
  by_cases hM : containsSub (find_or_create_sections text)
      (bugMarker (generate_event_id ev)) = true
  · rw [if_pos hM]
    exact Or.inl rfl
  · rw [if_neg hM]
    exact Or.inr ⟨_, rfl⟩

/-- C10: every engine operation that returns a document different from its
input — scaffolding, appending an issue, deleting an issue, moving an issue
to Found/Invalid, promoting an issue to a bug — returns a string ending with
a newline character. -/
theorem C10_changed_outputs_end_with_newline :
    (∀ text : Str, find_or_create_sections text ≠ text →
      endsNl (find_or_create_sections text) = true) ∧
    (∀ now text time_str platform desc : Str,
      add_issue_line now text time_str platform desc ≠ text →
      endsNl (add_issue_line now text time_str platform desc) = true) ∧
    (∀ (text : Str) (ev : IssueEv), delete_issue_line text ev ≠ text →
      endsNl (delete_issue_line text ev) = true) ∧
    (∀ (text : Str) (ev : IssueEv) (bugnum : Str),
      move_issue_to_found text ev bugnum ≠ text →
      endsNl (move_issue_to_found text ev bugnum) = true) ∧
    (∀ (text : Str) (ev : IssueEv) (sp sm : Str) (pl : List Str) (o e : Str),
      append_bug_and_move_issue text ev sp sm pl o e ≠ text →
      endsNl (append_bug_and_move_issue text ev sp sm pl o e) = true) := by
  refine ⟨fun text h => endsNl_scaffold_of_ne text h, ?_, ?_, ?_, ?_⟩
  · intro now text time_str platform desc _
    obtain ⟨L, hL⟩ := add_issue_line_shape now text time_str platform desc
    rw [hL]
    exact endsNl_ensureNl L
  · intro text ev h
    rcases delete_issue_line_shape text ev with heq | ⟨L, hL⟩
    · exact absurd heq h
    · rw [hL]
      exact endsNl_ensureNl L
  · intro text ev bugnum _
    obtain ⟨L, hL⟩ := move_issue_to_found_shape text ev bugnum
    rw [hL]
    exact endsNl_ensureNl L
  · intro text ev sp sm pl o e h
    rcases append_bug_shape text ev sp sm pl o e with heq | ⟨L, hL⟩
    · rw [heq] at h ⊢
      exact endsNl_scaffold_of_ne text h
    · rw [hL]
      exact endsNl_ensureNl L

/-- Witness for C10: each of the five operations evaluated on a concrete
input it changes; the output ends with a newline. -/
theorem C10_changed_outputs_witness :
    endsNl (find_or_create_sections (str "")) = true ∧
    endsNl (add_issue_line (str "x") (str "") (str "01:00 PM") (str "PS5")
      (str "Crash")) = true ∧
    endsNl (delete_issue_line (str "# issues found 🕵️‍♂️\n---\n- [01:00 PM][ps5] Crash")
      ⟨str "01:00 PM", str "ps5", str "Crash"⟩) = true ∧
    endsNl (move_issue_to_found (str "") ⟨str "01:00 PM", str "ps5", str "Crash"⟩
      (str "")) = true ∧
    endsNl (append_bug_and_move_issue (str "") ⟨str "01:00 PM", str "ps5", str "Crash"⟩
      (str "") (str "custom") [] (str "o") (str "e")) = true :=
  ⟨C10_changed_outputs_end_with_newline.1 (str "") (by decide),
   C10_changed_outputs_end_with_newline.2.1 (str "x") (str "") (str "01:00 PM")
     (str "PS5") (str "Crash") (by decide),
   C10_changed_outputs_end_with_newline.2.2.1
     (str "# issues found 🕵️‍♂️\n---\n- [01:00 PM][ps5] Crash")
     ⟨str "01:00 PM", str "ps5", str "Crash"⟩ (by decide),
   C10_changed_outputs_end_with_newline.2.2.2.1 (str "")
     ⟨str "01:00 PM", str "ps5", str "Crash"⟩ (str "") (by decide),
   C10_changed_outputs_end_with_newline.2.2.2.2 (str "")
     ⟨str "01:00 PM", str "ps5", str "Crash"⟩ (str "") (str "custom") [] (str "o")
     (str "e") (by decide)⟩

-- ## Claim C2: support lemmas

theorem spliceAt_end (L blk : List Str) (n : Nat) (hn : n = L.length) :
    spliceAt L n blk = L ++ blk := by
  subst hn
  rw [spliceAt, List.take_length, List.drop_length, List.append_nil]

theorem eraseIdx_append_len (A B : List Str) (e : Str) (n : Nat) (hn : n = A.length) :
    (A ++ e :: B).eraseIdx n = A ++ B := by
  subst hn
  induction A with
  | nil => rfl
  | cons a A' ih => simpa [List.eraseIdx] using ih

theorem eatCI_head_ne (k : Char) (ks : Str) (c : Char) (u : Str)
    (hne : c.toLower ≠ k.toLower) : eatCI (k :: ks) (c :: u) = none := by
  show (if c.toLower = k.toLower then eatCI ks u else none) = none
  rw [if_neg hne]

theorem dropWS_cons_of_not_space (c : Char) (u : Str) (hc : isPySpace c = false) :
    dropWS (c :: u) = c :: u := by
  rw [dropWS, List.dropWhile_cons, if_neg (by simp [hc])]

theorem pstrip_hashhash (u : Str) : ∃ v, pstrip ('#' :: '#' :: u) = '#' :: '#' :: v := by
  rw [pstrip_cons_of_not_space '#' _ (by decide)]
  cases h : pstripRight u with
  | nil =>
    refine ⟨[], ?_⟩
    simp [pstripRight, h]
    decide
  | cons a t => exact ⟨a :: t, by simp [pstripRight, h]⟩

theorem matchIssues_false_hashhash (t : Str) : matchIssues ('#' :: '#' :: t) = false := by
  obtain ⟨v, hv⟩ := pstrip_hashhash t
  have h1 : eatCI (str "#") ('#' :: '#' :: v) = some ('#' :: v) := by
    simp [eatCI, str]
  have h2 : eatCI (str "issues") ('#' :: v) = none := by
    show (if ('#' : Char).toLower = ('i' : Char).toLower then eatCI (str "ssues") v
      else none) = none
    rw [if_neg (by decide)]
  simp only [matchIssues, hv, h1, dropWS_cons_of_not_space '#' v (by decide), h2]

theorem matchFound_false_hashhash (t : Str) : matchFound ('#' :: '#' :: t) = false := by
  obtain ⟨v, hv⟩ := pstrip_hashhash t
  have h1 : eatCI (str "#") ('#' :: '#' :: v) = some ('#' :: v) := by
    simp [eatCI, str]
  have h2 : eatCI (str "found") ('#' :: v) = none := by
    show (if ('#' : Char).toLower = ('f' : Char).toLower then eatCI (str "ound") v
      else none) = none
    rw [if_neg (by decide)]
  simp only [matchFound, hv, h1, dropWS_cons_of_not_space '#' v (by decide), h2]

theorem matchReports_false_hashhash (t : Str) : matchReports ('#' :: '#' :: t) = false := by
  obtain ⟨v, hv⟩ := pstrip_hashhash t
  have h1 : eatCI (str "#") ('#' :: '#' :: v) = some ('#' :: v) := by
    simp [eatCI, str]
  have h2 : eatCI (str "reports") ('#' :: v) = none := by
    show (if ('#' : Char).toLower = ('r' : Char).toLower then eatCI (str "eports") v
      else none) = none
    rw [if_neg (by decide)]
  simp only [matchReports, hv, h1, dropWS_cons_of_not_space '#' v (by decide), h2]

theorem matchBugs_false_hashhash (t : Str) : matchBugs ('#' :: '#' :: t) = false := by
  obtain ⟨v, hv⟩ := pstrip_hashhash t
  have h1 : eatCI (str "#") ('#' :: '#' :: v) = some ('#' :: v) := by
    simp [eatCI, str]
  have h2 : eatCI (str "bugs") ('#' :: v) = none := by
    show (if ('#' : Char).toLower = ('b' : Char).toLower then eatCI (str "ugs") v
      else none) = none
    rw [if_neg (by decide)]
  simp only [matchBugs, hv, h1, dropWS_cons_of_not_space '#' v (by decide), h2]

/-- Reports bounds on a sectioned line list whose Bugs body `ws2` is
arbitrary: the scan stops at the bugs header, so only the earlier parts need
to be well-formed. -/
theorem bounds_reports_parts (pre xs ys zs ws2 : List Str)
    (hpre : ∀ l ∈ pre, preLine l = true) (hxs : ∀ l ∈ xs, contentLine l = true)
    (hys : ∀ l ∈ ys, contentLine l = true) (hzs : ∀ l ∈ zs, contentLine l = true) :
    section_bounds (sectionedLines pre xs ys zs ws2) matchReports =
      some (pre.length + xs.length + ys.length + 6,
            pre.length + xs.length + ys.length + 6 + zs.length) := by
  have hshape : sectionedLines pre xs ys zs ws2 =
      (pre ++ issuesTitle :: dashes :: (xs ++ foundTitle :: dashes :: ys)) ++
        reportsTitle :: dashes :: (zs ++ bugsTitle :: dashes :: ws2) := by
    simp [sectionedLines]
  have hA : ∀ l ∈ pre ++ issuesTitle :: dashes :: (xs ++ foundTitle :: dashes :: ys),
      matchReports l = false := by
    intro l hl
    simp only [List.mem_append, List.mem_cons] at hl
    rcases hl with h | h | h | h | h | h | h
    · exact (preLine_noFam (hpre l h)).2.2.1
    · subst h; decide
    · subst h; decide
    · exact (contentLine_noFam (hxs l h)).2.2.1
    · subst h; decide
    · subst h; decide
    · exact (contentLine_noFam (hys l h)).2.2.1
  rw [hshape, section_bounds_shape _ _ reportsTitle matchReports hA matchReports_reportsTitle]
  rw [findIdxA_append_none zs _ (fun l hl => contentLine_noGeneric (hzs l hl)),
      findIdxA_cons_true _ (by decide : genericHeader bugsTitle = true)]
  simp only [Option.map_some', Nat.add_zero, Option.some.injEq, Prod.mk.injEq,
    List.length_append, List.length_cons]
  refine ⟨by ring, by ring⟩

theorem removeIssueIn_sectioned_match (pre x1 x2 ys zs ws2 : List Str) (ev : IssueEv)
    (hx1 : ∀ l ∈ x1, (pstrip l == issueLineOf ev) = false)
    (hstr : pstrip (issueLineOf ev) = issueLineOf ev) :
    removeIssueIn (sectionedLines pre (x1 ++ issueLineOf ev :: x2) ys zs ws2)
      (pre.length + 2) (pre.length + 2 + (x1 ++ issueLineOf ev :: x2).length) ev =
    sectionedLines pre (x1 ++ x2) ys zs ws2 := by
  have hsh : sectionedLines pre (x1 ++ issueLineOf ev :: x2) ys zs ws2 =
      (pre ++ [issuesTitle, dashes]) ++
        ((x1 ++ issueLineOf ev :: x2) ++ (foundTitle :: dashes ::
          (ys ++ reportsTitle :: dashes :: (zs ++ bugsTitle :: dashes :: ws2)))) := by
    simp [sectionedLines]
  have hrange : ((sectionedLines pre (x1 ++ issueLineOf ev :: x2) ys zs ws2).drop
      (pre.length + 2)).take
      (pre.length + 2 + (x1 ++ issueLineOf ev :: x2).length - (pre.length + 2)) =
      x1 ++ issueLineOf ev :: x2 := by
    rw [hsh]
    exact drop_take_section _ _ _ _ _
      (by simp only [List.length_append, List.length_cons, List.length_nil])
      (Nat.add_sub_cancel_left _ _)
  rw [removeIssueIn, findMatchIdx, hrange]
  rw [findIdxA_append_none x1 _ hx1,
    findIdxA_cons_true _ (by rw [hstr]; exact beq_self_eq_true _)]
  simp only [Option.map_some', Nat.zero_add]
  have hsh2 : sectionedLines pre (x1 ++ issueLineOf ev :: x2) ys zs ws2 =
      (pre ++ issuesTitle :: dashes :: x1) ++ issueLineOf ev ::
        (x2 ++ (foundTitle :: dashes ::
          (ys ++ reportsTitle :: dashes :: (zs ++ bugsTitle :: dashes :: ws2)))) := by
    simp [sectionedLines]
  rw [hsh2, eraseIdx_append_len _ _ _ _
    (by simp only [List.length_append, List.length_cons, List.length_nil]; ring)]
  simp [sectionedLines]

set_option maxHeartbeats 3000000 in
/-- The promotion equation: one call on a canonical document with an exactly
matching issue line appends the metadata comment and stripped bug block at
the Bugs end, removes the issue line, and appends its text at the Reports
end, all in the single returned string. -/
theorem append_bug_promo_eq
    (pre x1 x2 ys zs ws : List Str) (ev : IssueEv) (sp sm : Str)
    (pl : List Str) (o e : Str)
    (hw : wfDoc pre (x1 ++ issueLineOf ev :: x2) ys zs ws = true)
    (hx1 : ∀ l ∈ x1, (pstrip l == issueLineOf ev) = false)
    (hstr : pstrip (issueLineOf ev) = issueLineOf ev)
    (hfresh : containsSub (sectionedDoc pre (x1 ++ issueLineOf ev :: x2) ys zs ws)
      (bugMarker (generate_event_id ev)) = false) :
    append_bug_and_move_issue (sectionedDoc pre (x1 ++ issueLineOf ev :: x2) ys zs ws)
        ev sp sm pl o e =
      sectionedDoc pre (x1 ++ x2) ys (zs ++ [issueLineOf ev])
        (ws ++ [[], metaCommentOf (generate_event_id ev) ev (bugTemplateKey ev),
          pstrip (promotedBugBlock
            (sectionedDoc pre (x1 ++ issueLineOf ev :: x2) ys zs ws) ev sp sm pl o e)]) := by
  obtain ⟨hpre, hxs, hys, hzs, hws, hlast⟩ := wf_parts hw
  have hxs' : ∀ l ∈ x1 ++ x2, contentLine l = true := by
    intro l hl
    rcases List.mem_append.mp hl with h | h
    · exact hxs l (List.mem_append_left _ h)
    · exact hxs l (List.mem_append_right _ (List.mem_cons_of_mem _ h))
  simp only [append_bug_and_move_issue,
    scaffold_noop_sectioned pre (x1 ++ issueLineOf ev :: x2) ys zs ws hw, ite_self,
    splitlines_sectionedDoc pre (x1 ++ issueLineOf ev :: x2) ys zs ws hw,
    bounds_issues pre (x1 ++ issueLineOf ev :: x2) ys zs ws hw,
    bounds_bugs pre (x1 ++ issueLineOf ev :: x2) ys zs ws hw]
  rw [if_neg (show ¬(containsSub (sectionedDoc pre (x1 ++ issueLineOf ev :: x2) ys zs ws)
    (bugMarker (generate_event_id ev)) = true) from by
      rw [hfresh]; exact Bool.false_ne_true)]
  rw [spliceAt_end (sectionedLines pre (x1 ++ issueLineOf ev :: x2) ys zs ws)
    [[], metaCommentOf (generate_event_id ev) ev (bugTemplateKey ev),
      pstrip (promotedBugBlock (sectionedDoc pre (x1 ++ issueLineOf ev :: x2) ys zs ws)
        ev sp sm pl o e), []] _ (by rw [length_sectionedLines])]
  rw [show sectionedLines pre (x1 ++ issueLineOf ev :: x2) ys zs ws ++
      [[], metaCommentOf (generate_event_id ev) ev (bugTemplateKey ev),
        pstrip (promotedBugBlock (sectionedDoc pre (x1 ++ issueLineOf ev :: x2) ys zs ws)
          ev sp sm pl o e), []] =
      sectionedLines pre (x1 ++ issueLineOf ev :: x2) ys zs
        (ws ++ [[], metaCommentOf (generate_event_id ev) ev (bugTemplateKey ev),
          pstrip (promotedBugBlock (sectionedDoc pre (x1 ++ issueLineOf ev :: x2) ys zs ws)
            ev sp sm pl o e), []]) from by simp [sectionedLines]]
  rw [removeIssueIn_sectioned_match pre x1 x2 ys zs _ ev hx1 hstr]
  simp only [bounds_reports_parts pre (x1 ++ x2) ys zs _ hpre hxs' hys hzs]
  rw [show sectionedLines pre (x1 ++ x2) ys zs
      (ws ++ [[], metaCommentOf (generate_event_id ev) ev (bugTemplateKey ev),
        pstrip (promotedBugBlock (sectionedDoc pre (x1 ++ issueLineOf ev :: x2) ys zs ws)
          ev sp sm pl o e), []]) =
      (pre ++ issuesTitle :: dashes :: ((x1 ++ x2) ++ foundTitle :: dashes ::
        (ys ++ reportsTitle :: dashes :: zs))) ++
      (bugsTitle :: dashes ::
        (ws ++ [[], metaCommentOf (generate_event_id ev) ev (bugTemplateKey ev),
          pstrip (promotedBugBlock (sectionedDoc pre (x1 ++ issueLineOf ev :: x2) ys zs ws)
            ev sp sm pl o e), []])) from by simp [sectionedLines]]
  rw [spliceAt_append _ _ _ _
    (by simp only [List.length_append, List.length_cons, List.length_nil]; ring)]
  rw [show (pre ++ issuesTitle :: dashes :: ((x1 ++ x2) ++ foundTitle :: dashes ::
      (ys ++ reportsTitle :: dashes :: zs))) ++ [issueLineOf ev] ++
      (bugsTitle :: dashes ::
        (ws ++ [[], metaCommentOf (generate_event_id ev) ev (bugTemplateKey ev),
          pstrip (promotedBugBlock (sectionedDoc pre (x1 ++ issueLineOf ev :: x2) ys zs ws)
            ev sp sm pl o e), []])) =
      sectionedLines pre (x1 ++ x2) ys (zs ++ [issueLineOf ev])
        (ws ++ [[], metaCommentOf (generate_event_id ev) ev (bugTemplateKey ev),
          pstrip (promotedBugBlock (sectionedDoc pre (x1 ++ issueLineOf ev :: x2) ys zs ws)
            ev sp sm pl o e)]) ++ [[]] from by simp [sectionedLines]]
  rw [joinNl_concat _ _ (by simp [sectionedLines])]
  rw [ensureNl_of_ends _ (endsNl_append_nl _)]
  rfl

/-- C2: on a document with the canonical sections whose Issues Found body is
`x1 ++ issueLineOf ev :: x2` with the first exact match at that line, one
call to `append_bug_and_move_issue` returns the single document in which the
metadata comment and the rendered (stripped) bug block are appended at the
end of the Bugs section, the issue line is gone from Issues Found, and the
issue's line text is appended unchanged at the end of Reports Written — all
three effects visible in the one returned string, with the other sections
unchanged. -/
theorem C2_promotion_single_transaction
    (pre x1 x2 ys zs ws : List Str) (ev : IssueEv) (sp sm : Str)
    (pl : List Str) (o e : Str)
    (hw : wfDoc pre (x1 ++ issueLineOf ev :: x2) ys zs ws = true)
    (hx1 : ∀ l ∈ x1, (pstrip l == issueLineOf ev) = false)
    (hstr : pstrip (issueLineOf ev) = issueLineOf ev)
    (hfresh : containsSub (sectionedDoc pre (x1 ++ issueLineOf ev :: x2) ys zs ws)
      (bugMarker (generate_event_id ev)) = false) :
    append_bug_and_move_issue (sectionedDoc pre (x1 ++ issueLineOf ev :: x2) ys zs ws)
        ev sp sm pl o e =
      sectionedDoc pre (x1 ++ x2) ys (zs ++ [issueLineOf ev])
        (ws ++ [[], metaCommentOf (generate_event_id ev) ev (bugTemplateKey ev),
          pstrip (promotedBugBlock
            (sectionedDoc pre (x1 ++ issueLineOf ev :: x2) ys zs ws) ev sp sm pl o e)]) :=
  append_bug_promo_eq pre x1 x2 ys zs ws ev sp sm pl o e hw hx1 hstr hfresh

def evC2 : IssueEv := ⟨str "01:00 PM", str "ps5", str "Crash"⟩

def docC2 : Str := sectionedDoc [] [issueLineOf evC2] [] [] []

/-- Witness for C2 on a concrete one-issue document. -/
theorem C2_promotion_single_transaction_witness :
    append_bug_and_move_issue docC2 evC2 (str "") (str "custom") [] (str "o") (str "e") =
      sectionedDoc [] [] [] [issueLineOf evC2]
        [[], metaCommentOf (generate_event_id evC2) evC2 (bugTemplateKey evC2),
          pstrip (promotedBugBlock docC2 evC2 (str "") (str "custom") [] (str "o")
            (str "e"))] :=
  C2_promotion_single_transaction [] [] [] [] [] [] evC2 (str "") (str "custom") []
    (str "o") (str "e") (by decide) (by decide) (by decide) (by decide)

-- ## Claim C1: character-level toolkit

theorem mem_pstripRight {c : Char} : ∀ {s : Str}, c ∈ pstripRight s → c ∈ s := by
  intro s
  induction s with
  | nil => intro h; exact h
  | cons a t ih =>
    intro h
    rw [pstripRight] at h
    rcases hp : pstripRight t with _ | ⟨b, u⟩
    · rw [hp] at h
      by_cases ha : isPySpace a = true
      · rw [if_pos ha] at h
        simp at h
      · rw [if_neg ha] at h
        simp only [List.mem_singleton] at h
        exact h ▸ List.mem_cons_self a t
    · rw [hp] at h
      rcases List.mem_cons.mp h with rfl | h
      · exact List.mem_cons_self _ _
      · exact List.mem_cons_of_mem _ (ih (hp ▸ h))

theorem mem_pstrip {c : Char} {s : Str} (h : c ∈ pstrip s) : c ∈ s := by
  rw [pstrip] at h
  have h1 := mem_pstripRight h
  rw [pstripLeft] at h1
  exact (List.dropWhile_sublist _).subset h1

theorem digitChar_ok (k : Nat) :
    Nat.digitChar k ≠ '<' ∧ Nat.digitChar k ≠ '\n' := by
  by_cases hk : k < 16
  · interval_cases k <;> exact ⟨by decide, by decide⟩
  · rw [Nat.digitChar]
    iterate 16 rw [if_neg (by omega)]
    exact ⟨by decide, by decide⟩

theorem mem_hex8 {c : Char} {x : Nat} (h : c ∈ hex8 x) : ∃ k, c = Nat.digitChar k := by
  rw [hex8] at h
  obtain ⟨i, _, hc⟩ := List.mem_map.mp h
  exact ⟨_, hc.symm⟩

theorem mem_event_id {c : Char} {ev : IssueEv} (h : c ∈ generate_event_id ev) :
    ∃ k, c = Nat.digitChar k := by
  rw [generate_event_id, sha1hex] at h
  have h2 := List.take_subset 12 _ h
  simp only [List.mem_append] at h2
  rcases h2 with ((((h2 | h2) | h2) | h2) | h2) <;> exact mem_hex8 h2

theorem event_id_no_lt {ev : IssueEv} : ('<' : Char) ∉ generate_event_id ev := by
  intro h
  obtain ⟨k, hk⟩ := mem_event_id h
  exact (digitChar_ok k).1 hk.symm

theorem event_id_no_nl {ev : IssueEv} : ('\n' : Char) ∉ generate_event_id ev := by
  intro h
  obtain ⟨k, hk⟩ := mem_event_id h
  exact (digitChar_ok k).2 hk.symm

theorem mem_joinNl_char {c : Char} : ∀ {L : List Str}, c ∈ joinNl L →
    c = '\n' ∨ ∃ e ∈ L, c ∈ e := by
  intro L
  induction L with
  | nil => intro h; simp [joinNl] at h
  | cons e L' ih =>
    intro h
    cases L' with
    | nil =>
      exact Or.inr ⟨e, List.mem_cons_self _ _, h⟩
    | cons f M =>
      rw [show joinNl (e :: f :: M) = e ++ '\n' :: joinNl (f :: M) from rfl] at h
      rcases List.mem_append.mp h with h | h
      · exact Or.inr ⟨e, List.mem_cons_self _ _, h⟩
      · rcases List.mem_cons.mp h with rfl | h
        · exact Or.inl rfl
        · rcases ih h with h | ⟨g, hg, hcg⟩
          · exact Or.inl h
          · exact Or.inr ⟨g, List.mem_cons_of_mem _ hg, hcg⟩

theorem natStr_digitChar {c : Char} {n : Nat} (h : c ∈ natStr n) :
    ∃ k, c = Nat.digitChar k := by
  rw [natStr, Nat.toDigits] at h
  suffices H : ∀ (f m : Nat) (acc : List Char), c ∈ Nat.toDigitsCore 10 f m acc →
      c ∈ acc ∨ ∃ k, c = Nat.digitChar k by
    rcases H (n + 1) n [] h with h | h
    · simp at h
    · exact h
  intro f
  induction f with
  | zero =>
    intro m acc h2
    simp only [Nat.toDigitsCore] at h2
    exact Or.inl h2
  | succ f ih =>
    intro m acc h2
    rw [Nat.toDigitsCore] at h2
    by_cases hm : m / 10 = 0
    · rw [if_pos hm] at h2
      rcases List.mem_cons.mp h2 with rfl | h2
      · exact Or.inr ⟨_, rfl⟩
      · exact Or.inl h2
    · rw [if_neg hm] at h2
      rcases ih _ _ h2 with h2 | h2
      · rcases List.mem_cons.mp h2 with rfl | h2
        · exact Or.inr ⟨_, rfl⟩
        · exact Or.inl h2
      · exact Or.inr h2

-- ## Claim C1: the rendered bug block smuggles no marker head

theorem parseUserLine_val_subset {line k v : Str} (h : parseUserLine line = some (k, v)) :
    ∀ c ∈ v, c ∈ line := by
  simp only [parseUserLine] at h
  by_cases h0 : isPrefB (str "- [") line = true
  case neg => rw [if_neg h0] at h; exact Option.noConfusion h
  rw [if_pos h0] at h
  by_cases h1 : ((line.drop 3).takeWhile isAlnumB).isEmpty = true
  · rw [if_pos h1] at h
    exact Option.noConfusion h
  rw [if_neg h1] at h
  split at h
  · rename_i s3 heq
    by_cases h2 : (s3.takeWhile fun c => !(c == ']')).isEmpty = true
    · rw [if_pos h2] at h
      exact Option.noConfusion h
    rw [if_neg h2] at h
    split at h
    · rename_i s5 heq2
      by_cases h3 : (dropWS s5).isEmpty = true
      · rw [if_pos h3] at h
        simp only [Option.some.injEq, Prod.mk.injEq] at h
        intro c hc
        rw [← h.2] at hc
        have hc2 := mem_pstrip hc
        have hc3 := (List.takeWhile_sublist _).subset hc2
        have hc4 : c ∈ (line.drop 3).drop ((line.drop 3).takeWhile isAlnumB).length := by
          rw [heq]
          exact List.mem_cons_of_mem _ (List.mem_cons_of_mem _ hc3)
        exact List.mem_of_mem_drop (List.mem_of_mem_drop hc4)
      · rw [if_neg h3] at h
        exact Option.noConfusion h
    · exact Option.noConfusion h
  · exact Option.noConfusion h

theorem parse_usernames_val {text : Str} {kv : Str × Str} (h : kv ∈ parse_usernames text) :
    ∃ line ∈ splitlinesCs text, parseUserLine line = some kv := by
  rw [parse_usernames] at h
  have h1 := List.mem_of_mem_filter h
  obtain ⟨line, hline, hpl⟩ := List.mem_filterMap.mp h1
  exact ⟨line, hline, hpl⟩

theorem dictGet_cases (m : List (Str × Str)) (key : Str) :
    dictGet m key = [] ∨ ∃ kv ∈ m, dictGet m key = kv.2 := by
  rw [dictGet]
  cases hf : m.reverse.find? (fun kv => kv.1 == key) with
  | none => exact Or.inl rfl
  | some kv =>
    exact Or.inr ⟨kv, by simpa using List.mem_of_find?_eq_some hf, rfl⟩

theorem parseBuildLine_digits {line : Str} {g : Bool} {d : Str}
    (h : parseBuildLine line = some (g, d)) : ∀ c ∈ d, c.isDigit = true := by
  simp only [parseBuildLine] at h
  by_cases h0 : isPrefB (str "- [") line = true
  case neg => rw [if_neg h0] at h; exact Option.noConfusion h
  rw [if_pos h0] at h
  repeat' split at h
  all_goals
    first
    | exact Option.noConfusion h
    | (simp only [Option.some.injEq, Prod.mk.injEq] at h
       intro c hc
       rw [← h.2] at hc
       exact List.mem_takeWhile_imp hc)

theorem parse_builds_digits (text : Str) :
    (∀ c ∈ (parse_builds text).1, c.isDigit = true) ∧
    (∀ c ∈ (parse_builds text).2, c.isDigit = true) := by
  rw [parse_builds]
  suffices H : ∀ (lines : List Str) (acc : Str × Str),
      (∀ c ∈ acc.1, c.isDigit = true) → (∀ c ∈ acc.2, c.isDigit = true) →
      (∀ c ∈ (lines.foldl (fun acc line =>
        match parseBuildLine line with
        | some (true, d) => (d, acc.2)
        | some (false, d) => (acc.1, d)
        | none => acc) acc).1, c.isDigit = true) ∧
      (∀ c ∈ (lines.foldl (fun acc line =>
        match parseBuildLine line with
        | some (true, d) => (d, acc.2)
        | some (false, d) => (acc.1, d)
        | none => acc) acc).2, c.isDigit = true) by
    exact H (splitlinesCs text) ([], []) (by simp) (by simp)
  intro lines
  induction lines with
  | nil => intro acc h1 h2; exact ⟨h1, h2⟩
  | cons ln ls ih =>
    intro acc h1 h2
    rw [List.foldl_cons]
    cases hpl : parseBuildLine ln with
    | none =>
      simp only [hpl]
      exact ih acc h1 h2
    | some gd =>
      obtain ⟨g, d⟩ := gd
      cases g with
      | true =>
        simp only [hpl]
        exact ih _ (parseBuildLine_digits hpl) h2
      | false =>
        simp only [hpl]
        exact ih _ h1 (parseBuildLine_digits hpl)

theorem default_plain_steps_no_lt (p : Str) :
    ∀ l ∈ default_plain_steps_lines p, ('<' : Char) ∉ l := by
  intro l hl
  rw [default_plain_steps_lines] at hl
  rcases List.mem_cons.mp hl with rfl | hl
  · decide
  rcases List.mem_singleton.mp hl with rfl
  by_cases hk : (classify_platform p).getD (str "gen5") = str "gen5"
  · rw [if_pos hk]
    decide
  · rw [if_neg hk]
    decide

theorem numberLoop_no_lt (n0 : Nat) (lines : List Str)
    (hl : ∀ l ∈ lines, ('<' : Char) ∉ l) :
    ∀ l ∈ (numberLoop n0 lines).1, ('<' : Char) ∉ l := by
  rw [numberLoop]
  suffices H : ∀ (lines' : List Str) (acc : List Str × Nat),
      (∀ l ∈ lines', ('<' : Char) ∉ l) → (∀ l ∈ acc.1, ('<' : Char) ∉ l) →
      ∀ l ∈ (lines'.foldl (fun acc ln =>
        if (pstrip ln).isEmpty then acc
        else (acc.1 ++ [natStr acc.2 ++ str ". " ++ pstrip ln], acc.2 + 1)) acc).1,
        ('<' : Char) ∉ l by
    exact H lines ([], n0) hl (by simp)
  intro lines'
  induction lines' with
  | nil => intro acc _ h2; exact h2
  | cons ln ls ih =>
    intro acc h1 h2
    rw [List.foldl_cons]
    refine ih _ (fun l hll => h1 l (List.mem_cons_of_mem _ hll)) ?_
    by_cases ht : (pstrip ln).isEmpty = true
    · rw [if_pos ht]
      exact h2
    · rw [if_neg ht]
      intro l hll
      rcases List.mem_append.mp hll with hll | hll
      · exact h2 l hll
      rcases List.mem_singleton.mp hll with rfl
      intro hc
      rcases List.mem_append.mp hc with hc | hc
      · rcases List.mem_append.mp hc with hc | hc
        · obtain ⟨kk, hkk⟩ := natStr_digitChar hc
          exact (digitChar_ok kk).1 hkk.symm
        · exact absurd hc (by decide)
      · exact h1 ln (List.mem_cons_self _ _) (mem_pstrip hc)

theorem steps_block_no_lt (key mode : Str) (lines : List Str)
    (hl : ∀ l ∈ lines, ('<' : Char) ∉ l) :
    ('<' : Char) ∉ build_steps_block_numbered key mode lines := by
  intro hc
  rw [build_steps_block_numbered] at hc
  by_cases hm : mode = str "default"
  · rw [if_pos hm] at hc
    rcases mem_joinNl_char hc with h | ⟨e, he, hce⟩
    · exact absurd h (by decide)
    simp only [List.mem_append] at he
    rcases he with (he | he) | he
    · rcases List.mem_cons.mp he with rfl | he
      · exact absurd hce (by decide)
      rcases List.mem_cons.mp he with rfl | he
      · exact absurd hce (by decide)
      rcases List.mem_singleton.mp he with rfl
      rcases List.mem_append.mp hce with hc2 | hc2
      · exact absurd hc2 (by decide)
      by_cases hk : key = str "gen5"
      · rw [if_pos hk] at hc2
        exact absurd hc2 (by decide)
      · rw [if_neg hk] at hc2
        exact absurd hc2 (by decide)
    · exact numberLoop_no_lt 3 lines hl e he hce
    · by_cases hn : (numberLoop 3 lines).2 = 3
      · rw [if_pos hn] at he
        rcases List.mem_singleton.mp he with rfl
        exact absurd hce (by decide)
      · rw [if_neg hn] at he
        simp at he
  · rw [if_neg hm] at hc
    rcases mem_joinNl_char hc with h | ⟨e, he, hce⟩
    · exact absurd h (by decide)
    rcases List.mem_append.mp he with he | he
    · rcases List.mem_cons.mp he with rfl | he
      · exact absurd hce (by decide)
      · exact numberLoop_no_lt 1 lines hl e he hce
    · by_cases hn : (numberLoop 1 lines).2 = 1
      · rw [if_pos hn] at he
        rcases List.mem_singleton.mp he with rfl
        exact absurd hce (by decide)
      · rw [if_neg hn] at he
        simp at he

theorem make_bug_block_no_lt (su p u st o e b : Str)
    (hsu : ('<' : Char) ∉ su) (hp : ('<' : Char) ∉ p) (hu : ('<' : Char) ∉ u)
    (hst : ('<' : Char) ∉ st) (ho : ('<' : Char) ∉ o) (he : ('<' : Char) ∉ e)
    (hb : ('<' : Char) ∉ b) :
    ('<' : Char) ∉ make_bug_block su p u st o e b := by
  intro hc
  simp only [make_bug_block, List.mem_append, List.mem_cons, List.mem_singleton] at hc
  rcases hc with ((((((((((((hc | hc) | hc) | hc) | hc) | hc) | hc) | hc) | hc) | hc) | hc) |
    hc) | hc | hc) | hc <;>
    first
    | exact absurd hc (by decide)
    | exact hsu hc
    | exact hp hc
    | exact hu hc
    | exact hst hc
    | exact ho hc
    | exact he hc
    | (by_cases hbe : b.isEmpty = true
       · rw [if_pos hbe] at hc
         simp at hc
       · rw [if_neg hbe] at hc
         rcases List.mem_append.mp hc with hc | hc
         · exact absurd hc (by decide)
         · exact hb hc)

-- ## Claim C1: marker counting

theorem promotedBugBlock_no_lt (text : Str) (ev : IssueEv) (sp sm : Str)
    (pl : List Str) (o e : Str)
    (htext : ('<' : Char) ∉ text) (hsp : ('<' : Char) ∉ sp)
    (hpl : ∀ l ∈ pl, ('<' : Char) ∉ l) (ho : ('<' : Char) ∉ o)
    (he : ('<' : Char) ∉ e)
    (hdesc : ('<' : Char) ∉ ev.desc) (hplat : ('<' : Char) ∉ ev.platform) :
    ('<' : Char) ∉ promotedBugBlock text ev sp sm pl o e := by
  have husername : ('<' : Char) ∉ dictGet (parse_usernames text) ev.platform := by
    rcases dictGet_cases (parse_usernames text) ev.platform with h | ⟨kv, hkv, h⟩
    · rw [h]
      simp
    · rw [h]
      intro hc
      obtain ⟨line, hline, hpl2⟩ := parse_usernames_val hkv
      exact htext ((mem_splitlines_sub text line hline).subset
        (parseUserLine_val_subset hpl2 '<' hc))
  have hbuild : ∀ bsel : Str, (∀ c ∈ bsel, c.isDigit = true) → ('<' : Char) ∉ bsel := by
    intro bsel hd hc
    exact absurd (hd '<' hc) (by decide)
  have hsummary : ('<' : Char) ∉
      (if sp.isEmpty then ev.desc else sp ++ str ": " ++ ev.desc) := by
    by_cases hspe : sp.isEmpty = true
    · rw [if_pos hspe]
      exact hdesc
    · rw [if_neg hspe]
      intro hc
      rcases List.mem_append.mp hc with hc | hc
      · rcases List.mem_append.mp hc with hc | hc
        · exact hsp hc
        · exact absurd hc (by decide)
      · exact hdesc hc
  have hmerged : ∀ l ∈ ((if sm = str "default" then default_plain_steps_lines ev.platform
      else []) ++ pl.filter (fun ln => decide (ln ∉
        (if sm = str "default" then default_plain_steps_lines ev.platform else [])))),
      ('<' : Char) ∉ l := by
    intro l hl
    rcases List.mem_append.mp hl with hl | hl
    · by_cases hsm : sm = str "default"
      · rw [if_pos hsm] at hl
        exact default_plain_steps_no_lt _ l hl
      · rw [if_neg hsm] at hl
        simp at hl
    · exact hpl l (List.mem_of_mem_filter hl)
  have hbf : ('<' : Char) ∉ (if bugTemplateKey ev = str "gen4" then (parse_builds text).1
      else (parse_builds text).2) := by
    by_cases hg : bugTemplateKey ev = str "gen4"
    · rw [if_pos hg]
      exact hbuild _ (parse_builds_digits text).1
    · rw [if_neg hg]
      exact hbuild _ (parse_builds_digits text).2
  intro hc
  simp only [promotedBugBlock] at hc
  exact make_bug_block_no_lt _ _ _ _ _ _ _ hsummary hplat husername
    (steps_block_no_lt _ _ _ hmerged) ho he hbf hc

theorem bugTemplateKey_no_lt (ev : IssueEv) : ('<' : Char) ∉ bugTemplateKey ev := by
  rw [bugTemplateKey]
  rcases h : classify_platform ev.platform with _ | v
  · rw [Option.getD_none]
    decide
  · rw [Option.getD_some]
    simp only [classify_platform] at h
    by_cases h4 : lowerStr ev.platform ∈ GEN4_PLATFORMS
    · rw [if_pos h4] at h
      injection h with h'
      rw [← h']
      decide
    · rw [if_neg h4] at h
      by_cases h5 : lowerStr ev.platform ∈ GEN5_PLATFORMS
      · rw [if_pos h5] at h
        injection h with h'
        rw [← h']
        decide
      · rw [if_neg h5] at h
        exact Option.noConfusion h

theorem bugMarker_head (id : Str) : (bugMarker id).head? = some '<' := rfl

theorem bugMarker_ne_nil (id : Str) : bugMarker id ≠ [] := by
  intro h
  have h2 := bugMarker_head id
  rw [h] at h2
  exact Option.noConfusion h2

theorem bugMarker_no_nl {ev : IssueEv} :
    ('\n' : Char) ∉ bugMarker (generate_event_id ev) := by
  intro h
  rcases List.mem_append.mp h with h | h
  · exact absurd h (by decide)
  · exact event_id_no_nl h

/-- One marker occurrence in `marker ++ tail` when `<` occurs nowhere past
the head. -/
theorem countOcc_marker_once (id tail : Str) (hid : ('<' : Char) ∉ id)
    (htail : ('<' : Char) ∉ tail) :
    countOcc (bugMarker id ++ tail) (bugMarker id) = 1 := by
  have hshape : bugMarker id ++ tail =
      '<' :: (str "!-- bug-id:" ++ id ++ tail) := rfl
  have hrest : ('<' : Char) ∉ (str "!-- bug-id:" ++ id ++ tail) := by
    intro h
    rcases List.mem_append.mp h with h | h
    · rcases List.mem_append.mp h with h | h
      · exact absurd h (by decide)
      · exact hid h
    · exact htail h
  have hstep : countOcc (bugMarker id ++ tail) (bugMarker id) =
      (if isPrefB (bugMarker id) (bugMarker id ++ tail) then 1 else 0) +
        countOcc (str "!-- bug-id:" ++ id ++ tail) (bugMarker id) := by
    rw [hshape]
    rfl
  rw [hstep, isPrefB_append_self, if_pos rfl,
    countOcc_char_free _ _ '<' (bugMarker_head id) hrest]

theorem countOcc_nil_marker (id : Str) : countOcc [] (bugMarker id) = 0 := by
  have h : isPrefB (bugMarker id) [] = false := by
    rw [show bugMarker id = '<' :: str "!-- bug-id:" ++ id from rfl]
    rfl
  rw [countOcc, h]
  rfl

theorem map_countOcc_sum_zero (L : List Str) (pat : Str)
    (h : ∀ e ∈ L, countOcc e pat = 0) :
    (L.map (fun e => countOcc e pat)).sum = 0 := by
  rw [List.sum_eq_zero]
  intro x hx
  obtain ⟨e, he, rfl⟩ := List.mem_map.mp hx
  exact h e he

theorem no_lt_of_mem_sectioned {p xs ys zs ws : List Str} {e : Str}
    (hdoc : ('<' : Char) ∉ sectionedDoc p xs ys zs ws)
    (he : e ∈ sectionedLines p xs ys zs ws) : ('<' : Char) ∉ e := by
  intro hc
  apply hdoc
  rw [sectionedDoc]
  exact List.mem_append_left _ ((mem_joinNl_sub _ _ he).subset hc)

theorem mem_splitlines_rejoin (L : List Str) (hL : L ≠ []) (e : Str)
    (he : e ∈ L) (hb : breakfree e = true) :
    e ∈ splitlinesCs (joinNl L ++ ['\n']) := by
  rw [splitlines_flat L hL]
  exact List.mem_flatMap.mpr ⟨e, he, by rw [breakfree_single e hb]; exact List.mem_singleton_self e⟩

set_option maxHeartbeats 2000000 in
theorem append_bug_marker_noop (text : Str) (ev : IssueEv) (sp sm : Str)
    (pl : List Str) (o e : Str)
    (h : containsSub (find_or_create_sections text)
      (bugMarker (generate_event_id ev)) = true) :
    append_bug_and_move_issue text ev sp sm pl o e = find_or_create_sections text := by
  simp only [append_bug_and_move_issue, scaffold_idem text, ite_self]
  rw [if_pos h]

theorem mem_sectioned_of_pre {p xs ys zs ws : List Str} {t : Str} (h : t ∈ p) :
    t ∈ sectionedLines p xs ys zs ws := by
  simp only [sectionedLines, List.mem_append, List.mem_cons]
  tauto

theorem mem_sectioned_of_xs {p xs ys zs ws : List Str} {t : Str} (h : t ∈ xs) :
    t ∈ sectionedLines p xs ys zs ws := by
  simp only [sectionedLines, List.mem_append, List.mem_cons]
  tauto

theorem mem_sectioned_of_ys {p xs ys zs ws : List Str} {t : Str} (h : t ∈ ys) :
    t ∈ sectionedLines p xs ys zs ws := by
  simp only [sectionedLines, List.mem_append, List.mem_cons]
  tauto

theorem mem_sectioned_of_zs {p xs ys zs ws : List Str} {t : Str} (h : t ∈ zs) :
    t ∈ sectionedLines p xs ys zs ws := by
  simp only [sectionedLines, List.mem_append, List.mem_cons]
  tauto

theorem mem_sectioned_of_ws {p xs ys zs ws : List Str} {t : Str} (h : t ∈ ws) :
    t ∈ sectionedLines p xs ys zs ws := by
  simp only [sectionedLines, List.mem_append, List.mem_cons]
  tauto

theorem countOcc_zero_sectioned_lt (p X Y Z W : List Str) (pat : Str)
    (hh : pat.head? = some '<')
    (hp : ∀ t ∈ p, ('<' : Char) ∉ t) (hX : ∀ t ∈ X, ('<' : Char) ∉ t)
    (hY : ∀ t ∈ Y, ('<' : Char) ∉ t) (hZ : ∀ t ∈ Z, ('<' : Char) ∉ t)
    (hW : ∀ t ∈ W, ('<' : Char) ∉ t) :
    ∀ t ∈ sectionedLines p X Y Z W, countOcc t pat = 0 := by
  intro t ht
  refine countOcc_char_free _ _ '<' hh ?_
  simp only [sectionedLines, List.mem_append, List.mem_cons] at ht
  rcases ht with h | h | h | h | h | h | h | h | h | h | h | h | h
  · exact hp t h
  · subst h; decide
  · subst h; decide
  · exact hX t h
  · subst h; decide
  · subst h; decide
  · exact hY t h
  · subst h; decide
  · subst h; decide
  · exact hZ t h
  · subst h; decide
  · subst h; decide
  · exact hW t h

set_option maxHeartbeats 3000000 in
/-- C1: promotion is at-most-once — a second `append_bug_and_move_issue` with
the same triple and parameters returns the first result unchanged, and the
first result carries exactly one metadata-marker occurrence for the event
identifier derived from the triple. -/
theorem C1_promotion_at_most_once
    (pre x1 x2 ys zs ws : List Str) (ev : IssueEv) (sp sm : Str)
    (pl : List Str) (o e : Str)
    (hw : wfDoc pre (x1 ++ issueLineOf ev :: x2) ys zs ws = true)
    (hx1 : ∀ l ∈ x1, (pstrip l == issueLineOf ev) = false)
    (hstr : pstrip (issueLineOf ev) = issueLineOf ev)
    (hdoc : ('<' : Char) ∉ sectionedDoc pre (x1 ++ issueLineOf ev :: x2) ys zs ws)
    (hsp : ('<' : Char) ∉ sp) (hpl : ∀ l ∈ pl, ('<' : Char) ∉ l)
    (ho : ('<' : Char) ∉ o) (he : ('<' : Char) ∉ e) :
    append_bug_and_move_issue
        (append_bug_and_move_issue
          (sectionedDoc pre (x1 ++ issueLineOf ev :: x2) ys zs ws) ev sp sm pl o e)
        ev sp sm pl o e =
      append_bug_and_move_issue
        (sectionedDoc pre (x1 ++ issueLineOf ev :: x2) ys zs ws) ev sp sm pl o e ∧
    countOcc (append_bug_and_move_issue
        (sectionedDoc pre (x1 ++ issueLineOf ev :: x2) ys zs ws) ev sp sm pl o e)
      (bugMarker (generate_event_id ev)) = 1 := by
  have hfresh : containsSub (sectionedDoc pre (x1 ++ issueLineOf ev :: x2) ys zs ws)
      (bugMarker (generate_event_id ev)) = false := by
    cases hcs : containsSub (sectionedDoc pre (x1 ++ issueLineOf ev :: x2) ys zs ws)
      (bugMarker (generate_event_id ev)) with
    | false => rfl
    | true =>
      exfalso
      apply hdoc
      exact ((containsSub_iff _ _).mp hcs).subset
        (List.mem_append_left _ (by decide : ('<' : Char) ∈ str "<!-- bug-id:"))
  have hil : issueLineOf ev ∈ sectionedLines pre (x1 ++ issueLineOf ev :: x2) ys zs ws := by
    simp [sectionedLines]
  have hdesc : ('<' : Char) ∉ ev.desc := fun hc =>
    no_lt_of_mem_sectioned hdoc hil (List.mem_append_right _ hc)
  have hplat : ('<' : Char) ∉ ev.platform := fun hc =>
    no_lt_of_mem_sectioned hdoc hil
      (List.mem_append_left _ (List.mem_append_left _ (List.mem_append_right _ hc)))
  have htime : ('<' : Char) ∉ ev.time := fun hc =>
    no_lt_of_mem_sectioned hdoc hil
      (List.mem_append_left _ (List.mem_append_left _ (List.mem_append_left _
        (List.mem_append_left _ (List.mem_append_right _ hc)))))
  have hblock : ('<' : Char) ∉ pstrip (promotedBugBlock
      (sectionedDoc pre (x1 ++ issueLineOf ev :: x2) ys zs ws) ev sp sm pl o e) :=
    fun hc => promotedBugBlock_no_lt _ ev sp sm pl o e hdoc hsp hpl ho he hdesc hplat
      (mem_pstrip hc)
  have hmeta_eq : metaCommentOf (generate_event_id ev) ev (bugTemplateKey ev) =
      bugMarker (generate_event_id ev) ++ (str " time=" ++ ev.time ++ str " platform=" ++
        ev.platform ++ str " template=" ++ bugTemplateKey ev ++ str " -->") := by
    simp [metaCommentOf, List.append_assoc]
  have hmeta_tail : ('<' : Char) ∉ (str " time=" ++ ev.time ++ str " platform=" ++
      ev.platform ++ str " template=" ++ bugTemplateKey ev ++ str " -->") := by
    intro hc
    rcases List.mem_append.mp hc with hc | hc
    · rcases List.mem_append.mp hc with hc | hc
      · rcases List.mem_append.mp hc with hc | hc
        · rcases List.mem_append.mp hc with hc | hc
          · rcases List.mem_append.mp hc with hc | hc
            · rcases List.mem_append.mp hc with hc | hc
              · exact absurd hc (by decide)
              · exact htime hc
            · exact absurd hc (by decide)
          · exact hplat hc
        · exact absurd hc (by decide)
      · exact bugTemplateKey_no_lt ev hc
    · exact absurd hc (by decide)
  have hcount_meta : countOcc (metaCommentOf (generate_event_id ev) ev (bugTemplateKey ev))
      (bugMarker (generate_event_id ev)) = 1 := by
    rw [hmeta_eq]
    exact countOcc_marker_once _ _ event_id_no_lt hmeta_tail
  have hEq := append_bug_promo_eq pre x1 x2 ys zs ws ev sp sm pl o e hw hx1 hstr hfresh
  rw [hEq]
  have hLne : sectionedLines pre (x1 ++ x2) ys (zs ++ [issueLineOf ev])
      (ws ++ [[], metaCommentOf (generate_event_id ev) ev (bugTemplateKey ev),
        pstrip (promotedBugBlock (sectionedDoc pre (x1 ++ issueLineOf ev :: x2) ys zs ws)
          ev sp sm pl o e)]) ≠ [] := by
    simp [sectionedLines]
  have hhead : ∀ t : Str, t ∈ sectionedLines pre (x1 ++ x2) ys (zs ++ [issueLineOf ev])
      (ws ++ [[], metaCommentOf (generate_event_id ev) ev (bugTemplateKey ev),
        pstrip (promotedBugBlock (sectionedDoc pre (x1 ++ issueLineOf ev :: x2) ys zs ws)
          ev sp sm pl o e)]) → breakfree t = true →
      t ∈ splitlinesCs (sectionedDoc pre (x1 ++ x2) ys (zs ++ [issueLineOf ev])
        (ws ++ [[], metaCommentOf (generate_event_id ev) ev (bugTemplateKey ev),
          pstrip (promotedBugBlock (sectionedDoc pre (x1 ++ issueLineOf ev :: x2) ys zs ws)
            ev sp sm pl o e)])) := by
    intro t ht hb
    exact mem_splitlines_rejoin _ hLne t ht hb
  have hnoop2 : find_or_create_sections (sectionedDoc pre (x1 ++ x2) ys
      (zs ++ [issueLineOf ev])
      (ws ++ [[], metaCommentOf (generate_event_id ev) ev (bugTemplateKey ev),
        pstrip (promotedBugBlock (sectionedDoc pre (x1 ++ issueLineOf ev :: x2) ys zs ws)
          ev sp sm pl o e)])) =
      sectionedDoc pre (x1 ++ x2) ys (zs ++ [issueLineOf ev])
        (ws ++ [[], metaCommentOf (generate_event_id ev) ev (bugTemplateKey ev),
          pstrip (promotedBugBlock (sectionedDoc pre (x1 ++ issueLineOf ev :: x2) ys zs ws)
            ev sp sm pl o e)]) := by
    apply scaffold_noop
    · exact ⟨issuesTitle, hhead issuesTitle (by simp [sectionedLines]) (by decide),
        matchIssues_issuesTitle⟩
    · exact ⟨foundTitle, hhead foundTitle (by simp [sectionedLines]) (by decide),
        matchFound_foundTitle⟩
    · exact ⟨reportsTitle, hhead reportsTitle (by simp [sectionedLines]) (by decide),
        matchReports_reportsTitle⟩
    · exact ⟨bugsTitle, hhead bugsTitle (by simp [sectionedLines]) (by decide),
        matchBugs_bugsTitle⟩
  constructor
  · have hmark : containsSub (find_or_create_sections (sectionedDoc pre (x1 ++ x2) ys
        (zs ++ [issueLineOf ev])
        (ws ++ [[], metaCommentOf (generate_event_id ev) ev (bugTemplateKey ev),
          pstrip (promotedBugBlock (sectionedDoc pre (x1 ++ issueLineOf ev :: x2) ys zs ws)
            ev sp sm pl o e)])))
        (bugMarker (generate_event_id ev)) = true := by
      rw [hnoop2, containsSub_iff]
      have h1 : bugMarker (generate_event_id ev) <:+:
          metaCommentOf (generate_event_id ev) ev (bugTemplateKey ev) :=
        ⟨[], _, by rw [List.nil_append, ← hmeta_eq]⟩
      have h2 : metaCommentOf (generate_event_id ev) ev (bugTemplateKey ev) <:+:
          joinNl (sectionedLines pre (x1 ++ x2) ys (zs ++ [issueLineOf ev])
            (ws ++ [[], metaCommentOf (generate_event_id ev) ev (bugTemplateKey ev),
              pstrip (promotedBugBlock
                (sectionedDoc pre (x1 ++ issueLineOf ev :: x2) ys zs ws)
                ev sp sm pl o e)])) :=
        mem_joinNl_sub _ _ (by simp [sectionedLines])
      exact h1.trans (h2.trans ((List.prefix_append _ _).isInfix))
    rw [append_bug_marker_noop _ ev sp sm pl o e hmark, hnoop2]
  · rw [show sectionedDoc pre (x1 ++ x2) ys (zs ++ [issueLineOf ev])
        (ws ++ [[], metaCommentOf (generate_event_id ev) ev (bugTemplateKey ev),
          pstrip (promotedBugBlock (sectionedDoc pre (x1 ++ issueLineOf ev :: x2) ys zs ws)
            ev sp sm pl o e)]) =
      joinNl (sectionedLines pre (x1 ++ x2) ys (zs ++ [issueLineOf ev])
        (ws ++ [[], metaCommentOf (generate_event_id ev) ev (bugTemplateKey ev),
          pstrip (promotedBugBlock (sectionedDoc pre (x1 ++ issueLineOf ev :: x2) ys zs ws)
            ev sp sm pl o e)])) ++ ['\n'] from rfl]
    rw [countOcc_append_sep _ _ _ '\n' (bugMarker_ne_nil _) bugMarker_no_nl]
    rw [countOcc_joinNl _ _ (bugMarker_ne_nil _) bugMarker_no_nl]
    rw [countOcc_nil_marker]
    rw [show sectionedLines pre (x1 ++ x2) ys (zs ++ [issueLineOf ev])
        (ws ++ [[], metaCommentOf (generate_event_id ev) ev (bugTemplateKey ev),
          pstrip (promotedBugBlock (sectionedDoc pre (x1 ++ issueLineOf ev :: x2) ys zs ws)
            ev sp sm pl o e)]) =
      sectionedLines pre (x1 ++ x2) ys (zs ++ [issueLineOf ev]) (ws ++ [[]]) ++
        [metaCommentOf (generate_event_id ev) ev (bugTemplateKey ev),
         pstrip (promotedBugBlock (sectionedDoc pre (x1 ++ issueLineOf ev :: x2) ys zs ws)
           ev sp sm pl o e)] from by simp [sectionedLines]]
    rw [List.map_append, List.sum_append]
    have hzeros := countOcc_zero_sectioned_lt pre (x1 ++ x2) ys (zs ++ [issueLineOf ev])
      (ws ++ [[]]) (bugMarker (generate_event_id ev)) (bugMarker_head _)
      (fun t ht => no_lt_of_mem_sectioned hdoc (mem_sectioned_of_pre ht))
      (fun t ht => no_lt_of_mem_sectioned hdoc (mem_sectioned_of_xs (by
        rcases List.mem_append.mp ht with h | h
        · exact List.mem_append_left _ h
        · exact List.mem_append_right _ (List.mem_cons_of_mem _ h))))
      (fun t ht => no_lt_of_mem_sectioned hdoc (mem_sectioned_of_ys ht))
      (fun t ht => by
        rcases List.mem_append.mp ht with h | h
        · exact no_lt_of_mem_sectioned hdoc (mem_sectioned_of_zs h)
        · rcases List.mem_singleton.mp h with rfl
          exact no_lt_of_mem_sectioned hdoc (mem_sectioned_of_xs
            (List.mem_append_right _ (List.mem_cons_self _ _))))
      (fun t ht => by
        rcases List.mem_append.mp ht with h | h
        · exact no_lt_of_mem_sectioned hdoc (mem_sectioned_of_ws h)
        · rcases List.mem_singleton.mp h with rfl
          simp)
    rw [map_countOcc_sum_zero _ _ hzeros]
    have hcb : countOcc (pstrip (promotedBugBlock
        (sectionedDoc pre (x1 ++ issueLineOf ev :: x2) ys zs ws) ev sp sm pl o e))
        (bugMarker (generate_event_id ev)) = 0 :=
      countOcc_char_free _ _ '<' (bugMarker_head _) hblock
    simp [hcount_meta, hcb]

/-- Witness for C1 on a concrete one-issue document: promoting twice equals
promoting once, and the result carries exactly one marker occurrence. -/
theorem C1_promotion_at_most_once_witness :
    append_bug_and_move_issue
        (append_bug_and_move_issue docC2 evC2 (str "") (str "custom") [] (str "o")
          (str "e")) evC2 (str "") (str "custom") [] (str "o") (str "e") =
      append_bug_and_move_issue docC2 evC2 (str "") (str "custom") [] (str "o")
        (str "e") ∧
    countOcc (append_bug_and_move_issue docC2 evC2 (str "") (str "custom") [] (str "o")
        (str "e")) (bugMarker (generate_event_id evC2)) = 1 :=
  C1_promotion_at_most_once [] [] [] [] [] [] evC2 (str "") (str "custom") []
    (str "o") (str "e") (by decide) (by decide) (by decide) (by decide) (by decide)
    (by decide) (by decide) (by decide)

/-- Counterexample to C1 as stated (over every document): if the document
already contains the triple's marker twice, the promotion is a no-op and the
returned document does not contain exactly one metadata comment for the
identifier. -/
theorem C1_promotion_at_most_once_counterexample :
    countOcc (append_bug_and_move_issue
        (sectionedDoc [] [issueLineOf evC2] [] []
          [bugMarker (generate_event_id evC2) ++ str " x -->",
           bugMarker (generate_event_id evC2) ++ str " y -->"])
        evC2 (str "") (str "custom") [] (str "o") (str "e"))
      (bugMarker (generate_event_id evC2)) ≠ 1 := by decide

-- ## Claim C6: date round trip through `replace(" notes", "")`

theorem isPrefB_append_longer (p v w : Str) (h : p.length ≤ v.length) :
    isPrefB p (v ++ w) = isPrefB p v := by
  induction p generalizing v with
  | nil => simp [isPrefB]
  | cons a ps ih =>
    cases v with
    | nil => simp at h
    | cons c cs =>
      simp only [List.cons_append, isPrefB, List.append_eq]
      rw [ih cs (by simpa using h)]

theorem isPrefB_split_short (p v w : Str) (h : v.length < p.length)
    (hp : isPrefB p (v ++ w) = true) :
    isPrefB (p.drop v.length) w = true := by
  induction v generalizing p with
  | nil => simpa using hp
  | cons c cs ih =>
    cases p with
    | nil => simp at h
    | cons a ps =>
      simp only [List.cons_append, isPrefB, Bool.and_eq_true] at hp
      simpa using ih ps (by simpa using h) hp.2

theorem isPrefB_self (s : Str) : isPrefB s s = true := by
  have h := isPrefB_append_self s []
  rwa [List.append_nil] at h

theorem notes_no_border (k : Nat) (h1 : 0 < k) (h2 : k < 6) :
    isPrefB ((str " notes").drop k) (str " notes") = false := by
  interval_cases k <;> decide

theorem containsSub_of_drop_pref {s pat : Str} {i : Nat}
    (h : isPrefB pat (s.drop i) = true) : containsSub s pat = true := by
  rw [containsSub_iff]
  obtain ⟨t, ht⟩ := (isPrefB_iff _ _).mp h
  exact ⟨s.take i, t, by rw [List.append_assoc, ht, List.take_append_drop]⟩

theorem replaceAllGo_tail (pat : Str) (hpat : 0 < pat.length) :
    ∀ (d : Str) (n : Nat), (d ++ pat).length ≤ n →
    (∀ (d1 d2 : Str), d = d1 ++ d2 → d2 ≠ [] → isPrefB pat (d2 ++ pat) = false) →
    replaceAllGo pat n (d ++ pat) = d := by
  intro d
  induction d with
  | nil =>
    intro n hn _
    cases hp : pat with
    | nil => rw [hp] at hpat; simp at hpat
    | cons p ps =>
      subst hp
      cases n with
      | zero => simp at hn
      | succ n' =>
        rw [List.nil_append, replaceAllGo, if_pos (isPrefB_self _)]
        rw [show ps.drop ((p :: ps).length - 1) = [] from by simp]
        cases n' <;> rfl
  | cons c d' ih =>
    intro n hn hocc
    cases n with
    | zero => simp at hn
    | succ n' =>
      rw [List.cons_append, replaceAllGo]
      rw [if_neg ?hnp]
      · rw [ih n' (by simp at hn ⊢; omega)
          (fun d1 d2 hsplit hne => hocc (c :: d1) d2 (by rw [hsplit]; rfl) hne)]
      case hnp =>
        intro hcontra
        have h0 := hocc [] (c :: d') rfl (by simp)
        rw [List.cons_append] at h0
        rw [h0] at hcontra
        exact Bool.false_ne_true hcontra

theorem no_occ_of_not_contains (date : Str)
    (hnot : containsSub date (str " notes") = false) :
    ∀ (d1 d2 : Str), date = d1 ++ d2 → d2 ≠ [] →
      isPrefB (str " notes") (d2 ++ str " notes") = false := by
  intro d1 d2 hsplit hne
  by_cases hlen : (str " notes").length ≤ d2.length
  · rw [isPrefB_append_longer _ _ _ hlen]
    cases hpp : isPrefB (str " notes") d2 with
    | false => rfl
    | true =>
      exfalso
      have : isPrefB (str " notes") (date.drop d1.length) = true := by
        rw [hsplit, List.drop_left]
        exact hpp
      rw [containsSub_of_drop_pref this] at hnot
      exact absurd hnot (by decide)
  · cases hpp : isPrefB (str " notes") (d2 ++ str " notes") with
    | false => rfl
    | true =>
      exfalso
      have h6 : (str " notes").length = 6 := by decide
      have hk := isPrefB_split_short _ _ _ (by omega) hpp
      have hb := notes_no_border d2.length (by
        cases d2 with
        | nil => exact absurd rfl hne
        | cons a t => simp) (by omega)
      rw [hb] at hk
      exact Bool.false_ne_true hk

theorem replaceAll_date (date : Str)
    (hnot : containsSub date (str " notes") = false) :
    replaceAllE (str " notes") (date ++ str " notes") = date := by
  rw [replaceAllE]
  exact replaceAllGo_tail (str " notes") (by decide) date _ (le_refl _)
    (no_occ_of_not_contains date hnot)

theorem pstripLeft_cons_of_not_space (c : Char) (s : Str) (hc : isPySpace c = false) :
    pstripLeft (c :: s) = c :: s := by
  rw [pstripLeft, List.dropWhile_cons, if_neg (by simp [hc])]

theorem pstripRight_snoc (X : Str) (c : Char) (hc : isPySpace c = false) :
    pstripRight (X ++ [c]) = X ++ [c] := by
  induction X with
  | nil =>
    simp only [List.nil_append]
    simp [pstripRight, hc]
  | cons a t ih =>
    rw [List.cons_append, pstripRight, ih]
    cases h : t ++ [c] with
    | nil => simp at h
    | cons b u => rfl

-- ## Claim C6: parsing the rendered header lines

theorem takeWhile_append_stop (q : Char → Bool) (p : Str) (c : Char) (rest : Str)
    (hq : ∀ x ∈ p, q x = true) (hc : q c = false) :
    (p ++ c :: rest).takeWhile q = p := by
  induction p with
  | nil => simp [List.takeWhile_cons, hc]
  | cons a t ih =>
    rw [List.cons_append, List.takeWhile_cons, if_pos (hq a (List.mem_cons_self _ _))]
    rw [ih (fun x hx => hq x (List.mem_cons_of_mem _ hx))]

theorem eatCI_self_append (k rest : Str) : eatCI k (k ++ rest) = some rest := by
  induction k with
  | nil => rfl
  | cons c t ih =>
    rw [List.cons_append]
    show (if c.toLower = c.toLower then eatCI t (t ++ rest) else none) = some rest
    rw [if_pos rfl, ih]

theorem drop_left_len (A B : Str) (n : Nat) (hn : n = A.length) :
    (A ++ B).drop n = B := by
  subst hn
  exact List.drop_left A B

theorem parseUserLine_render (p u : Str) (hpne : p ≠ [])
    (hpalnum : ∀ c ∈ p, isAlnumB c = true) (hplow : lowerStr p = p)
    (hune : u ≠ []) (hub : (']' : Char) ∉ u) :
    parseUserLine (str "- [" ++ p ++ str "][" ++ u ++ str "]") = some (p, pstrip u) := by
  have hline : str "- [" ++ p ++ str "][" ++ u ++ str "]" =
      str "- [" ++ (p ++ (']' :: '[' :: (u ++ [']']))) := by
    simp only [List.append_assoc]
    rfl
  have h1 : isPrefB (str "- [") (str "- [" ++ (p ++ (']' :: '[' :: (u ++ [']'])))) =
      true := isPrefB_append_self _ _
  have h2 : (str "- [" ++ (p ++ (']' :: '[' :: (u ++ [']'])))).drop 3 =
      p ++ (']' :: '[' :: (u ++ [']'])) := drop_left_len _ _ 3 (by decide)
  have h3 : (p ++ (']' :: '[' :: (u ++ [']']))).takeWhile isAlnumB = p :=
    takeWhile_append_stop isAlnumB p ']' _ hpalnum (by decide)
  have h4 : p.isEmpty = false := by simp [hpne]
  have h5 : (p ++ (']' :: '[' :: (u ++ [']']))).drop p.length =
      ']' :: '[' :: (u ++ [']']) := drop_left_len _ _ _ rfl
  have h6 : (u ++ [']']).takeWhile (fun c => !(c == ']')) = u :=
    takeWhile_append_stop _ u ']' _ (fun x hx => by
      simp only [Bool.not_eq_true']
      exact beq_eq_false_iff_ne.mpr (fun h => hub (h ▸ hx))) (by decide)
  have h7 : u.isEmpty = false := by simp [hune]
  have h8 : (u ++ [']']).drop u.length = [']'] := drop_left_len _ _ _ rfl
  rw [hline]
  simp only [parseUserLine, h1, h2, h3, h4, h5, h6, h7, h8, if_true, ite_false,
    Bool.false_eq_true, dropWS, List.dropWhile_nil, List.isEmpty_nil, hplow]

theorem parseUserLine_none_of_head (l : Str) (h : isPrefB (str "- [") l = false) :
    parseUserLine l = none := by
  rw [parseUserLine, if_neg (by rw [h]; exact Bool.false_ne_true)]

theorem parseUserLine_build_none (tag d rest : Str) (htag : ∀ c ∈ tag, isAlnumB c = true)
    (hd : d ≠ []) (hdd : ∀ c ∈ d, (']' : Char) ≠ c)
    (hrest : (dropWS rest).isEmpty = false) :
    parseUserLine (str "- [" ++ (tag ++ (']' :: '[' :: (d ++ ']' :: rest)))) = none := by
  have h1 : isPrefB (str "- [") (str "- [" ++ (tag ++ (']' :: '[' :: (d ++ ']' :: rest)))) =
      true := isPrefB_append_self _ _
  have h2 : (str "- [" ++ (tag ++ (']' :: '[' :: (d ++ ']' :: rest)))).drop 3 =
      tag ++ (']' :: '[' :: (d ++ ']' :: rest)) := drop_left_len _ _ 3 (by decide)
  have h3 : (tag ++ (']' :: '[' :: (d ++ ']' :: rest))).takeWhile isAlnumB = tag :=
    takeWhile_append_stop isAlnumB tag ']' _ htag (by decide)
  have h5 : (tag ++ (']' :: '[' :: (d ++ ']' :: rest))).drop tag.length =
      ']' :: '[' :: (d ++ ']' :: rest) := drop_left_len _ _ _ rfl
  have h6 : (d ++ ']' :: rest).takeWhile (fun c => !(c == ']')) = d :=
    takeWhile_append_stop _ d ']' _ (fun x hx => by
      simp only [Bool.not_eq_true']
      exact beq_eq_false_iff_ne.mpr (fun h => hdd x hx h.symm)) (by decide)
  have h7 : d.isEmpty = false := by simp [hd]
  have h8 : (d ++ ']' :: rest).drop d.length = ']' :: rest := drop_left_len _ _ _ rfl
  by_cases htne : tag.isEmpty = true
  · simp only [parseUserLine, h1, h2, h3, htne, if_true, ite_true]
  · simp only [parseUserLine, h1, h2, h3, htne, h5, h6, h7, h8, hrest, if_true,
      ite_false, Bool.false_eq_true]

theorem parseBuildLine_none_of_head (l : Str) (h : isPrefB (str "- [") l = false) :
    parseBuildLine l = none := by
  rw [parseBuildLine, if_neg (by rw [h]; exact Bool.false_ne_true)]

theorem parseBuildLine_user_none (p u : Str) (c0 : Char) (t0 : Str) (hp : p = c0 :: t0)
    (hg : c0.toLower ≠ 'g') :
    parseBuildLine (str "- [" ++ p ++ str "][" ++ u ++ str "]") = none := by
  have hline : str "- [" ++ p ++ str "][" ++ u ++ str "]" =
      str "- [" ++ (p ++ (']' :: '[' :: (u ++ [']']))) := by
    simp only [List.append_assoc]
    rfl
  have h1 : isPrefB (str "- [") (str "- [" ++ (p ++ (']' :: '[' :: (u ++ [']'])))) =
      true := isPrefB_append_self _ _
  have h2 : (str "- [" ++ (p ++ (']' :: '[' :: (u ++ [']'])))).drop 3 =
      p ++ (']' :: '[' :: (u ++ [']'])) := drop_left_len _ _ 3 (by decide)
  have h3 : eatCI (str "gen4") (p ++ (']' :: '[' :: (u ++ [']']))) = none := by
    rw [hp, List.cons_append]
    exact eatCI_head_ne 'g' _ c0 _ (by simpa using hg)
  have h4 : eatCI (str "gen5") (p ++ (']' :: '[' :: (u ++ [']']))) = none := by
    rw [hp, List.cons_append]
    exact eatCI_head_ne 'g' _ c0 _ (by simpa using hg)
  rw [hline]
  simp only [parseBuildLine, h1, h2, h3, h4, if_true]

theorem eatCI_gen4_gen5_none (Z : Str) :
    eatCI (str "gen4") (str "gen5" ++ Z) = none := by
  show (if ('g' : Char).toLower = ('g' : Char).toLower then
    eatCI (str "en4") (str "en5" ++ Z) else none) = none
  rw [if_pos rfl]
  show (if ('e' : Char).toLower = ('e' : Char).toLower then
    eatCI (str "n4") (str "n5" ++ Z) else none) = none
  rw [if_pos rfl]
  show (if ('n' : Char).toLower = ('n' : Char).toLower then
    eatCI (str "4") (str "5" ++ Z) else none) = none
  rw [if_pos rfl]
  show (if ('5' : Char).toLower = ('4' : Char).toLower then
    eatCI ([] : Str) Z else none) = none
  rw [if_neg (by decide)]

theorem parseBuildLine_render (tag : Str) (g4 : Bool)
    (htag : (if g4 = true then str "gen4" else str "gen5") = tag) (d : Str)
    (hd : d ≠ []) (hdig : ∀ c ∈ d, c.isDigit = true) :
    parseBuildLine (str "- [" ++ (tag ++ (']' :: '[' ::
      (d ++ ']' :: str " --> build number")))) = some (g4, d) := by
  have h1 : isPrefB (str "- [") (str "- [" ++ (tag ++ (']' :: '[' ::
      (d ++ ']' :: str " --> build number")))) = true := isPrefB_append_self _ _
  have h2 : (str "- [" ++ (tag ++ (']' :: '[' ::
      (d ++ ']' :: str " --> build number")))).drop 3 =
      tag ++ (']' :: '[' :: (d ++ ']' :: str " --> build number")) :=
    drop_left_len _ _ 3 (by decide)
  have h6 : (d ++ ']' :: str " --> build number").takeWhile Char.isDigit = d :=
    takeWhile_append_stop Char.isDigit d ']' _ hdig (by decide)
  have h7 : d.isEmpty = false := by simp [hd]
  have h8 : (d ++ ']' :: str " --> build number").drop d.length =
      ']' :: str " --> build number" := drop_left_len _ _ _ rfl
  have h9 : dropWS (str " --> build number") = str "--> build number" := by decide
  have h10 : eatCI (str "-->") (str "--> build number") = some (str " build number") := by
    decide
  have h11 : dropWS (str " build number") = str "build number" := by decide
  have h12 : eatCI (str "build number") (str "build number") = some [] := by decide
  have h13 : dropWS ([] : Str) = [] := rfl
  cases g4 with
  | true =>
    have h3 : eatCI (str "gen4") (tag ++ (']' :: '[' ::
        (d ++ ']' :: str " --> build number"))) =
        some (']' :: '[' :: (d ++ ']' :: str " --> build number")) := by
      rw [show tag = str "gen4" from by rw [← htag]; rfl]
      exact eatCI_self_append _ _
    simp only [parseBuildLine, h1, h2, h3, h6, h7, h8, h9, h10, h11, h12, h13, if_true,
      ite_true, ite_false, Bool.false_eq_true, List.isEmpty_nil]
  | false =>
    have htag5 : tag = str "gen5" := by rw [← htag]; rfl
    have h3 : eatCI (str "gen4") (tag ++ (']' :: '[' ::
        (d ++ ']' :: str " --> build number"))) = none := by
      rw [htag5]
      exact eatCI_gen4_gen5_none _
    have h4 : eatCI (str "gen5") (tag ++ (']' :: '[' ::
        (d ++ ']' :: str " --> build number"))) =
        some (']' :: '[' :: (d ++ ']' :: str " --> build number")) := by
      rw [htag5]
      exact eatCI_self_append _ _
    simp only [parseBuildLine, h1, h2, h3, h4, h6, h7, h8, h9, h10, h11, h12, h13, if_true,
      ite_true, ite_false, Bool.false_eq_true, List.isEmpty_nil]

-- ## Claim C6: digit strings are plain text

theorem digit_code (c : Char) (h : c.isDigit = true) : 48 ≤ c.toNat ∧ c.toNat ≤ 57 := by
  simp [Char.isDigit] at h
  exact ⟨h.1, h.2⟩

theorem digit_plain (c : Char) (h : c.isDigit = true) :
    isPySpace c = false ∧ isBreakCh c = false := by
  obtain ⟨h1, h2⟩ := digit_code c h
  constructor
  · simp only [isPySpace, Bool.or_eq_false_iff, decide_eq_false_iff_not]
    refine ⟨⟨⟨⟨⟨?_, ?_⟩, ?_⟩, ?_⟩, ?_⟩, ?_⟩ <;>
      exact fun hc => absurd (hc ▸ h1) (by decide)
  · simp only [isBreakCh, Bool.or_eq_false_iff, decide_eq_false_iff_not]
    refine ⟨⟨⟨⟨⟨⟨⟨⟨⟨?_, ?_⟩, ?_⟩, ?_⟩, ?_⟩, ?_⟩, ?_⟩, ?_⟩, ?_⟩, ?_⟩ <;>
      first
      | exact fun hc => absurd (hc ▸ h1) (by decide)
      | (intro hc; omega)

theorem pstripRight_no_ws (s : Str) (h : ∀ c ∈ s, isPySpace c = false) :
    pstripRight s = s := by
  induction s with
  | nil => rfl
  | cons a t ih =>
    rw [pstripRight, ih (fun c hc => h c (List.mem_cons_of_mem _ hc))]
    cases t with
    | nil => simp [h a (List.mem_cons_self _ _)]
    | cons b u => rfl

theorem pstrip_no_ws (s : Str) (h : ∀ c ∈ s, isPySpace c = false) : pstrip s = s := by
  cases s with
  | nil => rfl
  | cons a t =>
    rw [pstrip, pstripLeft_cons_of_not_space a t (h a (List.mem_cons_self _ _))]
    exact pstripRight_no_ws _ h

theorem digits_facts (d : Str) (h : isDigitsB d = true) :
    d ≠ [] ∧ (∀ c ∈ d, c.isDigit = true) ∧ pstrip d = d ∧ breakfree d = true ∧
      (∀ c ∈ d, (']' : Char) ≠ c) := by
  rw [isDigitsB, Bool.and_eq_true, Bool.not_eq_true', List.all_eq_true] at h
  obtain ⟨hne0, hall⟩ := h
  have hne : d ≠ [] := by
    intro hd
    rw [hd] at hne0
    simp at hne0
  refine ⟨hne, hall, pstrip_no_ws d (fun c hc => (digit_plain c (hall c hc)).1), ?_, ?_⟩
  · rw [breakfree, List.all_eq_true]
    intro c hc
    simp [(digit_plain c (hall c hc)).2]
  · intro c hc hbr
    have := digit_code c (hall c hc)
    rw [← hbr] at this
    exact absurd this (by decide)

-- ## Claim C6: assembling the rendered header's parses

theorem foldl_parseBuild_none (L : List Str) (acc : Str × Str)
    (h : ∀ l ∈ L, parseBuildLine l = none) :
    L.foldl (fun acc line =>
      match parseBuildLine line with
      | some (true, d) => (d, acc.2)
      | some (false, d) => (acc.1, d)
      | none => acc) acc = acc := by
  induction L generalizing acc with
  | nil => rfl
  | cons l ls ih =>
    rw [List.foldl_cons, h l (List.mem_cons_self _ _)]
    exact ih _ (fun x hx => h x (List.mem_cons_of_mem _ hx))

theorem filterMap_parseUser_none (L : List Str) (h : ∀ l ∈ L, parseUserLine l = none) :
    L.filterMap parseUserLine = [] := by
  induction L with
  | nil => rfl
  | cons l ls ih =>
    rw [List.filterMap_cons, h l (List.mem_cons_self _ _)]
    exact ih (fun x hx => h x (List.mem_cons_of_mem _ hx))

theorem filterMap_user_lines (ps : List Str) (usernames : Str → Str)
    (hps : ∀ p ∈ ps, p ≠ [] ∧ (∀ c ∈ p, isAlnumB c = true) ∧ lowerStr p = p)
    (hu : ∀ p ∈ ps, (']' : Char) ∉ usernames p) :
    (ps.filterMap (fun p => if (usernames p).isEmpty then none
      else some (str "- [" ++ p ++ str "][" ++ usernames p ++ str "]"))).filterMap
        parseUserLine =
    ps.filterMap (fun p => if (usernames p).isEmpty then none
      else some (p, pstrip (usernames p))) := by
  induction ps with
  | nil => rfl
  | cons q qs ih =>
    have htail := ih (fun p hp => hps p (List.mem_cons_of_mem _ hp))
      (fun p hp => hu p (List.mem_cons_of_mem _ hp))
    simp only [List.filterMap_cons]
    by_cases hq : (usernames q).isEmpty = true
    · rw [if_pos hq, if_pos hq]
      exact htail
    · rw [if_neg hq, if_neg hq]
      obtain ⟨hqne, hqaln, hqlow⟩ := hps q (List.mem_cons_self _ _)
      rw [List.filterMap_cons,
        parseUserLine_render q (usernames q) hqne hqaln hqlow
          (by simpa using hq) (hu q (List.mem_cons_self _ _)), htail]

theorem dictGet_eq_of_unique (m : List (Str × Str)) (k v : Str)
    (hmem : (k, v) ∈ m) (huniq : ∀ kv ∈ m, kv.1 = k → kv.2 = v) :
    dictGet m k = v := by
  rw [dictGet]
  cases hf : m.reverse.find? (fun kv => kv.1 == k) with
  | none =>
    exfalso
    have := List.find?_eq_none.mp hf (k, v) (List.mem_reverse.mpr hmem)
    simp at this
  | some kv =>
    have h1 := List.find?_some hf
    have h2 := List.mem_of_find?_eq_some hf
    exact huniq kv (List.mem_reverse.mp h2) (by simpa using h1)

theorem dictGet_eq_nil (m : List (Str × Str)) (k : Str)
    (h : ∀ kv ∈ m, kv.1 ≠ k) : dictGet m k = [] := by
  rw [dictGet]
  cases hf : m.reverse.find? (fun kv => kv.1 == k) with
  | none => rfl
  | some kv =>
    exfalso
    have h1 := List.find?_some hf
    have h2 := List.mem_of_find?_eq_some hf
    exact h kv (List.mem_reverse.mp h2) (by simpa using h1)

theorem splitlines_ensureNl_last_empty (L : List Str) (hL : L ≠ [])
    (hb : ∀ e ∈ L, breakfree e = true) :
    splitlinesCs (ensureNl (joinNl (L ++ [[]]))) = L := by
  rw [joinNl_concat _ _ hL, ensureNl_of_ends _ (endsNl_append_nl _)]
  exact splitlines_join_breakfree L hL hb

theorem length_dropWhile_le_aux (p : Char → Bool) (l : Str) :
    (List.dropWhile p l).length ≤ l.length := by
  induction l with
  | nil => simp
  | cons a t ih =>
    rw [List.dropWhile_cons]
    by_cases hp : p a = true
    · rw [if_pos hp]
      simp only [List.length_cons]
      omega
    · rw [if_neg hp]

theorem head_not_space_of_pstripLeft (c : Char) (t : Str)
    (h : pstripLeft (c :: t) = c :: t) : isPySpace c = false := by
  by_cases hc : isPySpace c = true
  · exfalso
    rw [pstripLeft, List.dropWhile_cons, if_pos (by simp [hc])] at h
    have hlen := length_dropWhile_le_aux isPySpace t
    have := congrArg List.length h
    simp only [List.length_cons] at this
    omega
  · simpa using hc

theorem ALL_PLATFORMS_facts :
    ∀ p ∈ ALL_PLATFORMS, p ≠ [] ∧ (∀ c ∈ p, isAlnumB c = true) ∧ lowerStr p = p ∧
      breakfree p = true ∧ p.head?.map Char.toLower ≠ some 'g' ∧
      (p == str "gen4") = false ∧ (p == str "gen5") = false := by decide

theorem header_lines (date : Str) (usernames : Str → Str) (g4 g5 : Str)
    (hdbf : breakfree date = true)
    (husers : ∀ p ∈ ALL_PLATFORMS, (usernames p).isEmpty = true ∨
      (pstrip (usernames p) = usernames p ∧ breakfree (usernames p) = true ∧
        (']' : Char) ∉ usernames p)) :
    splitlinesCs (header_only_block date usernames g4 g5) =
      (str "# " ++ date ++ str " notes") :: dashes ::
        (ALL_PLATFORMS.filterMap (fun p => if (usernames p).isEmpty then none
          else some (str "- [" ++ p ++ str "][" ++ usernames p ++ str "]")) ++
         (if isDigitsB (pstrip g4) then
           [str "- [gen4][" ++ pstrip g4 ++ str "] --> build number"] else []) ++
         (if isDigitsB (pstrip g5) then
           [str "- [gen5][" ++ pstrip g5 ++ str "] --> build number"] else [])) := by
  simp only [header_only_block]
  rw [show ((str "# " ++ date ++ str " notes") :: dashes ::
      (ALL_PLATFORMS.filterMap (fun p => if (usernames p).isEmpty then none
        else some (str "- [" ++ p ++ str "][" ++ usernames p ++ str "]")) ++
       (if isDigitsB (pstrip g4) then
         [str "- [gen4][" ++ pstrip g4 ++ str "] --> build number"] else []) ++
       (if isDigitsB (pstrip g5) then
         [str "- [gen5][" ++ pstrip g5 ++ str "] --> build number"] else []) ++ [[]])) =
    ((str "# " ++ date ++ str " notes") :: dashes ::
      (ALL_PLATFORMS.filterMap (fun p => if (usernames p).isEmpty then none
        else some (str "- [" ++ p ++ str "][" ++ usernames p ++ str "]")) ++
       (if isDigitsB (pstrip g4) then
         [str "- [gen4][" ++ pstrip g4 ++ str "] --> build number"] else []) ++
       (if isDigitsB (pstrip g5) then
         [str "- [gen5][" ++ pstrip g5 ++ str "] --> build number"] else []))) ++ [[]]
    from by simp]
  apply splitlines_ensureNl_last_empty _ (by simp)
  intro e he
  rcases List.mem_cons.mp he with rfl | he
  · simp only [breakfree, List.all_append, Bool.and_eq_true]
    refine ⟨⟨by decide, ?_⟩, by decide⟩
    rw [← breakfree]
    exact hdbf
  rcases List.mem_cons.mp he with rfl | he
  · decide
  rcases List.mem_append.mp he with he | he
  · rcases List.mem_append.mp he with he | he
    · obtain ⟨p, hp, hpe⟩ := List.mem_filterMap.mp he
      by_cases hq : (usernames p).isEmpty = true
      · rw [if_pos hq] at hpe
        exact Option.noConfusion hpe
      · rw [if_neg hq] at hpe
        injection hpe with hpe
        rw [← hpe]
        obtain ⟨_, _, _, hpbf, _, _, _⟩ := ALL_PLATFORMS_facts p hp
        have hubf : breakfree (usernames p) = true := by
          rcases husers p hp with h | ⟨_, h, _⟩
          · rw [h] at hq
            simp at hq
          · exact h
        simp only [breakfree, List.all_append, Bool.and_eq_true]
        exact ⟨⟨⟨⟨by decide, by rw [← breakfree]; exact hpbf⟩, by decide⟩,
          by rw [← breakfree]; exact hubf⟩, by decide⟩
    · by_cases hd : isDigitsB (pstrip g4) = true
      · rw [if_pos hd] at he
        rcases List.mem_singleton.mp he with rfl
        obtain ⟨_, _, _, hdbf4, _⟩ := digits_facts _ hd
        simp only [breakfree, List.all_append, Bool.and_eq_true]
        exact ⟨⟨by decide, by rw [← breakfree]; exact hdbf4⟩, by decide⟩
      · rw [if_neg hd] at he
        simp at he
  · by_cases hd : isDigitsB (pstrip g5) = true
    · rw [if_pos hd] at he
      rcases List.mem_singleton.mp he with rfl
      obtain ⟨_, _, _, hdbf5, _⟩ := digits_facts _ hd
      simp only [breakfree, List.all_append, Bool.and_eq_true]
      exact ⟨⟨by decide, by rw [← breakfree]; exact hdbf5⟩, by decide⟩
    · rw [if_neg hd] at he
      simp at he

theorem filter_keep (l : List (Str × Str)) (q : (Str × Str) → Bool)
    (h : ∀ kv ∈ l, q kv = true) : l.filter q = l := by
  induction l with
  | nil => rfl
  | cons a t ih =>
    rw [List.filter_cons, if_pos (h a (List.mem_cons_self _ _))]
    rw [ih (fun x hx => h x (List.mem_cons_of_mem _ hx))]

theorem parseUser_bl4 (d : Str) (hd : isDigitsB d = true) :
    parseUserLine (str "- [gen4][" ++ d ++ str "] --> build number") = none := by
  obtain ⟨hne, _, _, _, hdd⟩ := digits_facts d hd
  rw [show str "- [gen4][" ++ d ++ str "] --> build number" =
    str "- [" ++ (str "gen4" ++ (']' :: '[' :: (d ++ ']' :: str " --> build number"))) from by
      simp only [List.append_assoc]; rfl]
  exact parseUserLine_build_none (str "gen4") d (str " --> build number")
    (by decide) hne hdd (by decide)

theorem parseUser_bl5 (d : Str) (hd : isDigitsB d = true) :
    parseUserLine (str "- [gen5][" ++ d ++ str "] --> build number") = none := by
  obtain ⟨hne, _, _, _, hdd⟩ := digits_facts d hd
  rw [show str "- [gen5][" ++ d ++ str "] --> build number" =
    str "- [" ++ (str "gen5" ++ (']' :: '[' :: (d ++ ']' :: str " --> build number"))) from by
      simp only [List.append_assoc]; rfl]
  exact parseUserLine_build_none (str "gen5") d (str " --> build number")
    (by decide) hne hdd (by decide)

theorem parseBuild_bl4 (d : Str) (hd : isDigitsB d = true) :
    parseBuildLine (str "- [gen4][" ++ d ++ str "] --> build number") = some (true, d) := by
  obtain ⟨hne, hdig, _⟩ := digits_facts d hd
  rw [show str "- [gen4][" ++ d ++ str "] --> build number" =
    str "- [" ++ (str "gen4" ++ (']' :: '[' :: (d ++ ']' :: str " --> build number"))) from by
      simp only [List.append_assoc]; rfl]
  exact parseBuildLine_render (str "gen4") true rfl d hne hdig

theorem parseBuild_bl5 (d : Str) (hd : isDigitsB d = true) :
    parseBuildLine (str "- [gen5][" ++ d ++ str "] --> build number") = some (false, d) := by
  obtain ⟨hne, hdig, _⟩ := digits_facts d hd
  rw [show str "- [gen5][" ++ d ++ str "] --> build number" =
    str "- [" ++ (str "gen5" ++ (']' :: '[' :: (d ++ ']' :: str " --> build number"))) from by
      simp only [List.append_assoc]; rfl]
  exact parseBuildLine_render (str "gen5") false rfl d hne hdig

theorem foldl_build_block4 (g : Str) (hg : g = [] ∨ isDigitsB g = true) (a b : Str) :
    List.foldl (fun acc line =>
      match parseBuildLine line with
      | some (true, d) => (d, acc.2)
      | some (false, d) => (acc.1, d)
      | none => acc) (a, b)
      (if isDigitsB (pstrip g) then
        [str "- [gen4][" ++ pstrip g ++ str "] --> build number"] else []) =
    ((if isDigitsB (pstrip g) then g else a), b) := by
  rcases hg with rfl | hd
  · rfl
  · have hps := (digits_facts g hd).2.2.1
    rw [hps, if_pos hd, if_pos hd]
    simp only [List.foldl_cons, List.foldl_nil, parseBuild_bl4 g hd]

theorem foldl_build_block5 (g : Str) (hg : g = [] ∨ isDigitsB g = true) (a b : Str) :
    List.foldl (fun acc line =>
      match parseBuildLine line with
      | some (true, d) => (d, acc.2)
      | some (false, d) => (acc.1, d)
      | none => acc) (a, b)
      (if isDigitsB (pstrip g) then
        [str "- [gen5][" ++ pstrip g ++ str "] --> build number"] else []) =
    (a, (if isDigitsB (pstrip g) then g else b)) := by
  rcases hg with rfl | hd
  · rfl
  · have hps := (digits_facts g hd).2.2.1
    rw [hps, if_pos hd, if_pos hd]
    simp only [List.foldl_cons, List.foldl_nil, parseBuild_bl5 g hd]

set_option maxHeartbeats 1000000 in
/-- C6: header round trip — corrected. For a non-empty date token with no line
break, no leading whitespace and no occurrence of `" notes"`, a username map
whose bindings are either empty or strip-stable, break-free and `]`-free, and
build strings that are each empty or all digits, parsing `header_only_block`'s
output with `parse_date_and_header_end`, `parse_usernames` and `parse_builds`
recovers the date, every platform's username, and both build numbers. (As
literally stated the claim fails: see the counterexample, where the empty date
token round-trips to `"notes"`.) -/
theorem C6_header_round_trip (date : Str) (usernames : Str → Str) (g4 g5 : Str)
    (hdne : date ≠ [])
    (hdlead : pstripLeft date = date)
    (hdbf : breakfree date = true)
    (hnotes : containsSub date (str " notes") = false)
    (husers : ∀ p ∈ ALL_PLATFORMS, (usernames p).isEmpty = true ∨
      (pstrip (usernames p) = usernames p ∧ breakfree (usernames p) = true ∧
        (']' : Char) ∉ usernames p))
    (hb4 : g4 = [] ∨ isDigitsB g4 = true)
    (hb5 : g5 = [] ∨ isDigitsB g5 = true) :
    (parse_date_and_header_end (header_only_block date usernames g4 g5)).1 = date ∧
    (∀ p ∈ ALL_PLATFORMS,
      dictGet (parse_usernames (header_only_block date usernames g4 g5)) p = usernames p) ∧
    parse_builds (header_only_block date usernames g4 g5) = (g4, g5) := by
  have hT := header_lines date usernames g4 g5 hdbf husers
  have hnohead : isPrefB (str "- [") (str "# " ++ date ++ str " notes") = false := by
    rw [show str "# " ++ date ++ str " notes" =
      '#' :: (str " " ++ date ++ str " notes") from rfl]
    exact isPrefB_head_ne '-' '#' _ _ (by decide)
  refine ⟨?_, ?_, ?_⟩
  · -- date recovery
    have hpref : isPrefB (str "# ") (str "# " ++ date ++ str " notes") = true := by
      rw [List.append_assoc]
      exact isPrefB_append_self _ _
    have hdrop : (str "# " ++ date ++ str " notes").drop 2 = date ++ str " notes" := by
      rw [List.append_assoc]
      exact drop_left_len _ _ 2 (by decide)
    have hstrip : pstrip (date ++ str " notes") = date ++ str " notes" := by
      obtain ⟨c, t, hdc⟩ : ∃ c t, date = c :: t := by
        cases date with
        | nil => exact absurd rfl hdne
        | cons a b => exact ⟨a, b, rfl⟩
      have hdl2 : pstripLeft (c :: t) = c :: t := by rw [← hdc]; exact hdlead
      have hc : isPySpace c = false := head_not_space_of_pstripLeft c t hdl2
      rw [hdc, List.cons_append, pstrip, pstripLeft_cons_of_not_space c _ hc]
      rw [show c :: (t ++ str " notes") = (c :: (t ++ str " note")) ++ ['s'] from by
        rw [show str " notes" = str " note" ++ ['s'] from by decide]
        simp [List.append_assoc]]
      exact pstripRight_snoc _ 's' (by decide)
    simp only [parse_date_and_header_end, hT]
    rw [hpref, if_pos rfl, hdrop, hstrip]
    exact replaceAll_date date hnotes
  · -- username recovery
    have hu' : ∀ p ∈ ALL_PLATFORMS, (']' : Char) ∉ usernames p := by
      intro p hp
      rcases husers p hp with h | ⟨_, _, h⟩
      · have h0 : usernames p = [] := by
          cases hup : usernames p with
          | nil => rfl
          | cons a t => rw [hup] at h; simp at h
        rw [h0]
        simp
      · exact h
    have hfacts : ∀ p ∈ ALL_PLATFORMS,
        p ≠ [] ∧ (∀ c ∈ p, isAlnumB c = true) ∧ lowerStr p = p := fun p hp =>
      ⟨(ALL_PLATFORMS_facts p hp).1, (ALL_PLATFORMS_facts p hp).2.1,
        (ALL_PLATFORMS_facts p hp).2.2.1⟩
    have hU4none : ∀ l ∈ (if isDigitsB (pstrip g4) then
        [str "- [gen4][" ++ pstrip g4 ++ str "] --> build number"] else []),
        parseUserLine l = none := by
      intro l hl
      by_cases hd : isDigitsB (pstrip g4) = true
      · rw [if_pos hd] at hl
        rcases List.mem_singleton.mp hl with rfl
        exact parseUser_bl4 _ hd
      · rw [if_neg hd] at hl
        simp at hl
    have hU5none : ∀ l ∈ (if isDigitsB (pstrip g5) then
        [str "- [gen5][" ++ pstrip g5 ++ str "] --> build number"] else []),
        parseUserLine l = none := by
      intro l hl
      by_cases hd : isDigitsB (pstrip g5) = true
      · rw [if_pos hd] at hl
        rcases List.mem_singleton.mp hl with rfl
        exact parseUser_bl5 _ hd
      · rw [if_neg hd] at hl
        simp at hl
    have hdashu : parseUserLine dashes = none := by decide
    have hM : parse_usernames (header_only_block date usernames g4 g5) =
        ALL_PLATFORMS.filterMap (fun p => if (usernames p).isEmpty then none
          else some (p, pstrip (usernames p))) := by
      rw [parse_usernames, hT]
      simp only [List.filterMap_cons, parseUserLine_none_of_head _ hnohead, hdashu,
        List.filterMap_append, filterMap_parseUser_none _ hU4none,
        filterMap_parseUser_none _ hU5none, List.append_nil]
      rw [filterMap_user_lines ALL_PLATFORMS usernames hfacts hu']
      apply filter_keep
      intro kv hkv
      obtain ⟨p, hp, hpe⟩ := List.mem_filterMap.mp hkv
      by_cases hq : (usernames p).isEmpty = true
      · rw [if_pos hq] at hpe
        exact Option.noConfusion hpe
      · rw [if_neg hq] at hpe
        injection hpe with hpe
        rw [← hpe]
        obtain ⟨_, _, _, _, _, hg4f, hg5f⟩ := ALL_PLATFORMS_facts p hp
        simp [hg4f, hg5f, hp]
    intro p0 hp0
    rw [hM]
    by_cases hq : (usernames p0).isEmpty = true
    · have h0 : usernames p0 = [] := by
        cases hup : usernames p0 with
        | nil => rfl
        | cons a t => rw [hup] at hq; simp at hq
      rw [h0]
      apply dictGet_eq_nil
      intro kv hkv
      obtain ⟨p, hp, hpe⟩ := List.mem_filterMap.mp hkv
      by_cases hqe : (usernames p).isEmpty = true
      · rw [if_pos hqe] at hpe
        exact Option.noConfusion hpe
      · rw [if_neg hqe] at hpe
        injection hpe with hpe
        intro hk
        apply hqe
        rw [← hpe] at hk
        have hpp : p = p0 := hk
        rw [hpp, h0]
        rfl
    · have hps : pstrip (usernames p0) = usernames p0 := by
        rcases husers p0 hp0 with h | ⟨h, _, _⟩
        · exact absurd h hq
        · exact h
      rw [← hps]
      apply dictGet_eq_of_unique
      · exact List.mem_filterMap.mpr ⟨p0, hp0, by rw [if_neg hq]⟩
      · intro kv hkv hk1
        obtain ⟨p, hp, hpe⟩ := List.mem_filterMap.mp hkv
        by_cases hqe : (usernames p).isEmpty = true
        · rw [if_pos hqe] at hpe
          exact Option.noConfusion hpe
        · rw [if_neg hqe] at hpe
          injection hpe with hpe
          have hpp : p = p0 := by rw [← hpe] at hk1; exact hk1
          rw [← hpe, hpp]
  · -- build recovery
    have hnoneA : ∀ l ∈ ([str "# " ++ date ++ str " notes", dashes] ++
        ALL_PLATFORMS.filterMap (fun p => if (usernames p).isEmpty then none
          else some (str "- [" ++ p ++ str "][" ++ usernames p ++ str "]"))),
        parseBuildLine l = none := by
      intro l hl
      rcases List.mem_append.mp hl with hl | hl
      · rcases List.mem_cons.mp hl with rfl | hl
        · exact parseBuildLine_none_of_head _ hnohead
        · rcases List.mem_cons.mp hl with rfl | hl
          · decide
          · simp at hl
      · obtain ⟨p, hp, hpe⟩ := List.mem_filterMap.mp hl
        by_cases hq : (usernames p).isEmpty = true
        · rw [if_pos hq] at hpe
          exact Option.noConfusion hpe
        · rw [if_neg hq] at hpe
          injection hpe with hpe
          rw [← hpe]
          obtain ⟨hpne, _, _, _, hghead, _, _⟩ := ALL_PLATFORMS_facts p hp
          obtain ⟨c0, t0, hpc⟩ : ∃ c0 t0, p = c0 :: t0 := by
            cases p with
            | nil => exact absurd rfl hpne
            | cons a b => exact ⟨a, b, rfl⟩
          refine parseBuildLine_user_none p (usernames p) c0 t0 hpc ?_
          intro hg
          apply hghead
          rw [hpc]
          simp [hg]
    have hsplit : (str "# " ++ date ++ str " notes") :: dashes ::
        (ALL_PLATFORMS.filterMap (fun p => if (usernames p).isEmpty then none
          else some (str "- [" ++ p ++ str "][" ++ usernames p ++ str "]")) ++
         (if isDigitsB (pstrip g4) then
           [str "- [gen4][" ++ pstrip g4 ++ str "] --> build number"] else []) ++
         (if isDigitsB (pstrip g5) then
           [str "- [gen5][" ++ pstrip g5 ++ str "] --> build number"] else [])) =
        (([str "# " ++ date ++ str " notes", dashes] ++
          ALL_PLATFORMS.filterMap (fun p => if (usernames p).isEmpty then none
            else some (str "- [" ++ p ++ str "][" ++ usernames p ++ str "]"))) ++
         (if isDigitsB (pstrip g4) then
           [str "- [gen4][" ++ pstrip g4 ++ str "] --> build number"] else [])) ++
        (if isDigitsB (pstrip g5) then
          [str "- [gen5][" ++ pstrip g5 ++ str "] --> build number"] else []) := by
      simp
    rw [parse_builds, hT, hsplit, List.foldl_append, List.foldl_append,
      foldl_parseBuild_none _ _ hnoneA, foldl_build_block4 g4 hb4,
      foldl_build_block5 g5 hb5]
    have e4 : (if isDigitsB (pstrip g4) then g4 else ([] : Str)) = g4 := by
      rcases hb4 with rfl | h4
      · rfl
      · rw [(digits_facts g4 h4).2.2.1, if_pos h4]
    have e5 : (if isDigitsB (pstrip g5) then g5 else ([] : Str)) = g5 := by
      rcases hb5 with rfl | h5
      · rfl
      · rw [(digits_facts g5 h5).2.2.1, if_pos h5]
    rw [e4, e5]

/-- C6 counterexample: the empty date token contains no occurrence of
`" notes"`, yet rendering it with `header_only_block` and parsing back with
`parse_date_and_header_end` yields the non-empty date token `"notes"` — the
literal round-trip claim fails for it. -/
theorem C6_header_round_trip_counterexample :
    containsSub ([] : Str) (str " notes") = false ∧
    (parse_date_and_header_end
      (header_only_block [] (fun _ => str "alice") [] [])).1 = str "notes" ∧
    (parse_date_and_header_end
      (header_only_block [] (fun _ => str "alice") [] [])).1 ≠ ([] : Str) := by
  refine ⟨by decide, by decide, by decide⟩

theorem C6_header_round_trip_witness :
    (parse_date_and_header_end (header_only_block (str "2025-01-02")
      (fun p => if p == str "ps5" then str "alice" else []) (str "123") [])).1 =
        str "2025-01-02" ∧
    dictGet (parse_usernames (header_only_block (str "2025-01-02")
      (fun p => if p == str "ps5" then str "alice" else []) (str "123") []))
        (str "ps5") = str "alice" ∧
    parse_builds (header_only_block (str "2025-01-02")
      (fun p => if p == str "ps5" then str "alice" else []) (str "123") []) =
        (str "123", []) := by
  have h := C6_header_round_trip (str "2025-01-02")
    (fun p => if p == str "ps5" then str "alice" else []) (str "123") []
    (by decide) (by decide) (by decide) (by decide) (by decide) (by decide) (by decide)
  refine ⟨h.1, ?_, h.2.2⟩
  rw [h.2.1 (str "ps5") (by decide)]
  decide
